import Mathlib

/-!
# alienInvasion: the World coordinator

A shallow embedding of `model`, `pkg/config`, `service/sim`, `service/sim/types` and
`service/sim/state`.

* A Go `map[string]V` is a `GoMap V`: the list of its entries.  The order of the list
  stands for one possible iteration order; `get?`, `set` and `delete` follow the Go
  operations `m[k]`, `m[k] = v` and `delete(m, k)`.  The maps of a running World have
  distinct keys, every city is stored under its `Name` and every alien under its `Name`;
  `World.WF` states this, `NewWorld` establishes it and every handler keeps it.
* The World loop is the only writer of the world state, so every handler is a function
  from a `World` to the next `World` together with the list of effects it performed, in
  program order: sends on an alien's mailbox, calls on the `WorldEventsListener`, and
  the start of an alien task.
* A `*City` held by a handler is the key under which `World.cities` stores that city.
* The field `fightTimer` of a city is the duration the timer was last set to, `none` for
  a nil timer: `AddAlien` starts or resets the timer.  The goroutine that waits for the
  timer sends the `CityDestroyRequest` once the timer has fired (`City.fightOver`) and
  then sets the field back to nil (`City.clearFightTimer`); it runs beside the World
  loop, and `Engine.step` interleaves its two statements with whole handlers of the loop,
  the request waiting on `worldRequestsCh` until the loop takes it.
* `uint` and `time.Duration` are 64-bit; sums and products wrap.
* The loops of `Alien.Run` and `World.Run` are functions of the list of cases their
  `select` takes; a case taken after the loop has ended is ignored.
* A mailbox `worldEventsCh` is the list of events sent and not yet received; a send on
  the channel of capacity 1 finds room when nothing is pending.
* `NewCityMapFromFile` is a function of the lines the scanner yields, `sim.New` of the
  options it is called with, and `GenAliensFromConfig` of the configured values and the
  outcomes of `rand.Int63n`; a panic is the result `none`.
-/

/-- A Go `map[string]V`, given by its entries. -/
structure GoMap (V : Type) where
  entries : List (String × V)
deriving DecidableEq, Repr

namespace GoMap

variable {V : Type}

/-- The value stored under `k` in a list of entries. -/
def lookupIn : List (String × V) → String → Option V
  | [], _ => none
  | (k, v) :: rest, x => if k = x then some v else lookupIn rest x

/-- Store `v` under `x`: overwrite the entry when the key is present, add one otherwise. -/
def setIn : List (String × V) → String → V → List (String × V)
  | [], x, v => [(x, v)]
  | (k, w) :: rest, x, v => if k = x then (k, v) :: rest else (k, w) :: setIn rest x v

/-- Drop the entry stored under `x`, if any. -/
def deleteIn : List (String × V) → String → List (String × V)
  | [], _ => []
  | (k, v) :: rest, x => if k = x then deleteIn rest x else (k, v) :: deleteIn rest x

/-- The map `make(map[string]V)`. -/
def empty : GoMap V := ⟨[]⟩

/-- The lookup `v, ok := m[k]`. -/
def get? (m : GoMap V) (k : String) : Option V := lookupIn m.entries k

/-- The lookup `m[k]` that yields the zero value when the key is missing. -/
def getD (m : GoMap V) (k : String) (zero : V) : V := (m.get? k).getD zero

/-- The assignment `m[k] = v`. -/
def set (m : GoMap V) (k : String) (v : V) : GoMap V := ⟨setIn m.entries k v⟩

/-- The statement `delete(m, k)`. -/
def delete (m : GoMap V) (k : String) : GoMap V := ⟨deleteIn m.entries k⟩

/-- The length `len(m)`. -/
def len (m : GoMap V) : Nat := m.entries.length

/-- The keys of the map, in iteration order. -/
def keys (m : GoMap V) : List String := m.entries.map Prod.fst

/-- A write through the pointer stored under `k`. -/
def modify (m : GoMap V) (k : String) (f : V → V) : GoMap V :=
  match m.get? k with
  | some v => m.set k (f v)
  | none => m

end GoMap

/-- Wrap an integer to the range of `int64`. -/
def wrapInt64 (x : Int) : Int := (x + 2 ^ 63) % 2 ^ 64 - 2 ^ 63

/-- Wrap a natural number to the range of `uint`. -/
def wrapUint (x : Nat) : Nat := x % 2 ^ 64

namespace model

/-- The struct `model.City`: a city name and its four road slots (empty if none). -/
structure City where
  Name : String
  NorthRoad : String
  EastRoad : String
  SouthRoad : String
  WestRoad : String
deriving DecidableEq, Repr

/-- The zero value of `model.City`. -/
def City.zero : City := ⟨"", "", "", "", ""⟩

/-- The method `City.AvailableRoads`. -/
def City.AvailableRoads (c : City) : List String :=
  let roads : List String := []
  let roads := if c.NorthRoad ≠ "" then roads ++ [c.NorthRoad] else roads
  let roads := if c.EastRoad ≠ "" then roads ++ [c.EastRoad] else roads
  let roads := if c.SouthRoad ≠ "" then roads ++ [c.SouthRoad] else roads
  let roads := if c.WestRoad ≠ "" then roads ++ [c.WestRoad] else roads
  roads

/-- The struct `model.Alien`: name, power, step interval and step budget. -/
structure Alien where
  Name : String
  Power : Nat
  Speed : Int
  MaxSteps : Nat
deriving DecidableEq, Repr

/-- The type `model.CityMap` (key: city name). -/
abbrev CityMap := GoMap City

/-- An ASCII letter, the class `[a-zA-Z]`. -/
def isLetter (c : Char) : Bool :=
  (decide ('a' ≤ c) && decide (c ≤ 'z')) || (decide ('A' ≤ c) && decide (c ≤ 'Z'))

/-- A character of the class `[\s\-)]`: tab, line feed, form feed, carriage return, space,
hyphen or closing parenthesis. -/
def isSeparator (c : Char) : Bool :=
  c = '\t' || c = '\n' || c = Char.ofNat 12 || c = '\r' || c = ' ' || c = '-' || c = ')'

/-- The tail of `[a-zA-Z]+(?:[\s\-)][a-zA-Z]+)*$` once one letter of a run has been read. -/
def cityNameTail : List Char → Bool
  | [] => true
  | c :: rest =>
    if isLetter c then cityNameTail rest
    else if isSeparator c then
      match rest with
      | [] => false
      | d :: rest2 => isLetter d && cityNameTail rest2
    else false

/-- The match `cityNameRegexp.MatchString` for `^[a-zA-Z]+(?:[\s\-)][a-zA-Z]+)*$`. -/
def cityNameRegexp (s : String) : Bool :=
  match s.toList with
  | [] => false
  | c :: rest => isLetter c && cityNameTail rest

end model

namespace model

/-- The checks `CityMap.Validate` makes on one entry of the map. -/
def CityMap.validateEntry (m : CityMap) (k : String) (city : City) : Except String Unit :=
  if k ≠ city.Name then
    .error (k ++ ": key mismatch with .Name (" ++ city.Name ++ ")")
  else if !cityNameRegexp k then
    .error (k ++ ": invalid city name")
  else if city.NorthRoad ≠ "" ∧ (m.getD city.NorthRoad City.zero).SouthRoad ≠ k then
    .error (k ++ ": invalid North road link (" ++ city.NorthRoad ++ ")")
  else if city.EastRoad ≠ "" ∧ (m.getD city.EastRoad City.zero).WestRoad ≠ k then
    .error (k ++ ": invalid Easth road link (" ++ city.EastRoad ++ ")")
  else if city.SouthRoad ≠ "" ∧ (m.getD city.SouthRoad City.zero).NorthRoad ≠ k then
    .error (k ++ ": invalid South road link (" ++ city.SouthRoad ++ ")")
  else if city.WestRoad ≠ "" ∧ (m.getD city.WestRoad City.zero).EastRoad ≠ k then
    .error (k ++ ": invalid West road link (" ++ city.WestRoad ++ ")")
  else
    .ok ()

/-- The loop of `CityMap.Validate` over the entries still to visit. -/
def CityMap.validateFrom (m : CityMap) : List (String × City) → Except String Unit
  | [] => .ok ()
  | (k, city) :: rest =>
    match CityMap.validateEntry m k city with
    | .error e => .error e
    | .ok _ => CityMap.validateFrom m rest

/-- The method `CityMap.Validate`. -/
def CityMap.Validate (m : CityMap) : Except String Unit :=
  CityMap.validateFrom m m.entries

end model

namespace types

/-- The events `AlienRelocatedEvent` and `AlienDismissedEvent` the World sends to an alien. -/
inductive AlienEvent where
  | AlienRelocatedEvent (AlienID : String) (NewLocation : model.City)
  | AlienDismissedEvent (AlienID : String) (Reason : String)
deriving DecidableEq, Repr

/-- The method `TargetID` of both events. -/
def AlienEvent.TargetID : AlienEvent → String
  | .AlienRelocatedEvent id _ => id
  | .AlienDismissedEvent id _ => id

/-- The constructor `NewAlienRelocatedEvent`. -/
def NewAlienRelocatedEvent (alienID : String) (newLocation : model.City) : AlienEvent :=
  .AlienRelocatedEvent alienID newLocation

/-- The constructor `NewAlienDismissedEvent`. -/
def NewAlienDismissedEvent (alienID reason : String) : AlienEvent :=
  .AlienDismissedEvent alienID reason

/-- The struct `AlienMoveRequest`. -/
structure AlienMoveRequest where
  AlienID : String
  NewCityID : String
deriving DecidableEq, Repr

/-- The struct `AlienEvacuateRequest`. -/
structure AlienEvacuateRequest where
  AlienID : String
deriving DecidableEq, Repr

/-- The struct `CityDestroyRequest`. -/
structure CityDestroyRequest where
  CityID : String
deriving DecidableEq, Repr

/-- The struct `AlienDisembarkRequest`. -/
structure AlienDisembarkRequest where
  Alien : model.Alien
  CityID : String
deriving DecidableEq, Repr

/-- The requests an alien puts on `alienRequestsCh`. -/
inductive AlienRequest where
  | move (r : AlienMoveRequest)
  | evacuate (r : AlienEvacuateRequest)
deriving DecidableEq, Repr

/-- The requests put on `worldRequestsCh`. -/
inductive WorldRequest where
  | cityDestroy (r : CityDestroyRequest)
  | disembark (r : AlienDisembarkRequest)
deriving DecidableEq, Repr

end types

namespace monitor

/-- A call on the interface `WorldEventsListener`. -/
inductive WorldEvent where
  | CityUpdated (city : model.City)
  | CityFightStarted (cityID : String)
  | CityDestroyed (cityID : String) (alienIDs : List String)
  | AlienRelocated (alienID newCityID : String)
  | AlienDismissed (alienID reason : String)
  | SimStatus (aliens cities : Nat) (stimStopped : Bool)
deriving DecidableEq, Repr

end monitor

namespace state

/-- The struct `state.Alien`: the profile, the last known location and the used steps.
The mailbox `worldEventsCh` is seen through the `Effect.send` effects. -/
structure Alien extends model.Alien where
  curLocation : model.City
  curSteps : Nat
deriving DecidableEq, Repr

/-- The constructor `NewAlien`. -/
def NewAlien (alien : model.Alien) (startLocation : model.City) : Alien :=
  { toAlien := alien, curLocation := startLocation, curSteps := 0 }

/-- The struct `state.City`: the city data, the fight timer (the duration it was last set
to, `none` for a nil timer) and the aliens on the tile. -/
structure City extends model.City where
  fightTimer : Option Int
  aliens : GoMap Alien
deriving DecidableEq, Repr

/-- What a handler of the World does besides changing the state. -/
inductive Effect where
  | send (alien : String) (e : types.AlienEvent)
  | notify (e : monitor.WorldEvent)
  | spawn (alien : Alien)
deriving DecidableEq, Repr

/-- The constructor `NewCity`. -/
def NewCity (location : model.City) : City :=
  { toCity := location, fightTimer := none, aliens := GoMap.empty }

/-- The method `City.AtFight`. -/
def City.AtFight (c : City) : Bool := decide (c.aliens.len > 1)

/-- The method `City.AlienIDs`. -/
def City.AlienIDs (c : City) : List String := c.aliens.keys

/-- The method `City.RemoveRoadsTo`. -/
def City.RemoveRoadsTo (c : City) (cityID : String) : City :=
  let c := if c.NorthRoad = cityID then { c with NorthRoad := "" } else c
  let c := if c.EastRoad = cityID then { c with EastRoad := "" } else c
  let c := if c.SouthRoad = cityID then { c with SouthRoad := "" } else c
  let c := if c.WestRoad = cityID then { c with WestRoad := "" } else c
  c

/-- The sum of the powers of the aliens of a roster, in `uint` arithmetic. -/
def totalAlienPower (aliens : GoMap Alien) : Nat :=
  aliens.entries.foldl (fun total e => wrapUint (total + e.2.Power)) 0

/-- The method `City.AddAlien`; `fightDurK` is the value of the key `city.fightDurationCoef`.
The result is the city afterwards and the returned flag.  Where it starts a new timer it
also starts the goroutine that waits for the timer to fire; what that goroutine then does
is `City.fightOver` followed by `City.clearFightTimer`. -/
def City.AddAlien (fightDurK : Int) (c : City) : Option Alien → City × Bool
  | none => (c, false)
  | some alien =>
    let c := { c with aliens := c.aliens.set alien.Name alien }
    if c.aliens.len = 1 then (c, false)
    else
      let fightDuration := wrapInt64 (fightDurK * wrapInt64 (totalAlienPower c.aliens))
      match c.fightTimer with
      | some _ => ({ c with fightTimer := some fightDuration }, true)
      | none => ({ c with fightTimer := some fightDuration }, true)

/-- The method `City.RemoveAlien`. -/
def City.RemoveAlien (c : City) : Option Alien → City
  | none => c
  | some alien => { c with aliens := c.aliens.delete alien.Name }

end state

namespace state

/-- The struct `state.World`: the cities and the alien to city index. -/
structure World where
  cities : GoMap City
  alienCityMap : GoMap String
deriving DecidableEq, Repr

/-- The constructor `NewWorld`.  `alienCityMap` is nil until `Run` makes it, before the
first request is handled; a nil map and an empty one read alike. -/
def NewWorld (cityMap : model.CityMap) : World :=
  { cities := cityMap.entries.foldl (fun cities e => cities.set e.2.Name (NewCity e.2)) GoMap.empty,
    alienCityMap := GoMap.empty }

/-- The method `World.checkStopConditions`: the returned flag and the deferred `SimStatus`
call. -/
def World.checkStopConditions (w : World) : Bool × List Effect :=
  let aliens := w.alienCityMap.len
  let cities := w.cities.len
  let retStop := false
  let retStop := if aliens ≤ 1 then true else retStop
  let retStop := if cities = 1 then true else retStop
  (retStop, [.notify (.SimStatus aliens cities retStop)])

/-- The method `World.dismissAlien`. -/
def World.dismissAlien (w : World) (alienID reason : String) : World × List Effect :=
  match w.alienCityMap.get? alienID with
  | none => (w, [])
  | some cityID =>
    match w.cities.get? cityID with
    | none => (w, [])
    | some city =>
      match city.aliens.get? alienID with
      | none => (w, [])
      | some alien =>
        let r := types.NewAlienDismissedEvent alien.Name reason
        ({ cities := w.cities.set cityID { city with aliens := city.aliens.delete alien.Name },
           alienCityMap := w.alienCityMap.delete alien.Name },
         [.send alien.Name r, .notify (.AlienDismissed alien.Name reason)])

/-- The city a `*City` points to: the pointer is the key under which `cities` holds the
city.  The handlers only hold pointers they have just read from the map. -/
def World.cityAt (w : World) (city : String) : City :=
  w.cities.getD city (NewCity model.City.zero)

/-- The method `World.moveAlienTo`; `none` is a nil pointer. -/
def World.moveAlienTo (fightDurK : Int) (w : World) (alien : Option Alien)
    (oldCity newCity : Option String) : World × List Effect :=
  match alien with
  | none => (w, [])
  | some alien =>
    match newCity with
    | none => (w, [])
    | some newCity =>
      if (match oldCity with
          | some oldCity => (w.cityAt oldCity).AtFight
          | none => false) then (w, [])
      else
        let w := { w with alienCityMap := w.alienCityMap.set alien.Name (w.cityAt newCity).Name }
        let w := match oldCity with
          | some oldCity =>
            { w with cities := w.cities.modify oldCity (fun c => c.RemoveAlien (some alien)) }
          | none => w
        let added := (w.cityAt newCity).AddAlien fightDurK (some alien)
        let newCityFightStarted := added.2
        let w := { w with cities := w.cities.modify newCity (fun _ => added.1) }
        let e := types.NewAlienRelocatedEvent alien.Name (w.cityAt newCity).toCity
        (w, [.send alien.Name e, .notify (.AlienRelocated alien.Name (w.cityAt newCity).Name)]
              ++ (if newCityFightStarted then
                    [.notify (.CityFightStarted (w.cityAt newCity).Name)]
                  else []))

/-- The method `World.handleAlienDisembarkRequest`. -/
def World.handleAlienDisembarkRequest (fightDurK : Int) (w : World)
    (r : types.AlienDisembarkRequest) : World × List Effect :=
  match w.cities.get? r.CityID with
  | none => (w, [])
  | some city =>
    let alienState := NewAlien r.Alien city.toCity
    let moved := w.moveAlienTo fightDurK (some alienState) none (some r.CityID)
    (moved.1, moved.2 ++ [.spawn alienState])

/-- The method `World.handleAlienMoveRequest`. -/
def World.handleAlienMoveRequest (fightDurK : Int) (w : World)
    (r : types.AlienMoveRequest) : World × List Effect :=
  match w.alienCityMap.get? r.AlienID with
  | none => (w, [])
  | some oldCityID =>
    match w.cities.get? oldCityID with
    | none => (w, [])
    | some oldCity =>
      match oldCity.aliens.get? r.AlienID with
      | none => (w, [])
      | some alien =>
        match w.cities.get? r.NewCityID with
        | none => (w, [])
        | some _ => w.moveAlienTo fightDurK (some alien) (some oldCityID) (some r.NewCityID)

/-- The method `World.handleAlienEvacuateRequest`. -/
def World.handleAlienEvacuateRequest (w : World) (r : types.AlienEvacuateRequest) :
    World × List Effect :=
  w.dismissAlien r.AlienID "evacuated"

/-- The closure `removeConnection` of `World.handleCityDestroyRequest`. -/
def World.removeConnection (w : World) (cityID connectedCityID : String) : World × List Effect :=
  match w.cities.get? connectedCityID with
  | none => (w, [])
  | some connectedCity =>
    let connectedCity := connectedCity.RemoveRoadsTo cityID
    ({ w with cities := w.cities.set connectedCityID connectedCity },
     [.notify (.CityUpdated connectedCity.toCity)])

/-- The loop `for _, alien := range city.aliens` of `World.handleCityDestroyRequest` over the
entries still to visit; an entry deleted before it is reached is not produced. -/
def World.dismissAliens (w : World) (city : String) : List (String × Alien) → World × List Effect
  | [] => (w, [])
  | (k, _) :: rest =>
    match (w.cityAt city).aliens.get? k with
    | none => World.dismissAliens w city rest
    | some alien =>
      let dismissed := w.dismissAlien alien.Name "destroyed"
      let others := World.dismissAliens dismissed.1 city rest
      (others.1, dismissed.2 ++ others.2)

/-- The four calls `removeConnection(city.NorthRoad)` to `removeConnection(city.WestRoad)` of
`World.handleCityDestroyRequest`; each road slot of `city` is read through the pointer when
its call is made. -/
def World.removeConnections (w : World) (city : String) : World × List Effect :=
  let north := w.removeConnection city (w.cityAt city).NorthRoad
  let east := north.1.removeConnection city (north.1.cityAt city).EastRoad
  let south := east.1.removeConnection city (east.1.cityAt city).SouthRoad
  let west := south.1.removeConnection city (south.1.cityAt city).WestRoad
  (west.1, north.2 ++ east.2 ++ south.2 ++ west.2)

/-- The method `World.handleCityDestroyRequest`. -/
def World.handleCityDestroyRequest (w : World) (r : types.CityDestroyRequest) :
    World × List Effect :=
  match w.cities.get? r.CityID with
  | none => (w, [])
  | some _ =>
    let city := r.CityID
    let removed := w.removeConnections city
    let aliensInvolved := (removed.1.cityAt city).AlienIDs
    let dismissed := removed.1.dismissAliens city (removed.1.cityAt city).aliens.entries
    let cityName := (dismissed.1.cityAt city).Name
    ({ dismissed.1 with cities := dismissed.1.cities.delete cityName },
     removed.2 ++ dismissed.2 ++ [.notify (.CityDestroyed cityName aliensInvolved)])

/-- A request taken from one of the two input channels of the World. -/
inductive Request where
  | alien (r : types.AlienRequest)
  | world (r : types.WorldRequest)
deriving DecidableEq, Repr

/-- The dispatch of one request in the loop of `World.Run`. -/
def World.handle (fightDurK : Int) (w : World) : Request → World × List Effect
  | .alien (.move r) => w.handleAlienMoveRequest fightDurK r
  | .alien (.evacuate r) => w.handleAlienEvacuateRequest r
  | .world (.cityDestroy r) => w.handleCityDestroyRequest r
  | .world (.disembark r) => w.handleAlienDisembarkRequest fightDurK r

/-- The state and the effects after the World has handled a list of requests in order. -/
def World.handleAll (fightDurK : Int) (w : World) : List Request → World × List Effect
  | [] => (w, [])
  | r :: rest =>
    let first := w.handle fightDurK r
    let others := World.handleAll fightDurK first.1 rest
    (others.1, first.2 ++ others.2)

end state

namespace state

/-- The representation invariant of a roster: the keys are distinct and every alien is
stored under its own name, as `City.AddAlien` stores it. -/
def City.WF (c : City) : Prop :=
  c.aliens.keys.Nodup ∧ ∀ e ∈ c.aliens.entries, e.2.Name = e.1

instance (c : City) : Decidable c.WF := by
  unfold City.WF; infer_instance

/-- The representation invariant of the world state: in each Go map the keys are distinct,
every city is stored under its own name, as `NewWorld` stores it, and every roster is
well formed. -/
def World.WF (w : World) : Prop :=
  w.cities.keys.Nodup ∧ w.alienCityMap.keys.Nodup ∧
    ∀ e ∈ w.cities.entries, e.2.Name = e.1 ∧ e.2.WF

instance (w : World) : Decidable w.WF := by
  unfold World.WF; infer_instance

/-- The index and the rosters agree: every alien of the index is in the roster of the city
the index maps it to, and every alien of a roster is mapped to that city by the index. -/
def World.Consistent (w : World) : Prop :=
  (∀ e ∈ w.alienCityMap.entries,
      ((w.cities.get? e.2).bind (fun city => city.aliens.get? e.1)).isSome = true) ∧
    ∀ ce ∈ w.cities.entries, ∀ ae ∈ ce.2.aliens.entries,
      w.alienCityMap.get? ae.1 = some ce.1

instance (w : World) : Decidable w.Consistent := by
  unfold World.Consistent; infer_instance

/-- The three ways in which the lookups of `dismissAlien` miss. -/
def World.DismissMiss (w : World) (alienID : String) : Prop :=
  w.alienCityMap.get? alienID = none ∨
    (∃ c, w.alienCityMap.get? alienID = some c ∧ w.cities.get? c = none) ∨
    ∃ c city, w.alienCityMap.get? alienID = some c ∧ w.cities.get? c = some city ∧
      city.aliens.get? alienID = none

end state

/-! ## Sample worlds -/

namespace sample

open state

/-- The chain `A - B - C` of scenario F. -/
def chain : model.CityMap :=
  ⟨[("A", ⟨"A", "", "B", "", ""⟩), ("B", ⟨"B", "", "C", "", "A"⟩), ("C", ⟨"C", "", "", "", "B"⟩)]⟩

/-- Two alien profiles of power one. -/
def a1 : model.Alien := ⟨"a1", 1, 10, 100⟩

/-- The second alien profile. -/
def a2 : model.Alien := ⟨"a2", 1, 10, 100⟩

/-- The world of the chain after `a1` and `a2` have landed in `B`. -/
def fightAtB : World :=
  ((NewWorld chain).handleAll 1
    [.world (.disembark ⟨a1, "B"⟩), .world (.disembark ⟨a2, "B"⟩)]).1

/-- The world of the chain after `a1` has landed in `A`. -/
def oneAtA : World :=
  ((NewWorld chain).handleAll 1 [.world (.disembark ⟨a1, "A"⟩)]).1

end sample

namespace state

/-- The state `w2` differs from `w` at most by roads to `cityID` having been removed from
some cities: the index and the keys of the cities map are the same, and every city is
either as it was or has had `RemoveRoadsTo cityID` applied. -/
def World.RoadsCleared (cityID : String) (w w2 : World) : Prop :=
  w2.alienCityMap = w.alienCityMap ∧ w2.cities.keys = w.cities.keys ∧
    ∀ c, w2.cities.get? c = w.cities.get? c ∨
      w2.cities.get? c = (w.cities.get? c).map (fun d => d.RemoveRoadsTo cityID)

end state

namespace state

/-- How the handlers change one city: aliens leave its roster, aliens are added by
`AddAlien`, and, when `cleared` names a city, roads to that city are removed. -/
inductive CityStep (cleared : Option String) : City → City → Prop where
  | refl (c : City) : CityStep cleared c c
  | removed (c : City) (k : String) : CityStep cleared c { c with aliens := c.aliens.delete k }
  | added (fightDurK : Int) (c : City) (alien : Alien) :
      CityStep cleared c (c.AddAlien fightDurK (some alien)).1
  | roads (c : City) (cityID : String) (h : cleared = some cityID) :
      CityStep cleared c (c.RemoveRoadsTo cityID)
  | trans {a b c : City} : CityStep cleared a b → CityStep cleared b c → CityStep cleared a c

/-- The cities map of `w2` has the keys of the cities map of `w`, and every city of `w2`
comes from the city of `w` under the same key by `CityStep`. -/
def World.Evolves (cleared : Option String) (w w2 : World) : Prop :=
  ∀ c, (w.cities.get? c = none ∧ w2.cities.get? c = none) ∨
    ∃ d d2, w.cities.get? c = some d ∧ w2.cities.get? c = some d2 ∧ CityStep cleared d d2

/-- Roads are symmetric between the cities of the map: a road slot of one city that names
another city of the map is answered by the opposite slot of that city. -/
def World.RoadsSymmetric (w : World) : Prop :=
  ∀ ea ∈ w.cities.entries, ∀ eb ∈ w.cities.entries,
    (ea.2.NorthRoad = eb.1 → eb.2.SouthRoad = ea.1) ∧
    (ea.2.SouthRoad = eb.1 → eb.2.NorthRoad = ea.1) ∧
    (ea.2.EastRoad = eb.1 → eb.2.WestRoad = ea.1) ∧
    (ea.2.WestRoad = eb.1 → eb.2.EastRoad = ea.1)

instance (w : World) : Decidable w.RoadsSymmetric := by
  unfold World.RoadsSymmetric; infer_instance

/-- Every city whose roster holds two or more aliens has its fight timer set. -/
def World.FightsTimed (w : World) : Prop :=
  ∀ e ∈ w.cities.entries, 2 ≤ e.2.aliens.len → e.2.fightTimer.isSome = true

instance (w : World) : Decidable w.FightsTimed := by
  unfold World.FightsTimed; infer_instance

/-- A city has its fight timer set exactly when its roster holds two or more aliens. -/
def World.TimerIffFight (w : World) : Prop :=
  ∀ e ∈ w.cities.entries, (e.2.fightTimer.isSome = true ↔ 2 ≤ e.2.aliens.len)

instance (w : World) : Decidable w.TimerIffFight := by
  unfold World.TimerIffFight; infer_instance

/-- The listener call is a `CityUpdated`. -/
def Effect.isCityUpdated : Effect → Bool
  | .notify (.CityUpdated _) => true
  | _ => false

end state

namespace state

/-- The city a request asks to destroy, if it is a CityDestroyed request. -/
def Request.destroyed : Request → Option String
  | .world (.cityDestroy r) => some r.CityID
  | _ => none

/-- The name of the alien a request lands, if it is a Disembark request. -/
def Request.disembarked : Request → Option String
  | .world (.disembark r) => some r.Alien.Name
  | _ => none

end state

namespace sample

open state

end sample

namespace state

/-- The index and the rosters agree, stated on the lookups: an alien the index maps to a
city is in the roster of that city, which exists, and an alien in the roster of a city is
mapped to that city by the index. -/
def World.Agrees (w : World) : Prop :=
  (∀ a c, w.alienCityMap.get? a = some c →
      ∃ d, w.cities.get? c = some d ∧ (d.aliens.get? a).isSome = true) ∧
    ∀ c d a, w.cities.get? c = some d → (d.aliens.get? a).isSome = true →
      w.alienCityMap.get? a = some c

end state

namespace sample

open state

/-- A map of one city whose north and south roads lead back to itself; it passes
`Validate`. -/
def selfLoop : model.CityMap := ⟨[("A", ⟨"A", "A", "", "A", ""⟩)]⟩

end sample

namespace types

/-- The constructor `NewAlienMoveRequest`. -/
def NewAlienMoveRequest (alienID newCityID : String) : AlienMoveRequest :=
  { AlienID := alienID, NewCityID := newCityID }

/-- The constructor `NewAlienEvacuateRequest`. -/
def NewAlienEvacuateRequest (alienID : String) : AlienEvacuateRequest :=
  { AlienID := alienID }

end types

namespace state

/-- The function `rand.Intn`: for a positive bound `n` it returns an index below `n`. -/
abbrev RandIntn := (n : Nat) → 0 < n → Fin n

/-- The method `Alien.handleRelocatedEvent`. -/
def Alien.handleRelocatedEvent (a : Alien) (newLocation : model.City) : Alien :=
  { a with curLocation := newLocation }

/-- The method `Alien.handleDismissedEvent`, which only writes a log line. -/
def Alien.handleDismissedEvent (a : Alien) (_reason : String) : Alien := a

/-- The method `Alien.handleNextStepEvent`: the alien afterwards and the requests it has
sent to the World.  `intn` gives the outcome of the call of `rand.Intn`. -/
def Alien.handleNextStepEvent (a : Alien) (intn : RandIntn) : Alien × List types.AlienRequest :=
  if a.curSteps ≥ a.MaxSteps then
    (a, [.evacuate (types.NewAlienEvacuateRequest a.Name)])
  else
    let a := { a with curSteps := wrapUint (a.curSteps + 1) }
    let availableRoads := a.curLocation.AvailableRoads
    if h : availableRoads.length = 0 then (a, [])
    else
      let roadIdx := intn availableRoads.length (Nat.pos_of_ne_zero h)
      (a, [.move (types.NewAlienMoveRequest a.Name (availableRoads.get roadIdx))])

/-- The case the `select` of `Alien.Run` takes in one iteration: the context is done, an
event arrives in the mailbox, or the step ticker fires (with the outcome of the random
choice made in that step). -/
inductive AlienStep where
  | done
  | event (e : types.AlienEvent)
  | tick (intn : RandIntn)

/-- The state of `Alien.Run` after some iterations: the alien, the loop variable `working`
and the requests sent to the World so far. -/
structure AlienRun where
  alien : Alien
  working : Bool
  requests : List types.AlienRequest

/-- One iteration of the loop of `Alien.Run`. -/
def Alien.runStep (a : Alien) : AlienStep → AlienRun
  | .done => ⟨a, false, []⟩
  | .event e =>
    if a.Name ≠ e.TargetID then ⟨a, true, []⟩
    else
      match e with
      | .AlienRelocatedEvent _ newLocation => ⟨a.handleRelocatedEvent newLocation, true, []⟩
      | .AlienDismissedEvent _ reason => ⟨a.handleDismissedEvent reason, false, []⟩
  | .tick intn =>
    let stepped := a.handleNextStepEvent intn
    ⟨stepped.1, true, stepped.2⟩

/-- The loop of `Alien.Run` over the cases its `select` takes; the cases after the loop has
ended are not taken. -/
def Alien.Run (a : Alien) : List AlienStep → AlienRun
  | [] => ⟨a, true, []⟩
  | s :: rest =>
    let first := a.runStep s
    if first.working then
      let others := Alien.Run first.alien rest
      ⟨others.alien, others.working, first.requests ++ others.requests⟩
    else first

/-- The number of Move requests in a list of requests. -/
def countMoves (requests : List types.AlienRequest) : Nat :=
  (requests.filter (fun r => match r with
    | .move _ => true
    | .evacuate _ => false)).length

end state

namespace sample

open state

/-- The random choice that always takes the first available road. -/
def firstRoad : RandIntn := fun _ h => ⟨0, h⟩

/-- The isolated city `Solo` of scenario B. -/
def solo : model.City := ⟨"Solo", "", "", "", ""⟩

/-- An alien with three steps, freshly landed in `Solo`. -/
def walker : Alien := NewAlien ⟨"w", 1, 10, 3⟩ solo

/-- The world of the one city `Solo` after the alien `w` has landed there. -/
def soloWorld : World :=
  ((NewWorld ⟨[("Solo", solo)]⟩).handleAll 1 [.world (.disembark ⟨⟨"w", 1, 10, 3⟩, "Solo"⟩)]).1

end sample

namespace sample

open state

/-- The alien `a1` freshly landed in the city `B` of the chain. -/
def atB : Alien := NewAlien a1 ⟨"B", "", "C", "", "A"⟩

/-- The random choice that takes the last available road. -/
def lastRoad : RandIntn := fun n h => ⟨n - 1, Nat.sub_lt h Nat.one_pos⟩

/-- The world of the chain after `a1` has landed in `B`. -/
def oneAtB : World :=
  ((NewWorld chain).handleAll 1 [.world (.disembark ⟨a1, "B"⟩)]).1

end sample

namespace state

/-- The sum of the powers of the aliens of a roster, as a natural number. -/
def powerSum (aliens : GoMap Alien) : Nat :=
  (aliens.entries.map (fun e => e.2.Power)).sum

end state

namespace sample

open state

/-- An alien of power `2 ^ 63`. -/
def heavy1 : Alien := NewAlien ⟨"h1", 2 ^ 63, 10, 100⟩ solo

/-- A second alien of power `2 ^ 63`. -/
def heavy2 : Alien := NewAlien ⟨"h2", 2 ^ 63, 10, 100⟩ solo

/-- The city `Solo` with the alien `h1` in it. -/
def heavyCity : City := ((NewCity solo).AddAlien 1 (some heavy1)).1

end sample

namespace sample

open state

/-- The world of the chain after `a1` has landed in `B` and has moved on to `C`. -/
def oneAtC : World := (oneAtB.handleAlienMoveRequest 1 ⟨"a1", "C"⟩).1

end sample


namespace state

/-- The number of Disembark requests in a list of requests. -/
def countDisembarks (reqs : List Request) : Nat :=
  (reqs.filter (fun q => q.disembarked.isSome)).length

end state


namespace state

/-- The case the `select` of `World.Run` takes in one iteration: the context is done, the
stop-check ticker fires, or a request arrives on one of the two request channels (the
Disembark requests are those the goroutine `disembarkAliens` sends). -/
inductive WorldStep where
  | done
  | stopTick
  | request (req : Request)
deriving DecidableEq, Repr

/-- What the loop of `World.Run` does besides changing the state: an effect of a handler or
of the stop check, or the statement `close(simStopCh)`. -/
inductive RunEffect where
  | effect (e : Effect)
  | closeSimStopCh
deriving DecidableEq, Repr

/-- The state of `World.Run` after some iterations: the world, the loop variable `working`
and what the loop has done so far, in program order. -/
structure WorldRun where
  world : World
  working : Bool
  effects : List RunEffect
deriving DecidableEq, Repr

/-- One iteration of the loop of `World.Run`. -/
def World.runStep (fightDurK : Int) (w : World) : WorldStep → WorldRun
  | .done => ⟨w, false, []⟩
  | .stopTick =>
    let checked := w.checkStopConditions
    if checked.1 then ⟨w, false, checked.2.map RunEffect.effect ++ [.closeSimStopCh]⟩
    else ⟨w, true, checked.2.map RunEffect.effect⟩
  | .request req =>
    let handled := w.handle fightDurK req
    ⟨handled.1, true, handled.2.map RunEffect.effect⟩

/-- The loop `for working := true; working; ...` of `World.Run` over the cases its `select`
takes; the cases after the loop has ended are not taken. -/
def World.loop (fightDurK : Int) (w : World) : List WorldStep → WorldRun
  | [] => ⟨w, true, []⟩
  | s :: rest =>
    let first := w.runStep fightDurK s
    if first.working then
      let others := World.loop fightDurK first.world rest
      ⟨others.world, others.working, first.effects ++ others.effects⟩
    else first

/-- The method `World.Run`: it makes the alien index and runs the loop. -/
def World.Run (fightDurK : Int) (w : World) (steps : List WorldStep) : WorldRun :=
  World.loop fightDurK { w with alienCityMap := GoMap.empty } steps

/-- The number of times a run has closed the stop channel. -/
def countCloses (effects : List RunEffect) : Nat :=
  effects.count RunEffect.closeSimStopCh

/-- The stop condition in the words of the specification: at most one alien or at most one
city is left. -/
def stopConditionSpec (aliens cities : Nat) : Bool :=
  decide (aliens ≤ 1 ∨ cities ≤ 1)

end state


namespace monitor

/-- A non-nil value of the interface type `WorldEventsListener`: the monitor of package
`noop`, with logs enabled or not, or another implementation, told apart by a tag. -/
inductive Listener where
  | noop (logsEnabled : Bool)
  | other (tag : Nat)
deriving DecidableEq, Repr

end monitor

namespace noop

/-- The constructor `noop.New` called without options. -/
def New : monitor.Listener := .noop false

end noop

namespace sim

/-- The struct `sim.Processor`; `none` is a nil interface value or a nil pointer. -/
structure Processor where
  cityMap : model.CityMap
  aliens : List model.Alien
  monitor : Option monitor.Listener
  worldState : Option state.World
deriving DecidableEq, Repr

/-- The type `Option` of package `sim`: a function on the processor under construction
that may return an error. -/
abbrev Opt := Processor → Except String Processor

/-- The option `WithCityMap`. -/
def WithCityMap (cm : model.CityMap) : Opt := fun p =>
  match cm.Validate with
  | .error err => .error ("validating city map: " ++ err)
  | .ok _ => .ok { p with cityMap := cm }

/-- The option `WithAliens`. -/
def WithAliens (aliens : List model.Alien) : Opt := fun p =>
  .ok { p with aliens := aliens }

/-- The option `WithMonitor`; `none` is a nil monitor. -/
def WithMonitor (monitor : Option monitor.Listener) : Opt := fun p =>
  match monitor with
  | none => .error "monitor service: nil"
  | some m => .ok { p with monitor := some m }

/-- The loop `for _, opt := range opts` of `New`. -/
def applyOpts (p : Processor) : List Opt → Except String Processor
  | [] => .ok p
  | opt :: rest =>
    match opt p with
    | .error err => .error err
    | .ok p2 => applyOpts p2 rest

/-- The constructor `sim.New`: `.error` is the result `(nil, err)`, `.ok p` the result
`(&p, nil)`. -/
def New (opts : List Opt) : Except String Processor :=
  let p : Processor :=
    { cityMap := GoMap.empty, aliens := [], monitor := some noop.New, worldState := none }
  match applyOpts p opts with
  | .error err => .error err
  | .ok p =>
    if p.cityMap.len = 0 then .error "city map is not defined (empty)"
    else if p.aliens.length = 0 then .error "aliens are not defined (empty)"
    else .ok p

/-- What a caller of `New` supplies: one of the three options with its argument. -/
inductive Arg where
  | withCityMap (cm : model.CityMap)
  | withAliens (aliens : List model.Alien)
  | withMonitor (monitor : Option monitor.Listener)
deriving DecidableEq, Repr

/-- The option a caller builds from what it supplies. -/
def Arg.toOpt : Arg → Opt
  | .withCityMap cm => WithCityMap cm
  | .withAliens aliens => WithAliens aliens
  | .withMonitor monitor => WithMonitor monitor

/-- The city map supplied to `New`: the one of the last `WithCityMap`, or `cur` when none
is given. -/
def Arg.cityMapOf (cur : model.CityMap) : List Arg → model.CityMap
  | [] => cur
  | .withCityMap cm :: rest => Arg.cityMapOf cm rest
  | .withAliens _ :: rest => Arg.cityMapOf cur rest
  | .withMonitor _ :: rest => Arg.cityMapOf cur rest

/-- The alien list supplied to `New`: the one of the last `WithAliens`, or `cur` when none
is given. -/
def Arg.aliensOf (cur : List model.Alien) : List Arg → List model.Alien
  | [] => cur
  | .withCityMap _ :: rest => Arg.aliensOf cur rest
  | .withAliens aliens :: rest => Arg.aliensOf aliens rest
  | .withMonitor _ :: rest => Arg.aliensOf cur rest

/-- The monitor supplied to `New`: the one of the last `WithMonitor` with a monitor, or
`cur` when none is given. -/
def Arg.monitorOf (cur : Option monitor.Listener) : List Arg → Option monitor.Listener
  | [] => cur
  | .withCityMap _ :: rest => Arg.monitorOf cur rest
  | .withAliens _ :: rest => Arg.monitorOf cur rest
  | .withMonitor none :: rest => Arg.monitorOf cur rest
  | .withMonitor (some m) :: rest => Arg.monitorOf (some m) rest

end sim


namespace model

/-- The runs of characters between the separators of a list of characters: the run before
the first separator, and the runs after each separator. -/
def splitRuns (sep : Char → Bool) : List Char → List Char × List (List Char)
  | [] => ([], [])
  | c :: rest =>
    let runs := splitRuns sep rest
    if sep c then ([], runs.1 :: runs.2) else (c :: runs.1, runs.2)

/-- The name format in the words of the specification: the name consists of one or more
non-empty runs of ASCII letters, joined by exactly one separator between consecutive
runs. -/
def lettersJoinedBy (sep : Char → Bool) (name : String) : Bool :=
  let runs := splitRuns sep name.toList
  (runs.1 :: runs.2).all (fun run => !run.isEmpty && run.all isLetter)

/-- The separators of the specification: one space or one hyphen. -/
def isSpaceOrHyphen (c : Char) : Bool := c = ' ' || c = '-'

/-- A character of the class `[\s\-]`: tab, line feed, form feed, carriage return, space
or hyphen. -/
def isWhitespaceOrHyphen (c : Char) : Bool :=
  c = '\t' || c = '\n' || c = Char.ofNat 12 || c = '\r' || c = ' ' || c = '-'

end model


namespace strings

/-- The pieces of a list of characters between the occurrences of `sep`: the piece before
the first occurrence, and the pieces after each occurrence. -/
def splitAt (sep : Char) : List Char → List Char × List (List Char)
  | [] => ([], [])
  | c :: rest =>
    let pieces := splitAt sep rest
    if c = sep then ([], pieces.1 :: pieces.2) else (c :: pieces.1, pieces.2)

/-- The function `strings.Split` for a separator of one character. -/
def Split (s : String) (sep : Char) : List String :=
  let pieces := splitAt sep s.toList
  (pieces.1 :: pieces.2).map String.mk

/-- The function `strings.ToLower` on the ASCII letters.  Go also lowers letters outside
ASCII, which this function leaves as they are; the only ASCII letters such a letter lowers
to are `i` and `k`, which occur in none of the road keys. -/
def ToLower (s : String) : String := String.mk (s.toList.map Char.toLower)

end strings

namespace model

/-- The body of the loop over `lineParts[1:]` of `NewCityMapFromFile` for one road link. -/
def parseRoad (lineN : Nat) (city : City) (roadBz : String) : Except String City :=
  let roadParts := strings.Split roadBz '='
  if roadParts.length ≠ 2 then
    .error ("parsing line (" ++ toString lineN ++ "): road link (" ++ roadBz ++
      "): invalid format (north=CityName is expected)")
  else
    let side := strings.ToLower (roadParts.getD 0 "")
    let cityName := roadParts.getD 1 ""
    if side = "north" then .ok { city with NorthRoad := cityName }
    else if side = "east" then .ok { city with EastRoad := cityName }
    else if side = "south" then .ok { city with SouthRoad := cityName }
    else if side = "west" then .ok { city with WestRoad := cityName }
    else
      .error ("parsing line (" ++ toString lineN ++ "): road link: invalid side (" ++ side ++
        ") (north/east/south/west is expected)")

/-- The loop over `lineParts[1:]` of `NewCityMapFromFile`. -/
def parseRoads (lineN : Nat) (city : City) : List String → Except String City
  | [] => .ok city
  | roadBz :: rest =>
    match parseRoad lineN city roadBz with
    | .error err => .error err
    | .ok city2 => parseRoads lineN city2 rest

/-- The body of the loop over the lines of `NewCityMapFromFile` for one line. -/
def parseLine (lineN : Nat) (cityMap : CityMap) (line : String) : Except String CityMap :=
  match strings.Split line ' ' with
  | [] => .ok cityMap
  | name :: roads =>
    match parseRoads lineN (City.mk name "" "" "" "") roads with
    | .error err => .error err
    | .ok city =>
      match cityMap.get? city.Name with
      | some _ => .error ("parsing line (" ++ toString lineN ++ "): duplicate found")
      | none => .ok (cityMap.set city.Name city)

/-- The loop `for lineN := 0; scanner.Scan(); lineN++` of `NewCityMapFromFile` over the
lines still to read. -/
def parseLines (lineN : Nat) (cityMap : CityMap) : List String → Except String CityMap
  | [] => .ok cityMap
  | line :: rest =>
    match parseLine lineN cityMap line with
    | .error err => .error err
    | .ok cityMap2 => parseLines (lineN + 1) cityMap2 rest

/-- The function `NewCityMapFromFile`.  The file is given by what `os.Open` and the line
scanner yield: the error of `os.Open`, or the lines of the file. -/
def NewCityMapFromFile (file : Except String (List String)) : Except String CityMap :=
  match file with
  | .error err => .error ("opening file: " ++ err)
  | .ok lines => parseLines 0 GoMap.empty lines

/-- A road link `side=OtherName` of a line of the map file. -/
structure RoadToken where
  side : String
  name : String
deriving DecidableEq, Repr

/-- The text `side=OtherName` of a road link. -/
def RoadToken.text (t : RoadToken) : String := t.side ++ "=" ++ t.name

/-- Words joined with single spaces. -/
def joinWords : List String → String
  | [] => ""
  | [word] => word
  | word :: next :: rest => word ++ " " ++ joinWords (next :: rest)

/-- The line `CityName side=OtherName ...` formed from a name and road links. -/
def lineOf (name : String) (tokens : List RoadToken) : String :=
  joinWords (name :: tokens.map RoadToken.text)

/-- The name the road links give for the side `key`: that of the last link for this side
in any letter case, and `cur` when there is none. -/
def roadOf (key : String) (cur : String) : List RoadToken → String
  | [] => cur
  | t :: rest => roadOf key (if strings.ToLower t.side = key then t.name else cur) rest

/-- The road link is for one of the four sides, in any letter case. -/
def RoadToken.sideOk (t : RoadToken) : Bool :=
  decide (strings.ToLower t.side ∈ ["north", "east", "south", "west"])

end model


namespace config

/-- The values `viper` holds for the keys `alien.stepMinDuration`, `alien.stepMaxDuration`,
`alien.maxSteps`, `alien.minPower` and `alien.maxPower`: two durations (`int64`) and three
`uint`. -/
structure Alien where
  AlienStepMinDur : Int
  AlienStepMaxDur : Int
  AlienMaxSteps : Nat
  AlienMinPower : Nat
  AlienMaxPower : Nat
deriving DecidableEq, Repr

/-- The block `// alien` of `config.Validate`. -/
def validateAlien (c : Alien) : Except String Unit :=
  if c.AlienStepMinDur ≤ 0 then .error "alien.stepMinDuration key: must be GT 0"
  else if c.AlienStepMaxDur ≤ 0 then .error "alien.stepMaxDuration key: must be GT 0"
  else if c.AlienStepMaxDur < c.AlienStepMinDur then
    .error "alien.stepMaxDuration key: must be GTE alien.stepMinDuration"
  else if c.AlienMaxPower < c.AlienMinPower then
    .error "alien.maxPower key: must be GTE alien.minPower"
  else if c.AlienMaxSteps = 0 then .error "alien.maxSteps key: must be GT 0"
  else .ok ()

/-- The values are in the range of their Go types. -/
def Alien.InRange (c : Alien) : Prop :=
  -(2 ^ 63 : Int) ≤ c.AlienStepMinDur ∧ c.AlienStepMinDur < 2 ^ 63 ∧
    -(2 ^ 63 : Int) ≤ c.AlienStepMaxDur ∧ c.AlienStepMaxDur < 2 ^ 63 ∧
    c.AlienMaxSteps < 2 ^ 64 ∧ c.AlienMinPower < 2 ^ 64 ∧ c.AlienMaxPower < 2 ^ 64

instance (c : Alien) : Decidable c.InRange := by
  unfold Alien.InRange; infer_instance

end config

namespace fmt

/-- The decimal digits of `n`, least significant first; none for zero.  `fuel` bounds the
number of digits. -/
def digitsOf : Nat → Nat → List Nat
  | 0, _ => []
  | fuel + 1, n => if n = 0 then [] else (n % 10) :: digitsOf fuel (n / 10)

/-- The number a list of decimal digits, least significant first, stands for. -/
def valueOf : List Nat → Nat
  | [] => 0
  | d :: ds => d + 10 * valueOf ds

/-- The digits of `n` filled up with leading zeros to eight digits, least significant
first. -/
def padded8 (n : Nat) : List Nat :=
  digitsOf n n ++ List.replicate (8 - (digitsOf n n).length) 0

/-- The call `fmt.Sprintf("#%08d", id)`. -/
def alienName (id : Nat) : String :=
  String.mk ('#' :: (padded8 id).reverse.map Nat.digitChar)

end fmt

namespace model

/-- The function `rand.Int63n`: for a positive bound `n` it returns a number from zero up to
but not including `n`; for another bound it panics. -/
abbrev RandInt63n := (n : Int) → 0 < n → { r : Int // 0 ≤ r ∧ r < n }

/-- The draw of the power in the loop of `GenAliensFromConfig`: the power and the number of
calls of `rand.Int63n` made so far, or `none` when `rand.Int63n` panics.  `rnd k` is the
outcome of the call of `rand.Int63n` after `k` earlier calls. -/
def drawPower (cfg : config.Alien) (rnd : Nat → RandInt63n) (calls : Nat) : Option (Nat × Nat) :=
  let pwrMin := cfg.AlienMinPower
  let pwrMax := cfg.AlienMaxPower
  let pwr := pwrMin
  if pwrMax ≠ pwrMin then
    let diff := wrapInt64 (((pwrMax : Int) - (pwrMin : Int)) % 2 ^ 64)
    if h : 0 < diff then
      some (wrapUint (pwr + ((rnd calls diff h).1 % 2 ^ 64).toNat), calls + 1)
    else none
  else some (pwr, calls)

/-- The draw of the step duration in the loop of `GenAliensFromConfig`. -/
def drawStep (cfg : config.Alien) (rnd : Nat → RandInt63n) (calls : Nat) : Option (Int × Nat) :=
  let stepMinDur := cfg.AlienStepMinDur
  let stepMaxDur := cfg.AlienStepMaxDur
  let stepDur := stepMinDur
  if stepMaxDur ≠ stepMinDur then
    let diff := wrapInt64 (stepMaxDur - stepMinDur)
    if h : 0 < diff then some (wrapInt64 (stepDur + (rnd calls diff h).1), calls + 1)
    else none
  else some (stepDur, calls)

/-- The body of the loop of `GenAliensFromConfig` for one alien: the alien and the number
of calls of `rand.Int63n` made so far, or `none` when `rand.Int63n` panics. -/
def genAlien (cfg : config.Alien) (rnd : Nat → RandInt63n) (calls : Nat) (id : Nat) :
    Option (Alien × Nat) :=
  match drawPower cfg rnd calls with
  | none => none
  | some (pwr, calls) =>
    match drawStep cfg rnd calls with
    | none => none
    | some (stepDur, calls) =>
      some ({ Name := fmt.alienName id, Power := pwr, Speed := stepDur,
              MaxSteps := cfg.AlienMaxSteps }, calls)

/-- The loop `for id := uint(0); id < n; id++` of `GenAliensFromConfig` from `id` on, with
`count` aliens still to make. -/
def genAliensFrom (cfg : config.Alien) (rnd : Nat → RandInt63n) :
    (count : Nat) → (id : Nat) → (calls : Nat) → Option (List Alien)
  | 0, _, _ => some []
  | count + 1, id, calls =>
    match genAlien cfg rnd calls id with
    | none => none
    | some (alien, calls2) =>
      match genAliensFrom cfg rnd count (id + 1) calls2 with
      | none => none
      | some aliens => some (alien :: aliens)

/-- The function `GenAliensFromConfig`; `none` is a panic of `rand.Int63n`, called with a
bound that is not positive. -/
def GenAliensFromConfig (cfg : config.Alien) (rnd : Nat → RandInt63n) (n : Nat) :
    Option (List Alien) :=
  genAliensFrom cfg rnd n 0 0

end model

namespace sample

/-- The default values of the alien keys (durations in nanoseconds). -/
def defaults : config.Alien := ⟨500000000, 1000000000, 25, 0, 10⟩

/-- A configuration that passes the validation, with a maximum power of `2 ^ 63`. -/
def widePower : config.Alien := ⟨500000000, 1000000000, 25, 0, 2 ^ 63⟩

/-- The random source that always draws zero. -/
def drawZero : Nat → model.RandInt63n := fun _ _ h => ⟨0, Int.le_refl 0, h⟩

/-- The random source that always draws the largest number below the bound. -/
def drawMax : Nat → model.RandInt63n := fun _ n h => ⟨n - 1, by omega, by omega⟩

end sample


namespace state

/-- The mailboxes `worldEventsCh` of the aliens, by alien name: for each alien the events
sent to it and not yet received.  Each mailbox is a channel of capacity 1. -/
structure Mailboxes where
  boxes : GoMap (List types.AlienEvent)
deriving DecidableEq, Repr

/-- The events waiting in the mailbox of an alien. -/
def Mailboxes.pending (m : Mailboxes) (alien : String) : List types.AlienEvent :=
  m.boxes.getD alien []

/-- The send `a.worldEventsCh <- e` of `Alien.Relocate` and `Alien.Dismiss` on the channel
of capacity 1: the mailboxes afterwards, or `none` when the mailbox is full, so that the
send finds no room and the World blocks. -/
def Mailboxes.send (m : Mailboxes) (alien : String) (e : types.AlienEvent) : Option Mailboxes :=
  if (m.pending alien).length < 1 then some ⟨m.boxes.set alien (m.pending alien ++ [e])⟩
  else none

/-- The receive `eBz := <-a.worldEventsCh` of `Alien.Run`. -/
def Mailboxes.receive (m : Mailboxes) (alien : String) : Mailboxes :=
  ⟨m.boxes.set alien (m.pending alien).tail⟩

/-- The sends among the effects of a handler, made in program order; `none` when one of
them finds no room. -/
def Mailboxes.deliver (m : Mailboxes) : List Effect → Option Mailboxes
  | [] => some m
  | .send alien e :: rest =>
    match m.send alien e with
    | none => none
    | some m2 => Mailboxes.deliver m2 rest
  | .notify _ :: rest => Mailboxes.deliver m rest
  | .spawn _ :: rest => Mailboxes.deliver m rest

/-- A step of the World loop together with the alien tasks: the World handles a request, or
the task of an alien takes the event from its mailbox. -/
inductive Action where
  | handle (req : Request)
  | receive (alien : String)
deriving DecidableEq, Repr

/-- The state of the World and the mailboxes of the aliens. -/
structure System where
  world : World
  mailboxes : Mailboxes
deriving DecidableEq, Repr

/-- One step of an interleaving; `none` when a send of the World finds no room. -/
def System.step (fightDurK : Int) (s : System) : Action → Option System
  | .handle req =>
    let handled := s.world.handle fightDurK req
    match s.mailboxes.deliver handled.2 with
    | none => none
    | some m => some ⟨handled.1, m⟩
  | .receive alien => some ⟨s.world, s.mailboxes.receive alien⟩

/-- An interleaving of handled requests and receives; `none` when a send of the World
finds no room. -/
def System.run (fightDurK : Int) (s : System) : List Action → Option System
  | [] => some s
  | a :: rest =>
    match s.step fightDurK a with
    | none => none
    | some s2 => System.run fightDurK s2 rest

/-- The number of events a list of effects sends to an alien. -/
def sendsTo (alien : String) : List Effect → Nat
  | [] => 0
  | .send a _ :: rest => (if a = alien then 1 else 0) + sendsTo alien rest
  | .notify _ :: rest => sendsTo alien rest
  | .spawn _ :: rest => sendsTo alien rest

end state


namespace types

/-- The constructor `NewCityDestroyRequest`. -/
def NewCityDestroyRequest (cityID : String) : CityDestroyRequest := { CityID := cityID }

end types

namespace state

/-- The goroutine started by `City.AddAlien`, once it has received from the channel of the
timer: the request `types.NewCityDestroyRequest(c.Name)`, which it sends with
`c.worldNotifier.CityDestroyed`. -/
def City.fightOver (c : City) : types.CityDestroyRequest := types.NewCityDestroyRequest c.Name

/-- The deferred function of that goroutine, run after the request is sent:
`c.fightTimer = nil`. -/
def City.clearFightTimer (c : City) : City := { c with fightTimer := none }

/-- A step of the World loop or of a goroutine beside it: the loop takes an alien request
from `alienRequestsCh` and handles it; `disembarkAliens` sends a Disembark request on
`worldRequestsCh`; the fight timer of a city fires and its goroutine sends the
`CityDestroyRequest` on `worldRequestsCh`; that goroutine runs its deferred function; the
loop takes the next request from `worldRequestsCh` and handles it. -/
inductive EngineStep where
  | alienRequest (r : types.AlienRequest)
  | disembark (r : types.AlienDisembarkRequest)
  | timerFired (city : String)
  | timerCleared (city : String)
  | worldRequest
deriving DecidableEq, Repr

/-- The state of the World, the requests waiting on `worldRequestsCh`, oldest first, and the
cities whose goroutine has sent its request and has its deferred function still to run. -/
structure Engine where
  world : World
  worldRequestsCh : List types.WorldRequest
  cleanups : List String
deriving DecidableEq, Repr

/-- One step of the engine.  A goroutine waits on the timer of a city of the map while the
field `fightTimer` is set and the goroutine has not yet sent its request; of a city that has
left the map the engine keeps no state, so its goroutine may send its request at any time,
and what it writes is to a city the World no longer holds. -/
def Engine.step (fightDurK : Int) (s : Engine) : EngineStep → Engine
  | .alienRequest r => ⟨(s.world.handle fightDurK (.alien r)).1, s.worldRequestsCh, s.cleanups⟩
  | .disembark r => ⟨s.world, s.worldRequestsCh ++ [.disembark r], s.cleanups⟩
  | .timerFired city =>
    match s.world.cities.get? city with
    | none =>
      ⟨s.world, s.worldRequestsCh ++ [.cityDestroy (types.NewCityDestroyRequest city)],
        s.cleanups⟩
    | some c =>
      if c.fightTimer = none ∨ city ∈ s.cleanups then s
      else ⟨s.world, s.worldRequestsCh ++ [.cityDestroy c.fightOver], city :: s.cleanups⟩
  | .timerCleared city =>
    if city ∈ s.cleanups then
      ⟨{ s.world with cities := s.world.cities.modify city City.clearFightTimer },
        s.worldRequestsCh, s.cleanups.erase city⟩
    else s
  | .worldRequest =>
    match s.worldRequestsCh with
    | [] => s
    | r :: rest => ⟨(s.world.handle fightDurK (.world r)).1, rest, s.cleanups⟩

/-- The engine after a list of steps. -/
def Engine.run (fightDurK : Int) (s : Engine) : List EngineStep → Engine
  | [] => s
  | step :: rest => Engine.run fightDurK (s.step fightDurK step) rest

/-- The engine `World.Run` starts with: the world as constructed, no request waiting, no
goroutine started. -/
def Engine.start (cityMap : model.CityMap) : Engine := ⟨NewWorld cityMap, [], []⟩

/-- Every alien of the index is in the roster of the city the index maps it to, and that
city is in the map. -/
def World.Indexed (w : World) : Prop :=
  ∀ a c, w.alienCityMap.get? a = some c →
    ∃ d, w.cities.get? c = some d ∧ (d.aliens.get? a).isSome = true

end state

namespace sample

open state

/-- The steps by which `a1` and `a2` land in `B` of the chain. -/
def landTwoAtB : List EngineStep :=
  [.disembark ⟨a1, "B"⟩, .worldRequest, .disembark ⟨a2, "B"⟩, .worldRequest]

end sample

namespace state

/-- What the engine keeps of a city of the map: with two or more aliens in its roster its
timer is set or a `CityDestroyRequest` for it is waiting, and while its goroutine has its
deferred function still to run the request that goroutine sent is waiting. -/
def Engine.Timed (s : Engine) : Prop :=
  ∀ c d, s.world.cities.get? c = some d →
    (2 ≤ d.aliens.len →
      d.fightTimer.isSome = true ∨ types.WorldRequest.cityDestroy ⟨c⟩ ∈ s.worldRequestsCh) ∧
    (c ∈ s.cleanups → types.WorldRequest.cityDestroy ⟨c⟩ ∈ s.worldRequestsCh)

end state

namespace sample

open state

/-- The engine of the chain, with a fight of one second for each unit of power, after `a1`
and `a2` have landed in `B` and the request of `a1` to evacuate was handled. -/
def evacuatedFromB : Engine :=
  (Engine.start chain).run 1000000000 (landTwoAtB ++ [.alienRequest (.evacuate ⟨"a1"⟩)])

/-- The engine of the chain, with a fight of one second for each unit of power, after `a1`
and `a2` have landed in `B`, the fight timer of `B` has fired and its goroutine has sent
its request and run its deferred function. -/
def fightOverAtB : Engine :=
  (Engine.start chain).run 1000000000 (landTwoAtB ++ [.timerFired "B", .timerCleared "B"])

end sample

/-! # Properties -/

namespace GoMap

variable {V : Type}

theorem lookupIn_setIn_self (l : List (String × V)) (k : String) (v : V) :
    lookupIn (setIn l k v) k = some v := by
  induction l with
  | nil => simp [setIn, lookupIn]
  | cons e rest ih =>
    obtain ⟨k2, w⟩ := e
    by_cases h : k2 = k
    · simp [setIn, lookupIn, h]
    · simp [setIn, lookupIn, h, ih]

theorem lookupIn_setIn_ne (l : List (String × V)) {k x : String} (v : V) (h : k ≠ x) :
    lookupIn (setIn l k v) x = lookupIn l x := by
  induction l with
  | nil => simp [setIn, lookupIn, h]
  | cons e rest ih =>
    obtain ⟨k2, w⟩ := e
    by_cases h2 : k2 = k
    · subst h2; simp [setIn, lookupIn, h]
    · by_cases h3 : k2 = x
      · subst h3; simp [setIn, lookupIn, h2]
      · simp [setIn, lookupIn, h2, h3, ih]

theorem lookupIn_deleteIn_self (l : List (String × V)) (k : String) :
    lookupIn (deleteIn l k) k = none := by
  induction l with
  | nil => simp [deleteIn, lookupIn]
  | cons e rest ih =>
    obtain ⟨k2, w⟩ := e
    by_cases h : k2 = k
    · simp [deleteIn, h, ih]
    · simp [deleteIn, h, lookupIn, ih]

theorem lookupIn_deleteIn_ne (l : List (String × V)) {k x : String} (h : k ≠ x) :
    lookupIn (deleteIn l k) x = lookupIn l x := by
  induction l with
  | nil => simp [deleteIn, lookupIn]
  | cons e rest ih =>
    obtain ⟨k2, w⟩ := e
    by_cases h2 : k2 = k
    · subst h2; simp [deleteIn, lookupIn, h, ih]
    · by_cases h3 : k2 = x
      · subst h3; simp [deleteIn, lookupIn, h2]
      · simp [deleteIn, lookupIn, h2, h3, ih]

theorem mem_deleteIn (l : List (String × V)) (k : String) (e : String × V) :
    e ∈ deleteIn l k ↔ e ∈ l ∧ e.1 ≠ k := by
  induction l with
  | nil => simp [deleteIn]
  | cons e2 rest ih =>
    obtain ⟨k2, w⟩ := e2
    by_cases h2 : k2 = k
    · subst h2
      simp only [deleteIn, if_true, ih, List.mem_cons]
      constructor
      · rintro ⟨h, hne⟩; exact ⟨Or.inr h, hne⟩
      · rintro ⟨h | h, hne⟩
        · subst h; exact absurd rfl hne
        · exact ⟨h, hne⟩
    · simp only [deleteIn, h2, if_false, List.mem_cons, ih]
      constructor
      · rintro (h | ⟨h, hne⟩)
        · subst h; exact ⟨Or.inl rfl, h2⟩
        · exact ⟨Or.inr h, hne⟩
      · rintro ⟨h | h, hne⟩
        · exact Or.inl h
        · exact Or.inr ⟨h, hne⟩

theorem nodup_deleteIn {l : List (String × V)} (k : String)
    (hnd : (l.map Prod.fst).Nodup) : ((deleteIn l k).map Prod.fst).Nodup := by
  induction l with
  | nil => simp [deleteIn]
  | cons e rest ih =>
    obtain ⟨k2, w⟩ := e
    simp only [List.map_cons, List.nodup_cons] at hnd
    by_cases h2 : k2 = k
    · simp only [deleteIn, h2, if_true]
      exact ih hnd.2
    · simp only [deleteIn, h2, if_false, List.map_cons, List.nodup_cons]
      refine ⟨?_, ih hnd.2⟩
      intro hmem
      obtain ⟨e, he, hfst⟩ := List.mem_map.mp hmem
      apply hnd.1
      exact List.mem_map.mpr ⟨e, ((mem_deleteIn rest k e).mp he).1, hfst⟩

theorem lookupIn_eq_none_iff (l : List (String × V)) (k : String) :
    lookupIn l k = none ↔ k ∉ l.map Prod.fst := by
  induction l with
  | nil => simp [lookupIn]
  | cons e rest ih =>
    obtain ⟨k2, w⟩ := e
    by_cases h : k2 = k
    · simp [lookupIn, h]
    · simp [lookupIn, h, ih, Ne.symm h]

theorem mem_of_lookupIn {l : List (String × V)} {k : String} {v : V}
    (h : lookupIn l k = some v) : (k, v) ∈ l := by
  induction l with
  | nil => simp [lookupIn] at h
  | cons e rest ih =>
    obtain ⟨k2, w⟩ := e
    by_cases h2 : k2 = k
    · simp [lookupIn, h2] at h; simp [h2, h]
    · simp [lookupIn, h2] at h; simp [ih h]

theorem lookupIn_of_mem {l : List (String × V)} {k : String} {v : V}
    (hnd : (l.map Prod.fst).Nodup) (h : (k, v) ∈ l) : lookupIn l k = some v := by
  induction l with
  | nil => simp at h
  | cons e rest ih =>
    obtain ⟨k2, w⟩ := e
    simp only [List.map_cons, List.nodup_cons] at hnd
    rcases List.mem_cons.mp h with heq | hmem
    · simp only [Prod.mk.injEq] at heq
      simp [lookupIn, heq.1, heq.2]
    · have hne : k2 ≠ k := by
        intro hk
        apply hnd.1
        rw [hk]
        exact List.mem_map.mpr ⟨(k, v), hmem, rfl⟩
      simp [lookupIn, hne, ih hnd.2 hmem]

theorem mem_setIn {l : List (String × V)} {k : String} {v : V} {e : String × V}
    (h : e ∈ setIn l k v) : e = (k, v) ∨ e ∈ l := by
  induction l with
  | nil => simp [setIn] at h; simp [h]
  | cons e2 rest ih =>
    obtain ⟨k2, w⟩ := e2
    by_cases h2 : k2 = k
    · simp [setIn, h2] at h
      rcases h with h | h
      · exact Or.inl h
      · exact Or.inr (List.mem_cons_of_mem _ h)
    · simp [setIn, h2] at h
      rcases h with h | h
      · exact Or.inr (by simp [h])
      · rcases ih h with h3 | h3
        · exact Or.inl h3
        · exact Or.inr (List.mem_cons_of_mem _ h3)

theorem mem_map_fst_setIn (l : List (String × V)) (k x : String) (v : V) :
    x ∈ (setIn l k v).map Prod.fst ↔ x = k ∨ x ∈ l.map Prod.fst := by
  induction l with
  | nil => simp [setIn]
  | cons e rest ih =>
    obtain ⟨k2, w⟩ := e
    by_cases h2 : k2 = k
    · subst h2; simp [setIn]
    · simp only [setIn, h2, if_false, List.map_cons, List.mem_cons, ih]
      tauto

theorem nodup_setIn {l : List (String × V)} (k : String) (v : V)
    (hnd : (l.map Prod.fst).Nodup) : ((setIn l k v).map Prod.fst).Nodup := by
  induction l with
  | nil => simp [setIn]
  | cons e rest ih =>
    obtain ⟨k2, w⟩ := e
    simp only [List.map_cons, List.nodup_cons] at hnd
    by_cases h2 : k2 = k
    · simp only [setIn, h2, if_true, List.map_cons, List.nodup_cons]
      rw [h2] at hnd
      exact hnd
    · simp only [setIn, h2, if_false, List.map_cons, List.nodup_cons, mem_map_fst_setIn]
      refine ⟨?_, ih hnd.2⟩
      rintro (h | h)
      · exact h.elim
      · exact hnd.1 h

/-! ### The map operations -/

@[simp] theorem get?_empty (k : String) : (empty : GoMap V).get? k = none := rfl

@[simp] theorem get?_set_self (m : GoMap V) (k : String) (v : V) :
    (m.set k v).get? k = some v := lookupIn_setIn_self _ _ _

theorem get?_set_ne (m : GoMap V) {k x : String} (v : V) (h : k ≠ x) :
    (m.set k v).get? x = m.get? x := lookupIn_setIn_ne _ _ h

theorem get?_set (m : GoMap V) (k x : String) (v : V) :
    (m.set k v).get? x = if k = x then some v else m.get? x := by
  by_cases h : k = x
  · subst h; simp
  · simp [h, get?_set_ne]

@[simp] theorem get?_delete_self (m : GoMap V) (k : String) :
    (m.delete k).get? k = none := lookupIn_deleteIn_self _ _

theorem get?_delete_ne (m : GoMap V) {k x : String} (h : k ≠ x) :
    (m.delete k).get? x = m.get? x := lookupIn_deleteIn_ne _ h

theorem get?_delete (m : GoMap V) (k x : String) :
    (m.delete k).get? x = if k = x then none else m.get? x := by
  by_cases h : k = x
  · subst h; simp
  · simp [h, get?_delete_ne]

theorem get?_modify (m : GoMap V) (k x : String) (f : V → V) :
    (m.modify k f).get? x = if k = x then (m.get? k).map f else m.get? x := by
  unfold modify
  cases hk : m.get? k with
  | none =>
    by_cases h : k = x
    · subst h; simp [hk]
    · simp [h]
  | some v =>
    simp only [get?_set, Option.map_some']

theorem get?_eq_none_iff (m : GoMap V) (k : String) : m.get? k = none ↔ k ∉ m.keys :=
  lookupIn_eq_none_iff _ _

theorem mem_keys_iff (m : GoMap V) (k : String) : k ∈ m.keys ↔ ∃ v, m.get? k = some v := by
  have h := get?_eq_none_iff m k
  cases hk : m.get? k with
  | none => simp [h.mp hk]
  | some v =>
    simp only [Option.some.injEq, exists_eq', iff_true]
    by_contra hc
    rw [h.mpr hc] at hk
    cases hk

theorem mem_entries_of_get? {m : GoMap V} {k : String} {v : V} (h : m.get? k = some v) :
    (k, v) ∈ m.entries := mem_of_lookupIn h

theorem get?_of_mem_entries {m : GoMap V} {k : String} {v : V} (hnd : m.keys.Nodup)
    (h : (k, v) ∈ m.entries) : m.get? k = some v := lookupIn_of_mem hnd h

theorem mem_entries_set {m : GoMap V} {k : String} {v : V} {e : String × V}
    (h : e ∈ (m.set k v).entries) : e = (k, v) ∨ e ∈ m.entries := mem_setIn h

theorem mem_entries_delete {m : GoMap V} {k : String} {e : String × V}
    (h : e ∈ (m.delete k).entries) : e ∈ m.entries ∧ e.1 ≠ k :=
  (mem_deleteIn _ _ _).mp h

theorem mem_entries_modify {m : GoMap V} {k : String} {f : V → V} {e : String × V}
    (h : e ∈ (m.modify k f).entries) : (∃ v, m.get? k = some v ∧ e = (k, f v)) ∨ e ∈ m.entries := by
  unfold modify at h
  cases hk : m.get? k with
  | none => rw [hk] at h; exact Or.inr h
  | some v =>
    rw [hk] at h
    rcases mem_entries_set h with h2 | h2
    · exact Or.inl ⟨v, rfl, h2⟩
    · exact Or.inr h2

theorem nodup_set {m : GoMap V} (k : String) (v : V) (hnd : m.keys.Nodup) :
    (m.set k v).keys.Nodup := nodup_setIn k v hnd

theorem nodup_delete {m : GoMap V} (k : String) (hnd : m.keys.Nodup) :
    (m.delete k).keys.Nodup := nodup_deleteIn k hnd

theorem nodup_modify {m : GoMap V} (k : String) (f : V → V) (hnd : m.keys.Nodup) :
    (m.modify k f).keys.Nodup := by
  unfold modify
  cases m.get? k with
  | none => exact hnd
  | some v => exact nodup_set k _ hnd

end GoMap

namespace state

/-! ## The stop check -/

theorem checkStopConditions_fst (w : World) :
    w.checkStopConditions.1 = true ↔ w.alienCityMap.len ≤ 1 ∨ w.cities.len = 1 := by
  unfold World.checkStopConditions
  by_cases h1 : w.alienCityMap.len ≤ 1 <;> by_cases h2 : w.cities.len = 1 <;> simp [h1, h2]

/-! ## Rejected moves -/

theorem moveAlienTo_atFight (fightDurK : Int) (w : World) (alien : Option Alien)
    (oldCity : String) (newCity : Option String) {city : City}
    (hc : w.cities.get? oldCity = some city) (hf : 2 ≤ city.aliens.len) :
    w.moveAlienTo fightDurK alien (some oldCity) newCity = (w, []) := by
  have h : (w.cityAt oldCity).AtFight = true := by
    simp only [World.cityAt, GoMap.getD, hc, Option.getD_some, City.AtFight, decide_eq_true_eq]
    omega
  unfold World.moveAlienTo
  cases alien with
  | none => rfl
  | some a =>
    cases newCity with
    | none => rfl
    | some n => simp [h]

/-- C4: a Move request is dropped when the alien is not in the index, when the city the
index names or the target city is not in the cities map, or when the city the alien is in
holds two or more aliens: the handler returns the state it was given (index, rosters,
roads and timers) and performs no effect, neither a mailbox send nor a listener call. -/
theorem handleAlienMoveRequest_rejected (fightDurK : Int) (w : World)
    (r : types.AlienMoveRequest)
    (h : w.alienCityMap.get? r.AlienID = none ∨
      (∃ c, w.alienCityMap.get? r.AlienID = some c ∧ w.cities.get? c = none) ∨
      w.cities.get? r.NewCityID = none ∨
      (∃ c city, w.alienCityMap.get? r.AlienID = some c ∧ w.cities.get? c = some city ∧
        2 ≤ city.aliens.len)) :
    w.handleAlienMoveRequest fightDurK r = (w, []) := by
  cases hidx : w.alienCityMap.get? r.AlienID with
  | none => simp only [World.handleAlienMoveRequest, hidx]
  | some c =>
    cases hcity : w.cities.get? c with
    | none => simp only [World.handleAlienMoveRequest, hidx, hcity]
    | some city =>
      cases hal : city.aliens.get? r.AlienID with
      | none => simp only [World.handleAlienMoveRequest, hidx, hcity, hal]
      | some alien =>
        cases hnew : w.cities.get? r.NewCityID with
        | none => simp only [World.handleAlienMoveRequest, hidx, hcity, hal, hnew]
        | some n =>
          simp only [World.handleAlienMoveRequest, hidx, hcity, hal, hnew]
          rcases h with h | ⟨c2, h1, h2⟩ | h | ⟨c2, city2, h1, h2, h3⟩
          · rw [hidx] at h; cases h
          · rw [hidx] at h1; cases h1; rw [hcity] at h2; cases h2
          · rw [hnew] at h; cases h
          · rw [hidx] at h1; cases h1; rw [hcity] at h2; cases h2
            exact moveAlienTo_atFight fightDurK w _ c _ hcity h3

theorem handleAlienMoveRequest_rejected_witness :
    sample.fightAtB.handleAlienMoveRequest 1 ⟨"a1", "A"⟩ = (sample.fightAtB, []) :=
  handleAlienMoveRequest_rejected 1 sample.fightAtB ⟨"a1", "A"⟩
    (Or.inr (Or.inr (Or.inr ⟨"B", sample.fightAtB.cityAt "B", by decide, by decide, by decide⟩)))

end state

namespace GoMap

variable {V : Type}

theorem map_fst_setIn_of_mem {l : List (String × V)} {k : String} (v : V)
    (h : k ∈ l.map Prod.fst) : (setIn l k v).map Prod.fst = l.map Prod.fst := by
  induction l with
  | nil => simp at h
  | cons e rest ih =>
    obtain ⟨k2, w⟩ := e
    by_cases h2 : k2 = k
    · subst h2; simp [setIn]
    · have h3 : k ∈ rest.map Prod.fst := by
        simp only [List.map_cons, List.mem_cons] at h
        rcases h with h | h
        · exact absurd h.symm h2
        · exact h
      simp [setIn, h2, ih h3]

theorem keys_set_of_get? {m : GoMap V} {k : String} {v0 : V} (v : V)
    (h : m.get? k = some v0) : (m.set k v).keys = m.keys :=
  map_fst_setIn_of_mem v ((mem_keys_iff m k).mpr ⟨v0, h⟩)

theorem keys_modify (m : GoMap V) (k : String) (f : V → V) : (m.modify k f).keys = m.keys := by
  unfold modify
  cases h : m.get? k with
  | none => rfl
  | some v => exact keys_set_of_get? _ h

end GoMap

namespace state

/-! ## Well-formed states -/

theorem World.WF.city_mem {w : World} (hwf : w.WF) {c : String} {city : City}
    (h : w.cities.get? c = some city) : city.Name = c ∧ city.WF :=
  hwf.2.2 (c, city) (GoMap.mem_entries_of_get? h)

theorem City.WF.alien_name {city : City} (hwf : city.WF) {a : String} {alien : Alien}
    (h : city.aliens.get? a = some alien) : alien.Name = a :=
  hwf.2 (a, alien) (GoMap.mem_entries_of_get? h)

/-! ## Dismissal -/

theorem dismissAlien_miss (w : World) (alienID reason : String) (h : w.DismissMiss alienID) :
    w.dismissAlien alienID reason = (w, []) := by
  cases hidx : w.alienCityMap.get? alienID with
  | none => simp only [World.dismissAlien, hidx]
  | some c =>
    cases hcity : w.cities.get? c with
    | none => simp only [World.dismissAlien, hidx, hcity]
    | some city =>
      cases hal : city.aliens.get? alienID with
      | none => simp only [World.dismissAlien, hidx, hcity, hal]
      | some alien =>
        rcases h with h | ⟨c2, h1, h2⟩ | ⟨c2, city2, h1, h2, h3⟩
        · rw [hidx] at h; cases h
        · rw [hidx] at h1; cases h1; rw [hcity] at h2; cases h2
        · rw [hidx] at h1; cases h1; rw [hcity] at h2; cases h2; rw [hal] at h3; cases h3

theorem dismissAlien_found (w : World) (hwf : w.WF) (reason : String) {alienID c : String}
    {city : City} {alien : Alien} (hidx : w.alienCityMap.get? alienID = some c)
    (hcity : w.cities.get? c = some city) (hal : city.aliens.get? alienID = some alien) :
    w.dismissAlien alienID reason =
      ({ cities := w.cities.set c { city with aliens := city.aliens.delete alienID },
         alienCityMap := w.alienCityMap.delete alienID },
       [.send alienID (.AlienDismissedEvent alienID reason),
        .notify (.AlienDismissed alienID reason)]) := by
  have hn : alien.Name = alienID := (hwf.city_mem hcity).2.alien_name hal
  simp only [World.dismissAlien, hidx, hcity, hal, hn, types.NewAlienDismissedEvent]

theorem dismissAlien_cases (w : World) (alienID : String) :
    w.DismissMiss alienID ∨
      ∃ c city alien, w.alienCityMap.get? alienID = some c ∧ w.cities.get? c = some city ∧
        city.aliens.get? alienID = some alien := by
  cases hidx : w.alienCityMap.get? alienID with
  | none => exact Or.inl (Or.inl hidx)
  | some c =>
    cases hcity : w.cities.get? c with
    | none => exact Or.inl (Or.inr (Or.inl ⟨c, hidx, hcity⟩))
    | some city =>
      cases hal : city.aliens.get? alienID with
      | none => exact Or.inl (Or.inr (Or.inr ⟨c, city, hidx, hcity, hal⟩))
      | some alien => exact Or.inr ⟨c, city, alien, rfl, hcity, hal⟩

/-- C9: in a well-formed state, an Evacuate request for an alien that the index maps to an
existing city whose roster holds it removes the alien from that roster and from the index, sends it one
Dismissed event with reason "evacuated" and calls AlienDismissed(alienID, "evacuated");
the index entries of the other aliens, the other aliens of the roster, the city data, the
other cities and the keys of the cities map stay as they were.  When a lookup misses the
state is returned as given with no effect, and handling the same request a second time
changes nothing and has no effect. -/
theorem handleAlienEvacuateRequest_spec (w : World) (r : types.AlienEvacuateRequest)
    (hwf : w.WF) :
    (∀ c city alien, w.alienCityMap.get? r.AlienID = some c → w.cities.get? c = some city →
        city.aliens.get? r.AlienID = some alien →
        (w.handleAlienEvacuateRequest r).2 =
            [.send r.AlienID (.AlienDismissedEvent r.AlienID "evacuated"),
             .notify (.AlienDismissed r.AlienID "evacuated")] ∧
          (w.handleAlienEvacuateRequest r).1.alienCityMap.get? r.AlienID = none ∧
          (∀ a, a ≠ r.AlienID →
            (w.handleAlienEvacuateRequest r).1.alienCityMap.get? a = w.alienCityMap.get? a) ∧
          (∃ city2, (w.handleAlienEvacuateRequest r).1.cities.get? c = some city2 ∧
            city2.aliens.get? r.AlienID = none ∧
            (∀ a, a ≠ r.AlienID → city2.aliens.get? a = city.aliens.get? a) ∧
            city2.toCity = city.toCity ∧ city2.fightTimer = city.fightTimer) ∧
          (∀ c2, c2 ≠ c → (w.handleAlienEvacuateRequest r).1.cities.get? c2 = w.cities.get? c2) ∧
          (w.handleAlienEvacuateRequest r).1.cities.keys = w.cities.keys) ∧
      (w.DismissMiss r.AlienID → w.handleAlienEvacuateRequest r = (w, [])) ∧
      (w.handleAlienEvacuateRequest r).1.handleAlienEvacuateRequest r =
        ((w.handleAlienEvacuateRequest r).1, []) := by
  refine ⟨?_, ?_, ?_⟩
  · intro c city alien hidx hcity hal
    have hres := dismissAlien_found w hwf "evacuated" hidx hcity hal
    unfold World.handleAlienEvacuateRequest
    rw [hres]
    refine ⟨rfl, ?_, ?_, ?_, ?_, ?_⟩
    · simp
    · intro a ha
      exact GoMap.get?_delete_ne _ (Ne.symm ha)
    · refine ⟨_, GoMap.get?_set_self _ _ _, ?_, ?_, rfl, rfl⟩
      · simp
      · intro a ha
        exact GoMap.get?_delete_ne _ (Ne.symm ha)
    · intro c2 hc2
      exact GoMap.get?_set_ne _ _ (Ne.symm hc2)
    · exact GoMap.keys_set_of_get? _ hcity
  · intro hmiss
    exact dismissAlien_miss w _ _ hmiss
  · unfold World.handleAlienEvacuateRequest
    rcases dismissAlien_cases w r.AlienID with hmiss | ⟨c, city, alien, hidx, hcity, hal⟩
    · rw [dismissAlien_miss w _ _ hmiss]
      exact dismissAlien_miss w _ _ hmiss
    · rw [dismissAlien_found w hwf "evacuated" hidx hcity hal]
      apply dismissAlien_miss
      left
      simp

theorem handleAlienEvacuateRequest_spec_witness :
    sample.fightAtB.WF ∧
      (sample.fightAtB.handleAlienEvacuateRequest ⟨"a1"⟩).1.alienCityMap.get? "a1" = none :=
  ⟨by decide,
    ((handleAlienEvacuateRequest_spec sample.fightAtB ⟨"a1"⟩ (by decide)).1 "B"
      (sample.fightAtB.cityAt "B") (NewAlien sample.a1 (sample.fightAtB.cityAt "B").toCity)
      (by decide) (by decide) (by decide)).2.1⟩

end state

namespace GoMap

variable {V : Type}

theorem len_set_pos (m : GoMap V) (k : String) (v : V) : 1 ≤ (m.set k v).len := by
  obtain ⟨l⟩ := m
  cases l with
  | nil => simp [set, setIn, len]
  | cons e rest =>
    obtain ⟨k2, w⟩ := e
    by_cases h : k2 = k <;> simp [set, setIn, len, h]

end GoMap

namespace state

/-! ## Adding an alien to a city -/

theorem cityAt_eq {w : World} {c : String} {city : City} (h : w.cities.get? c = some city) :
    w.cityAt c = city := by
  simp [World.cityAt, GoMap.getD, h]

theorem AddAlien_toCity (fightDurK : Int) (c : City) (alien : Alien) :
    (c.AddAlien fightDurK (some alien)).1.toCity = c.toCity := by
  unfold City.AddAlien
  simp only
  split
  · rfl
  · split <;> rfl

theorem AddAlien_aliens (fightDurK : Int) (c : City) (alien : Alien) :
    (c.AddAlien fightDurK (some alien)).1.aliens = c.aliens.set alien.Name alien := by
  unfold City.AddAlien
  simp only
  split
  · rfl
  · split <;> rfl

theorem AddAlien_flag (fightDurK : Int) (c : City) (alien : Alien) :
    (c.AddAlien fightDurK (some alien)).2 = true ↔
      2 ≤ (c.AddAlien fightDurK (some alien)).1.aliens.len := by
  rw [AddAlien_aliens]
  have hpos := GoMap.len_set_pos c.aliens alien.Name alien
  unfold City.AddAlien
  simp only
  split
  · rename_i h; simp [h]
  · rename_i h
    split <;> simp <;> omega

theorem AddAlien_flag_eq (fightDurK : Int) (c : City) (alien : Alien) :
    (c.AddAlien fightDurK (some alien)).2 =
      decide (2 ≤ (c.AddAlien fightDurK (some alien)).1.aliens.len) := by
  have h := AddAlien_flag fightDurK c alien
  by_cases h2 : 2 ≤ (c.AddAlien fightDurK (some alien)).1.aliens.len
  · simp [h2, h.mpr h2]
  · cases hb : (c.AddAlien fightDurK (some alien)).2
    · simp [h2]
    · exact absurd (h.mp hb) h2

theorem moveAlienTo_landed (fightDurK : Int) (w : World) (alien : Alien) {newCity : String}
    {city : City} (hcity : w.cities.get? newCity = some city) :
    w.moveAlienTo fightDurK (some alien) none (some newCity) =
      ({ cities := w.cities.set newCity (city.AddAlien fightDurK (some alien)).1,
         alienCityMap := w.alienCityMap.set alien.Name city.Name },
       [.send alien.Name (.AlienRelocatedEvent alien.Name city.toCity),
        .notify (.AlienRelocated alien.Name city.Name)]
        ++ (if 2 ≤ (city.AddAlien fightDurK (some alien)).1.aliens.len then
              [.notify (.CityFightStarted city.Name)]
            else [])) := by
  have h1 : World.cityAt ⟨w.cities, w.alienCityMap.set alien.Name city.Name⟩ newCity = city :=
    cityAt_eq hcity
  have h2 : World.cityAt ⟨w.cities.set newCity (city.AddAlien fightDurK (some alien)).1,
      w.alienCityMap.set alien.Name city.Name⟩ newCity =
      (city.AddAlien fightDurK (some alien)).1 := cityAt_eq (GoMap.get?_set_self _ _ _)
  have h3 : (city.AddAlien fightDurK (some alien)).1.Name = city.Name :=
    congrArg model.City.Name (AddAlien_toCity fightDurK city alien)
  simp only [World.moveAlienTo, cityAt_eq hcity, h1, GoMap.modify, hcity, h2, h3,
    AddAlien_toCity, types.NewAlienRelocatedEvent, AddAlien_flag_eq, decide_eq_true_eq,
    Bool.false_eq_true, if_false]

/-- C8: a Disembark request for a city that is not in the cities map returns the state as
given with no effect (no alien task, no mailbox send, no listener call).  Otherwise, in a
well-formed state, the handler creates the alien runtime with the profile of the request, zero used steps and
the data of the city as current city, stores it in the roster of the city, maps its name
to the city in the index, and its effects are, in order: one Relocated event sent to the
alien, AlienRelocated(name, cityID), CityFightStarted(cityID) exactly when the roster now
holds at least two aliens, and the start of the alien task. -/
theorem handleAlienDisembarkRequest_spec (fightDurK : Int) (w : World)
    (r : types.AlienDisembarkRequest) (hwf : w.WF) :
    (w.cities.get? r.CityID = none → w.handleAlienDisembarkRequest fightDurK r = (w, [])) ∧
      ∀ city, w.cities.get? r.CityID = some city →
        ∃ city2, (w.handleAlienDisembarkRequest fightDurK r).1.cities.get? r.CityID = some city2 ∧
          city2.aliens.get? r.Alien.Name =
            some { toAlien := r.Alien, curLocation := city.toCity, curSteps := 0 } ∧
          (∀ a, a ≠ r.Alien.Name → city2.aliens.get? a = city.aliens.get? a) ∧
          city2.toCity = city.toCity ∧
          (w.handleAlienDisembarkRequest fightDurK r).1.alienCityMap.get? r.Alien.Name =
            some r.CityID ∧
          (w.handleAlienDisembarkRequest fightDurK r).2 =
            [.send r.Alien.Name (.AlienRelocatedEvent r.Alien.Name city.toCity),
             .notify (.AlienRelocated r.Alien.Name r.CityID)]
            ++ (if 2 ≤ city2.aliens.len then [.notify (.CityFightStarted r.CityID)] else [])
            ++ [.spawn { toAlien := r.Alien, curLocation := city.toCity, curSteps := 0 }] := by
  constructor
  · intro h
    simp only [World.handleAlienDisembarkRequest, h]
  · intro city hcity
    have hn : city.Name = r.CityID := (hwf.city_mem hcity).1
    refine ⟨(city.AddAlien fightDurK (some (NewAlien r.Alien city.toCity))).1, ?_⟩
    simp only [World.handleAlienDisembarkRequest, hcity, moveAlienTo_landed fightDurK w _ hcity]
    refine ⟨GoMap.get?_set_self _ _ _, ?_, ?_, AddAlien_toCity _ _ _, ?_, ?_⟩
    · rw [AddAlien_aliens]
      exact GoMap.get?_set_self _ _ _
    · intro a ha
      rw [AddAlien_aliens]
      exact GoMap.get?_set_ne _ _ (Ne.symm ha)
    · simp only [hn]
      exact GoMap.get?_set_self _ _ _
    · simp only [hn, NewAlien]

theorem handleAlienDisembarkRequest_spec_witness :
    sample.oneAtA.WF ∧
      (sample.oneAtA.handleAlienDisembarkRequest 1 ⟨sample.a2, "Z"⟩ = (sample.oneAtA, [])) :=
  ⟨by decide,
    (handleAlienDisembarkRequest_spec 1 sample.oneAtA ⟨sample.a2, "Z"⟩ (by decide)).1
      (by decide)⟩

end state

namespace state

/-! ## Moving an alien -/

theorem cityAt_of_get? {cities : GoMap City} {index : GoMap String} {c : String} {city : City}
    (h : cities.get? c = some city) : World.cityAt ⟨cities, index⟩ c = city := by
  simp [World.cityAt, GoMap.getD, h]

theorem moveAlienTo_moved (fightDurK : Int) (w : World) (alien : Alien) {oldCity newCity : String}
    {oc nc : City} (hO : w.cities.get? oldCity = some oc) (hN : w.cities.get? newCity = some nc)
    (hnf : oc.aliens.len ≤ 1) :
    w.moveAlienTo fightDurK (some alien) (some oldCity) (some newCity) =
      ({ cities := (w.cities.modify oldCity (fun c => c.RemoveAlien (some alien))).modify newCity
           (fun _ => ((if oldCity = newCity then oc.RemoveAlien (some alien) else nc).AddAlien
              fightDurK (some alien)).1),
         alienCityMap := w.alienCityMap.set alien.Name nc.Name },
       [.send alien.Name (.AlienRelocatedEvent alien.Name nc.toCity),
        .notify (.AlienRelocated alien.Name nc.Name)]
        ++ (if 2 ≤ ((if oldCity = newCity then oc.RemoveAlien (some alien) else nc).AddAlien
              fightDurK (some alien)).1.aliens.len then
              [.notify (.CityFightStarted nc.Name)]
            else [])) := by
  have hf : (w.cityAt oldCity).AtFight = false := by
    simp only [cityAt_eq hO, City.AtFight, decide_eq_false_iff_not]
    omega
  have h1 : (w.cities.modify oldCity (fun c => c.RemoveAlien (some alien))).get? newCity =
      some (if oldCity = newCity then oc.RemoveAlien (some alien) else nc) := by
    rw [GoMap.get?_modify]
    by_cases h : oldCity = newCity
    · subst h; simp [hO]
    · simp [h, hN]
  have h2 : ∀ g : City → City,
      ((w.cities.modify oldCity (fun c => c.RemoveAlien (some alien))).modify newCity g).get?
        newCity = some (g (if oldCity = newCity then oc.RemoveAlien (some alien) else nc)) := by
    intro g
    rw [GoMap.get?_modify, h1]
    simp
  have h3 : (if oldCity = newCity then oc.RemoveAlien (some alien) else nc).toCity = nc.toCity := by
    by_cases h : oldCity = newCity
    · subst h
      rw [hO] at hN
      cases hN
      simp [City.RemoveAlien]
    · simp [h]
  unfold World.moveAlienTo
  simp only [hf, cityAt_eq hN, cityAt_of_get? h1, cityAt_of_get? (h2 _), AddAlien_toCity, h3,
    types.NewAlienRelocatedEvent, AddAlien_flag_eq, decide_eq_true_eq, Bool.false_eq_true,
    if_false]

end state

namespace state

/-- The state and the effects of a Move request that is carried out. -/
theorem handleAlienMoveRequest_moved (fightDurK : Int) (w : World) (r : types.AlienMoveRequest)
    (hwf : w.WF) {oldCity : String} {oc nc : City} {alien : Alien}
    (hidx : w.alienCityMap.get? r.AlienID = some oldCity)
    (hO : w.cities.get? oldCity = some oc) (hal : oc.aliens.get? r.AlienID = some alien)
    (hnf : oc.aliens.len ≤ 1) (hN : w.cities.get? r.NewCityID = some nc) :
    (w.handleAlienMoveRequest fightDurK r).1.alienCityMap.get? r.AlienID = some r.NewCityID ∧
      (∀ a, a ≠ r.AlienID →
        (w.handleAlienMoveRequest fightDurK r).1.alienCityMap.get? a = w.alienCityMap.get? a) ∧
      (oldCity ≠ r.NewCityID →
        ∃ oc2, (w.handleAlienMoveRequest fightDurK r).1.cities.get? oldCity = some oc2 ∧
          oc2.aliens.get? r.AlienID = none ∧
          ∀ a, a ≠ r.AlienID → oc2.aliens.get? a = oc.aliens.get? a) ∧
      (∃ nc2, (w.handleAlienMoveRequest fightDurK r).1.cities.get? r.NewCityID = some nc2 ∧
          nc2.aliens.get? r.AlienID = some alien ∧
          (∀ a, a ≠ r.AlienID → nc2.aliens.get? a = nc.aliens.get? a) ∧
          (w.handleAlienMoveRequest fightDurK r).2 =
            [.send r.AlienID (.AlienRelocatedEvent r.AlienID nc.toCity),
             .notify (.AlienRelocated r.AlienID r.NewCityID)]
            ++ (if 2 ≤ nc2.aliens.len then [.notify (.CityFightStarted r.NewCityID)] else [])) ∧
      (∀ c, c ≠ oldCity → c ≠ r.NewCityID →
        (w.handleAlienMoveRequest fightDurK r).1.cities.get? c = w.cities.get? c) ∧
      (∀ c, ((w.handleAlienMoveRequest fightDurK r).1.cities.get? c).map City.toCity =
        (w.cities.get? c).map City.toCity) ∧
      (w.handleAlienMoveRequest fightDurK r).1.cities.keys = w.cities.keys := by
  have hname : alien.Name = r.AlienID := (hwf.city_mem hO).2.alien_name hal
  have hcn : nc.Name = r.NewCityID := (hwf.city_mem hN).1
  have hres : w.handleAlienMoveRequest fightDurK r =
      w.moveAlienTo fightDurK (some alien) (some oldCity) (some r.NewCityID) := by
    simp only [World.handleAlienMoveRequest, hidx, hO, hal, hN]
  rw [hres, moveAlienTo_moved fightDurK w alien hO hN hnf]
  simp only [hname, hcn]
  have hmid : ∀ a, a ≠ r.AlienID →
      (if oldCity = r.NewCityID then oc.RemoveAlien (some alien) else nc).aliens.get? a =
        nc.aliens.get? a := by
    intro a ha
    by_cases h : oldCity = r.NewCityID
    · subst h
      rw [hO] at hN
      cases hN
      simp only [if_true, City.RemoveAlien, hname]
      exact GoMap.get?_delete_ne _ (Ne.symm ha)
    · simp [h]
  refine ⟨GoMap.get?_set_self _ _ _, ?_, ?_, ?_, ?_, ?_, ?_⟩
  · intro a ha
    exact GoMap.get?_set_ne _ _ (Ne.symm ha)
  · intro hne
    refine ⟨oc.RemoveAlien (some alien), ?_, ?_, ?_⟩
    · simp only [GoMap.get?_modify]
      simp [Ne.symm hne, hO]
    · simp [City.RemoveAlien, hname]
    · intro a ha
      simp only [City.RemoveAlien, hname]
      exact GoMap.get?_delete_ne _ (Ne.symm ha)
  · refine ⟨_, ?_, ?_, ?_, rfl⟩
    · simp only [GoMap.get?_modify]
      by_cases h : oldCity = r.NewCityID
      · subst h; simp [hO]
      · simp [h, hN]
    · rw [AddAlien_aliens, hname]
      exact GoMap.get?_set_self _ _ _
    · intro a ha
      rw [AddAlien_aliens, hname, GoMap.get?_set_ne _ _ (Ne.symm ha)]
      exact hmid a ha
  · intro c hc1 hc2
    simp only [GoMap.get?_modify]
    simp [Ne.symm hc1, Ne.symm hc2]
  · intro c
    simp only [GoMap.get?_modify]
    by_cases h2 : r.NewCityID = c
    · subst h2
      by_cases h1 : oldCity = r.NewCityID
      · subst h1
        rw [hO] at hN
        cases hN
        simp [hO, AddAlien_toCity, City.RemoveAlien]
      · simp [h1, hN, AddAlien_toCity]
    · by_cases h1 : oldCity = c
      · subst h1
        simp [h2, hO, City.RemoveAlien]
      · simp [h1, h2]
  · rw [GoMap.keys_modify, GoMap.keys_modify]

/-- C5: in a well-formed state, when the index maps the alien of a Move request to an
existing city that holds it and is not at fight, and the target city exists, then after
the handler the index maps
the alien to the target city, the alien is gone from the roster of the old city (unless
old and target city are the same) and is in the roster of the target city, the effects
are, in order, one Relocated event with the data of the target city sent to the alien,
AlienRelocated(alien, target) and CityFightStarted(target) exactly when the roster of the
target city now holds at least two aliens; the index entries of the other aliens, the
other aliens of both rosters, every other city, the keys of the cities map and the city
data (name and roads) of every city are unchanged. -/
theorem handleAlienMoveRequest_spec (fightDurK : Int) (w : World) (r : types.AlienMoveRequest)
    (hwf : w.WF) {oldCity : String} {oc nc : City} {alien : Alien}
    (hidx : w.alienCityMap.get? r.AlienID = some oldCity)
    (hO : w.cities.get? oldCity = some oc) (hal : oc.aliens.get? r.AlienID = some alien)
    (hnf : oc.aliens.len ≤ 1) (hN : w.cities.get? r.NewCityID = some nc) :
    (w.handleAlienMoveRequest fightDurK r).1.alienCityMap.get? r.AlienID = some r.NewCityID ∧
      (∀ a, a ≠ r.AlienID →
        (w.handleAlienMoveRequest fightDurK r).1.alienCityMap.get? a = w.alienCityMap.get? a) ∧
      (oldCity ≠ r.NewCityID →
        ∃ oc2, (w.handleAlienMoveRequest fightDurK r).1.cities.get? oldCity = some oc2 ∧
          oc2.aliens.get? r.AlienID = none ∧
          ∀ a, a ≠ r.AlienID → oc2.aliens.get? a = oc.aliens.get? a) ∧
      (∃ nc2, (w.handleAlienMoveRequest fightDurK r).1.cities.get? r.NewCityID = some nc2 ∧
          nc2.aliens.get? r.AlienID = some alien ∧
          (∀ a, a ≠ r.AlienID → nc2.aliens.get? a = nc.aliens.get? a) ∧
          (w.handleAlienMoveRequest fightDurK r).2 =
            [.send r.AlienID (.AlienRelocatedEvent r.AlienID nc.toCity),
             .notify (.AlienRelocated r.AlienID r.NewCityID)]
            ++ (if 2 ≤ nc2.aliens.len then [.notify (.CityFightStarted r.NewCityID)] else [])) ∧
      (∀ c, c ≠ oldCity → c ≠ r.NewCityID →
        (w.handleAlienMoveRequest fightDurK r).1.cities.get? c = w.cities.get? c) ∧
      (∀ c, ((w.handleAlienMoveRequest fightDurK r).1.cities.get? c).map City.toCity =
        (w.cities.get? c).map City.toCity) ∧
      (w.handleAlienMoveRequest fightDurK r).1.cities.keys = w.cities.keys :=
  handleAlienMoveRequest_moved fightDurK w r hwf hidx hO hal hnf hN

theorem handleAlienMoveRequest_spec_witness :
    sample.oneAtA.WF ∧
      (sample.oneAtA.handleAlienMoveRequest 1 ⟨"a1", "B"⟩).1.alienCityMap.get? "a1" = some "B" :=
  ⟨by decide,
    (@handleAlienMoveRequest_spec 1 sample.oneAtA ⟨"a1", "B"⟩ (by decide)
      "A" (sample.oneAtA.cityAt "A") (sample.oneAtA.cityAt "B")
      (NewAlien sample.a1 (sample.oneAtA.cityAt "A").toCity)
      (by decide) (by decide) (by decide) (by decide) (by decide)).1⟩

end state

namespace state

/-! ## Removing the roads to a city -/

theorem RemoveRoadsTo_eq (c : City) (cityID : String) :
    c.RemoveRoadsTo cityID =
      { c with
        NorthRoad := if c.NorthRoad = cityID then "" else c.NorthRoad
        EastRoad := if c.EastRoad = cityID then "" else c.EastRoad
        SouthRoad := if c.SouthRoad = cityID then "" else c.SouthRoad
        WestRoad := if c.WestRoad = cityID then "" else c.WestRoad } := by
  unfold City.RemoveRoadsTo
  by_cases h1 : c.NorthRoad = cityID <;> by_cases h2 : c.EastRoad = cityID <;>
    by_cases h3 : c.SouthRoad = cityID <;> by_cases h4 : c.WestRoad = cityID <;>
    simp [h1, h2, h3, h4]

theorem RemoveRoadsTo_idem (c : City) (cityID : String) :
    (c.RemoveRoadsTo cityID).RemoveRoadsTo cityID = c.RemoveRoadsTo cityID := by
  rw [RemoveRoadsTo_eq (c.RemoveRoadsTo cityID), RemoveRoadsTo_eq c]
  by_cases h1 : c.NorthRoad = cityID <;> by_cases h2 : c.EastRoad = cityID <;>
    by_cases h3 : c.SouthRoad = cityID <;> by_cases h4 : c.WestRoad = cityID <;>
    simp [h1, h2, h3, h4]

end state

namespace state

theorem removeConnection_index (w : World) (cityID x : String) :
    (w.removeConnection cityID x).1.alienCityMap = w.alienCityMap := by
  unfold World.removeConnection
  cases w.cities.get? x <;> rfl

theorem removeConnection_get? (w : World) (cityID x c : String) :
    (w.removeConnection cityID x).1.cities.get? c =
      if x = c then (w.cities.get? c).map (fun d => d.RemoveRoadsTo cityID)
      else w.cities.get? c := by
  unfold World.removeConnection
  cases h : w.cities.get? x with
  | none =>
    by_cases hx : x = c
    · subst hx; simp [h]
    · simp [hx]
  | some cc =>
    simp only [GoMap.get?_set]
    by_cases hx : x = c
    · subst hx; simp [h]
    · simp [hx]

theorem removeConnection_keys (w : World) (cityID x : String) :
    (w.removeConnection cityID x).1.cities.keys = w.cities.keys := by
  unfold World.removeConnection
  cases h : w.cities.get? x with
  | none => rfl
  | some cc => exact GoMap.keys_set_of_get? _ h

theorem removeConnection_effects (w : World) (cityID x : String) :
    (w.removeConnection cityID x).2 =
      ((w.cities.get? x).map
        (fun d => Effect.notify (.CityUpdated (d.RemoveRoadsTo cityID).toCity))).toList := by
  unfold World.removeConnection
  cases h : w.cities.get? x <;> rfl

theorem World.RoadsCleared.cleared_refl (cityID : String) (w : World) : World.RoadsCleared cityID w w :=
  ⟨rfl, rfl, fun _ => Or.inl rfl⟩

theorem World.RoadsCleared.cleared_trans {cityID : String} {w1 w2 w3 : World}
    (h12 : World.RoadsCleared cityID w1 w2) (h23 : World.RoadsCleared cityID w2 w3) :
    World.RoadsCleared cityID w1 w3 := by
  refine ⟨h23.1.trans h12.1, h23.2.1.trans h12.2.1, fun c => ?_⟩
  rcases h23.2.2 c with h | h <;> rcases h12.2.2 c with h2 | h2
  · exact Or.inl (h.trans h2)
  · exact Or.inr (h.trans h2)
  · exact Or.inr (by rw [h, h2])
  · right
    have hidem : ((fun d : City => d.RemoveRoadsTo cityID) ∘ fun d : City => d.RemoveRoadsTo cityID)
        = fun d : City => d.RemoveRoadsTo cityID := by
      funext d
      simp only [Function.comp_apply, RemoveRoadsTo_idem]
    rw [h, h2, Option.map_map, hidem]

theorem removeConnection_cleared (w : World) (cityID x : String) :
    World.RoadsCleared cityID w (w.removeConnection cityID x).1 := by
  refine ⟨removeConnection_index w cityID x, removeConnection_keys w cityID x, fun c => ?_⟩
  rw [removeConnection_get?]
  by_cases hx : x = c
  · exact Or.inr (by simp [hx])
  · exact Or.inl (by simp [hx])

theorem removeConnections_cleared (w : World) (city : String) :
    World.RoadsCleared city w (w.removeConnections city).1 := by
  unfold World.removeConnections
  exact ((removeConnection_cleared _ _ _).cleared_trans (removeConnection_cleared _ _ _)).cleared_trans
    ((removeConnection_cleared _ _ _).cleared_trans (removeConnection_cleared _ _ _))

theorem removeConnections_effects (w : World) (city : String) :
    ∀ e ∈ (w.removeConnections city).2, ∃ m, e = Effect.notify (.CityUpdated m) := by
  intro e he
  unfold World.removeConnections at he
  simp only [removeConnection_effects, List.mem_append, Option.mem_toList, Option.mem_def,
    Option.map_eq_some'] at he
  rcases he with ((⟨d, _, h⟩ | ⟨d, _, h⟩) | ⟨d, _, h⟩) | ⟨d, _, h⟩ <;> exact ⟨_, h.symm⟩

theorem World.RoadsCleared.city {cityID : String} {w w2 : World}
    (h : World.RoadsCleared cityID w w2) {c : String} {d : City} (hc : w.cities.get? c = some d) :
    ∃ d2, w2.cities.get? c = some d2 ∧ d2.Name = d.Name ∧ d2.aliens = d.aliens ∧
      d2.fightTimer = d.fightTimer ∧
      (d2.toCity = d.toCity ∨ d2.toCity = (d.RemoveRoadsTo cityID).toCity) := by
  rcases h.2.2 c with h2 | h2
  · exact ⟨d, by rw [h2, hc], rfl, rfl, rfl, Or.inl rfl⟩
  · refine ⟨d.RemoveRoadsTo cityID, by rw [h2, hc]; rfl, ?_, ?_, ?_, Or.inr rfl⟩ <;>
      rw [RemoveRoadsTo_eq]

end state

namespace state

/-! ## Preservation of the representation invariant -/

theorem City.WF.delete {city : City} (h : city.WF) (k : String) :
    City.WF { city with aliens := city.aliens.delete k } :=
  ⟨GoMap.nodup_delete k h.1, fun e he => h.2 e (GoMap.mem_entries_delete he).1⟩

theorem City.WF.set_alien {city : City} (h : city.WF) (alien : Alien) :
    City.WF { city with aliens := city.aliens.set alien.Name alien } := by
  refine ⟨GoMap.nodup_set _ _ h.1, fun e he => ?_⟩
  rcases GoMap.mem_entries_set he with heq | hmem
  · rw [heq]
  · exact h.2 e hmem

theorem World.WF.set_city {w : World} (hwf : w.WF) {c : String} {city : City}
    {index : GoMap String} (hname : city.Name = c) (hcity : city.WF)
    (hindex : index.keys.Nodup) : World.WF ⟨w.cities.set c city, index⟩ := by
  refine ⟨GoMap.nodup_set _ _ hwf.1, hindex, fun e he => ?_⟩
  rcases GoMap.mem_entries_set he with heq | hmem
  · rw [heq]; exact ⟨hname, hcity⟩
  · exact hwf.2.2 e hmem

theorem World.WF.modify_city {w : World} (hwf : w.WF) (c : String) (f : City → City)
    {index : GoMap String} (hf : ∀ city, city.WF → (f city).Name = city.Name ∧ (f city).WF)
    (hindex : index.keys.Nodup) : World.WF ⟨w.cities.modify c f, index⟩ := by
  unfold GoMap.modify
  cases h : w.cities.get? c with
  | none => exact ⟨hwf.1, hindex, hwf.2.2⟩
  | some city =>
    have hc := hwf.city_mem h
    exact hwf.set_city ((hf city hc.2).1.trans hc.1) (hf city hc.2).2 hindex

theorem dismissAlien_WF {w : World} (hwf : w.WF) (alienID reason : String) :
    (w.dismissAlien alienID reason).1.WF := by
  rcases dismissAlien_cases w alienID with hmiss | ⟨c, city, alien, hidx, hcity, hal⟩
  · rw [dismissAlien_miss w _ _ hmiss]; exact hwf
  · rw [dismissAlien_found w hwf reason hidx hcity hal]
    have hc := hwf.city_mem hcity
    exact hwf.set_city hc.1 (hc.2.delete alienID) (GoMap.nodup_delete _ hwf.2.1)

/-! ## The loop over the roster of a destroyed city -/

/-- The effects of dismissing the aliens of a roster, in the order of the roster. -/
theorem dismissAliens_spec (city : String) :
    ∀ (rest : List (String × Alien)) (w : World) (c : City), w.WF →
      (rest.map Prod.fst).Nodup → w.cities.get? city = some c →
      (∀ e ∈ rest, (c.aliens.get? e.1).isSome = true ∧ w.alienCityMap.get? e.1 = some city) →
      (w.dismissAliens city rest).1.WF ∧
        (w.dismissAliens city rest).2 = rest.flatMap (fun e =>
          [Effect.send e.1 (.AlienDismissedEvent e.1 "destroyed"),
           Effect.notify (.AlienDismissed e.1 "destroyed")]) ∧
        (∀ a, (w.dismissAliens city rest).1.alienCityMap.get? a =
          if a ∈ rest.map Prod.fst then none else w.alienCityMap.get? a) ∧
        (∀ c2, c2 ≠ city → (w.dismissAliens city rest).1.cities.get? c2 = w.cities.get? c2) ∧
        (w.dismissAliens city rest).1.cities.keys = w.cities.keys ∧
        ∃ c3, (w.dismissAliens city rest).1.cities.get? city = some c3 ∧ c3.toCity = c.toCity ∧
          c3.fightTimer = c.fightTimer ∧
          ∀ a, c3.aliens.get? a = if a ∈ rest.map Prod.fst then none else c.aliens.get? a := by
  intro rest
  induction rest with
  | nil =>
    intro w c hwf _ hc _
    exact ⟨hwf, rfl, fun a => by simp [World.dismissAliens], fun _ _ => rfl, rfl, c, hc, rfl, rfl,
      fun a => by simp⟩
  | cons e rest ih =>
    intro w c hwf hnd hc hall
    obtain ⟨k, v⟩ := e
    simp only [List.map_cons, List.nodup_cons] at hnd
    have hk := hall (k, v) (List.mem_cons_self _ _)
    dsimp only at hk
    obtain ⟨alien, hal⟩ := Option.isSome_iff_exists.mp hk.1
    have hfound := dismissAlien_found w hwf "destroyed" hk.2 hc hal
    have hname : alien.Name = k := (hwf.city_mem hc).2.alien_name hal
    have hwf1 := dismissAlien_WF hwf k "destroyed"
    rw [hfound] at hwf1
    have hrest : ∀ e ∈ rest,
        ((City.mk c.toCity c.fightTimer (c.aliens.delete k)).aliens.get? e.1).isSome = true ∧
          (w.alienCityMap.delete k).get? e.1 = some city := by
      intro e he
      have hne : k ≠ e.1 := by
        intro heq
        apply hnd.1
        rw [heq]
        exact List.mem_map.mpr ⟨e, he, rfl⟩
      have h := hall e (List.mem_cons_of_mem _ he)
      exact ⟨by simpa [GoMap.get?_delete_ne _ hne] using h.1,
        by simpa [GoMap.get?_delete_ne _ hne] using h.2⟩
    have hih := ih _ _ hwf1 hnd.2 (GoMap.get?_set_self _ _ _) hrest
    have hstep : w.dismissAliens city ((k, v) :: rest) =
        ((World.dismissAliens ⟨w.cities.set city ⟨c.toCity, c.fightTimer, c.aliens.delete k⟩,
            w.alienCityMap.delete k⟩ city rest).1,
          [Effect.send k (.AlienDismissedEvent k "destroyed"),
            Effect.notify (.AlienDismissed k "destroyed")] ++
          (World.dismissAliens ⟨w.cities.set city ⟨c.toCity, c.fightTimer, c.aliens.delete k⟩,
            w.alienCityMap.delete k⟩ city rest).2) := by
      simp only [World.dismissAliens, cityAt_eq hc, hal, hname, hfound]
    rw [hstep]
    obtain ⟨h1, h2, h3, h4, h5, c3, h6, h7, h8, h9⟩ := hih
    refine ⟨h1, ?_, ?_, ?_, ?_, c3, h6, h7, h8, ?_⟩
    · simp only [h2, List.flatMap_cons]
    · intro a
      simp only [h3, List.map_cons, List.mem_cons]
      by_cases ha : a = k
      · subst ha; simp
      · rw [GoMap.get?_delete_ne _ (Ne.symm ha)]
        by_cases hm : a ∈ List.map Prod.fst rest
        · rw [if_pos hm, if_pos (Or.inr hm)]
        · rw [if_neg hm, if_neg (fun h => h.elim ha hm)]
    · intro c2 hc2
      rw [h4 c2 hc2]
      exact GoMap.get?_set_ne _ _ (Ne.symm hc2)
    · rw [h5]
      exact GoMap.keys_set_of_get? _ hc
    · intro a
      simp only [h9, List.map_cons, List.mem_cons]
      by_cases ha : a = k
      · subst ha; simp
      · rw [GoMap.get?_delete_ne _ (Ne.symm ha)]
        by_cases hm : a ∈ List.map Prod.fst rest
        · rw [if_pos hm, if_pos (Or.inr hm)]
        · rw [if_neg hm, if_neg (fun h => h.elim ha hm)]

end state

namespace state

theorem World.RoadsCleared.WF {cityID : String} {w w2 : World}
    (h : World.RoadsCleared cityID w w2) (hwf : w.WF) : w2.WF := by
  have hnd : w2.cities.keys.Nodup := by rw [h.2.1]; exact hwf.1
  refine ⟨hnd, by rw [h.1]; exact hwf.2.1, fun e he => ?_⟩
  have hget : w2.cities.get? e.1 = some e.2 := GoMap.get?_of_mem_entries hnd he
  rcases h.2.2 e.1 with h2 | h2
  · rw [h2] at hget
    exact hwf.city_mem hget
  · rw [h2] at hget
    obtain ⟨d, hd, hd2⟩ := Option.map_eq_some'.mp hget
    have hc := hwf.city_mem hd
    rw [← hd2, RemoveRoadsTo_eq]
    exact ⟨hc.1, hc.2⟩

/-- The state and the effects of `handleCityDestroyRequest` for a city of the map, in a
consistent state. -/
theorem handleCityDestroyRequest_found {w : World} (hwf : w.WF) (hcons : w.Consistent)
    {r : types.CityDestroyRequest} {city : City} (hcity : w.cities.get? r.CityID = some city) :
    (w.handleCityDestroyRequest r).2 =
        (w.removeConnections r.CityID).2 ++
          city.aliens.entries.flatMap (fun e =>
            [Effect.send e.1 (.AlienDismissedEvent e.1 "destroyed"),
             Effect.notify (.AlienDismissed e.1 "destroyed")]) ++
          [.notify (.CityDestroyed r.CityID city.aliens.keys)] ∧
      (w.handleCityDestroyRequest r).1.WF ∧
      (∀ a, (w.handleCityDestroyRequest r).1.alienCityMap.get? a =
        if a ∈ city.aliens.keys then none else w.alienCityMap.get? a) ∧
      ∀ c, (w.handleCityDestroyRequest r).1.cities.get? c =
        if r.CityID = c then none else (w.removeConnections r.CityID).1.cities.get? c := by
  have hrc := removeConnections_cleared w r.CityID
  obtain ⟨d2, hd2, hname, hal, _, _⟩ := hrc.city hcity
  have hwf2 := hrc.WF hwf
  have hcw := hwf.city_mem hcity
  have hloop := dismissAliens_spec r.CityID city.aliens.entries (w.removeConnections r.CityID).1
    d2 hwf2 hcw.2.1 hd2 (by
      intro e he
      refine ⟨?_, ?_⟩
      · rw [hal, GoMap.get?_of_mem_entries hcw.2.1 he]; rfl
      · rw [hrc.1]
        exact hcons.2 (r.CityID, city) (GoMap.mem_entries_of_get? hcity) e he)
  obtain ⟨h1, h2, h3, h4, h5, c3, h6, h7, _, _⟩ := hloop
  have hn3 : ((w.removeConnections r.CityID).1.dismissAliens r.CityID
      city.aliens.entries).1.cityAt r.CityID = c3 := cityAt_eq h6
  have hn3name : c3.Name = r.CityID := by
    have : c3.Name = d2.Name := congrArg model.City.Name h7
    rw [this, hname, hcw.1]
  simp only [World.handleCityDestroyRequest, hcity, cityAt_eq hd2, hn3, hn3name, h2,
    City.AlienIDs, hal]
  refine ⟨trivial, ?_, ?_, ?_⟩
  · refine ⟨GoMap.nodup_delete _ h1.1, h1.2.1, fun e he => ?_⟩
    exact h1.2.2 e (GoMap.mem_entries_delete he).1
  · intro a
    rw [h3, hrc.1]
    rfl
  · intro c
    rw [GoMap.get?_delete]
    by_cases hc : r.CityID = c
    · simp [hc]
    · simp only [hc, if_false]
      exact h4 c (Ne.symm hc)

end state

namespace state

/-- C6: in a well-formed and consistent state a CityDestroyed request for a city that is
not in the cities map returns the state as given with no effect.  For a city of the map,
afterwards the city is absent from the map; every alien of its roster is absent from the index, has been sent
a Dismissed event with reason "destroyed" and was reported by AlienDismissed(alien,
"destroyed"); an alien outside the roster keeps its index entry and neither receives a
Dismissed event nor is reported dismissed; the rosters of the other cities are unchanged;
and the last effect is the call CityDestroyed(city, aliensInvolved), whose second argument
lists the aliens of the roster as it was before the handler ran. -/
theorem handleCityDestroyRequest_spec (w : World) (r : types.CityDestroyRequest)
    (hwf : w.WF) (hcons : w.Consistent) :
    (w.cities.get? r.CityID = none → w.handleCityDestroyRequest r = (w, [])) ∧
      ∀ city, w.cities.get? r.CityID = some city →
        (w.handleCityDestroyRequest r).1.cities.get? r.CityID = none ∧
        (∀ a, a ∈ city.aliens.keys →
          (w.handleCityDestroyRequest r).1.alienCityMap.get? a = none ∧
          Effect.send a (.AlienDismissedEvent a "destroyed") ∈ (w.handleCityDestroyRequest r).2 ∧
          Effect.notify (.AlienDismissed a "destroyed") ∈ (w.handleCityDestroyRequest r).2) ∧
        (∀ a, a ∉ city.aliens.keys →
          (w.handleCityDestroyRequest r).1.alienCityMap.get? a = w.alienCityMap.get? a ∧
          ∀ reason,
            Effect.send a (.AlienDismissedEvent a reason) ∉ (w.handleCityDestroyRequest r).2 ∧
            Effect.notify (.AlienDismissed a reason) ∉ (w.handleCityDestroyRequest r).2) ∧
        (∀ c, c ≠ r.CityID →
          ((w.handleCityDestroyRequest r).1.cities.get? c).map City.aliens =
            (w.cities.get? c).map City.aliens) ∧
        ∃ before, (w.handleCityDestroyRequest r).2 =
          before ++ [.notify (.CityDestroyed r.CityID city.aliens.keys)] := by
  constructor
  · intro h
    simp only [World.handleCityDestroyRequest, h]
  · intro city hcity
    obtain ⟨heff, _, hidx, hcities⟩ := handleCityDestroyRequest_found hwf hcons hcity
    have hupd := removeConnections_effects w r.CityID
    have hrc := removeConnections_cleared w r.CityID
    refine ⟨by rw [hcities]; simp, ?_, ?_, ?_, ⟨_, heff⟩⟩
    · intro a ha
      obtain ⟨e, he, hfst⟩ := List.mem_map.mp ha
      refine ⟨by rw [hidx]; simp [ha], ?_, ?_⟩
      · rw [heff]
        apply List.mem_append_left
        apply List.mem_append_right
        exact List.mem_flatMap.mpr ⟨e, he, by simp [hfst]⟩
      · rw [heff]
        apply List.mem_append_left
        apply List.mem_append_right
        exact List.mem_flatMap.mpr ⟨e, he, by simp [hfst]⟩
    · intro a ha
      refine ⟨by rw [hidx]; simp [ha], fun reason => ⟨?_, ?_⟩⟩
      · rw [heff]
        intro hmem
        simp only [List.mem_append, List.mem_flatMap, List.mem_cons, List.mem_singleton,
          List.not_mem_nil, or_false] at hmem
        rcases hmem with (hmem | ⟨e, he, hmem⟩) | hmem
        · obtain ⟨m, hm⟩ := hupd _ hmem
          cases hm
        · rcases hmem with hmem | hmem
          · injection hmem with h1 h2
            exact ha (List.mem_map.mpr ⟨e, he, h1.symm⟩)
          · cases hmem
        · cases hmem
      · rw [heff]
        intro hmem
        simp only [List.mem_append, List.mem_flatMap, List.mem_cons, List.mem_singleton,
          List.not_mem_nil, or_false] at hmem
        rcases hmem with (hmem | ⟨e, he, hmem⟩) | hmem
        · obtain ⟨m, hm⟩ := hupd _ hmem
          cases hm
        · rcases hmem with hmem | hmem
          · cases hmem
          · injection hmem with h1
            injection h1 with h2 h3
            exact ha (List.mem_map.mpr ⟨e, he, h2.symm⟩)
        · cases hmem
    · intro c hc
      rw [hcities]
      simp only [Ne.symm hc, if_false]
      rcases hrc.2.2 c with h | h
      · rw [h]
      · rw [h, Option.map_map]
        cases w.cities.get? c with
        | none => rfl
        | some d => simp only [Option.map_some', Function.comp_apply, RemoveRoadsTo_eq]

theorem handleCityDestroyRequest_spec_witness :
    sample.fightAtB.WF ∧ sample.fightAtB.Consistent ∧
      (sample.fightAtB.handleCityDestroyRequest ⟨"B"⟩).1.cities.get? "B" = none :=
  ⟨by decide, by decide,
    ((handleCityDestroyRequest_spec sample.fightAtB ⟨"B"⟩ (by decide) (by decide)).2
      (sample.fightAtB.cityAt "B") (by decide)).1⟩

end state

namespace state

/-! ## How the handlers change the cities -/

theorem World.Evolves.evolves_refl (cleared : Option String) (w : World) : World.Evolves cleared w w := by
  intro c
  cases h : w.cities.get? c with
  | none => exact Or.inl ⟨rfl, rfl⟩
  | some d => exact Or.inr ⟨d, d, rfl, rfl, CityStep.refl d⟩

theorem World.Evolves.evolves_trans {cleared : Option String} {w1 w2 w3 : World}
    (h12 : World.Evolves cleared w1 w2) (h23 : World.Evolves cleared w2 w3) :
    World.Evolves cleared w1 w3 := by
  intro c
  rcases h12 c with ⟨h1, h2⟩ | ⟨d, d2, h1, h2, hs⟩
  · rcases h23 c with ⟨_, h4⟩ | ⟨e, e2, h3, _, _⟩
    · exact Or.inl ⟨h1, h4⟩
    · rw [h2] at h3; cases h3
  · rcases h23 c with ⟨h3, _⟩ | ⟨e, e2, h3, h4, hs2⟩
    · rw [h2] at h3; cases h3
    · rw [h2] at h3; cases h3
      exact Or.inr ⟨d, e2, h1, h4, hs.trans hs2⟩

theorem World.Evolves.of_cities_eq {cleared : Option String} {w w2 : World}
    (h : w2.cities = w.cities) : World.Evolves cleared w w2 := by
  intro c
  rw [h]
  exact World.Evolves.evolves_refl cleared w c

theorem World.Evolves.evolves_set {cleared : Option String} {w : World} {c : String} {d d2 : City}
    (index : GoMap String) (hd : w.cities.get? c = some d) (hs : CityStep cleared d d2) :
    World.Evolves cleared w ⟨w.cities.set c d2, index⟩ := by
  intro x
  by_cases hx : c = x
  · subst hx
    exact Or.inr ⟨d, d2, hd, GoMap.get?_set_self _ _ _, hs⟩
  · simp only [GoMap.get?_set_ne _ _ hx]
    exact World.Evolves.evolves_refl cleared w x

theorem World.Evolves.evolves_modify {cleared : Option String} {w : World} (c : String) (f : City → City)
    (index : GoMap String) (hf : ∀ d, w.cities.get? c = some d → CityStep cleared d (f d)) :
    World.Evolves cleared w ⟨w.cities.modify c f, index⟩ := by
  unfold GoMap.modify
  cases h : w.cities.get? c with
  | none => exact World.Evolves.of_cities_eq rfl
  | some d => exact World.Evolves.evolves_set index h (hf d h)

theorem World.RoadsCleared.evolves {cityID : String} {w w2 : World}
    (h : World.RoadsCleared cityID w w2) : World.Evolves (some cityID) w w2 := by
  intro c
  cases hc : w.cities.get? c with
  | none =>
    left
    rcases h.2.2 c with h2 | h2 <;> simp [h2, hc]
  | some d =>
    right
    rcases h.2.2 c with h2 | h2
    · exact ⟨d, d, rfl, by rw [h2, hc], CityStep.refl d⟩
    · exact ⟨d, d.RemoveRoadsTo cityID, rfl, by rw [h2, hc]; rfl, CityStep.roads d cityID rfl⟩

theorem dismissAlien_evolves (cleared : Option String) {w : World} (hwf : w.WF)
    (alienID reason : String) : World.Evolves cleared w (w.dismissAlien alienID reason).1 := by
  rcases dismissAlien_cases w alienID with hmiss | ⟨c, city, alien, hidx, hcity, hal⟩
  · rw [dismissAlien_miss w _ _ hmiss]; exact World.Evolves.evolves_refl cleared w
  · rw [dismissAlien_found w hwf reason hidx hcity hal]
    exact World.Evolves.evolves_set _ hcity (CityStep.removed city alienID)

theorem dismissAliens_WF (city : String) :
    ∀ (rest : List (String × Alien)) (w : World), w.WF → (w.dismissAliens city rest).1.WF := by
  intro rest
  induction rest with
  | nil => intro w hwf; exact hwf
  | cons e rest ih =>
    intro w hwf
    obtain ⟨k, v⟩ := e
    unfold World.dismissAliens
    cases (w.cityAt city).aliens.get? k with
    | none => exact ih w hwf
    | some alien => exact ih _ (dismissAlien_WF hwf _ _)

theorem dismissAliens_evolves (cleared : Option String) (city : String) :
    ∀ (rest : List (String × Alien)) (w : World), w.WF →
      World.Evolves cleared w (w.dismissAliens city rest).1 := by
  intro rest
  induction rest with
  | nil => intro w _; exact World.Evolves.evolves_refl cleared w
  | cons e rest ih =>
    intro w hwf
    obtain ⟨k, v⟩ := e
    unfold World.dismissAliens
    cases (w.cityAt city).aliens.get? k with
    | none => exact ih w hwf
    | some alien =>
      exact (dismissAlien_evolves cleared hwf _ _).evolves_trans (ih _ (dismissAlien_WF hwf _ _))

end state

namespace state

/-! ## The handlers keep the representation invariant -/

theorem AddAlien_WF (fightDurK : Int) {c : City} (h : c.WF) (alien : Alien) :
    (c.AddAlien fightDurK (some alien)).1.Name = c.Name ∧
      (c.AddAlien fightDurK (some alien)).1.WF := by
  refine ⟨congrArg model.City.Name (AddAlien_toCity fightDurK c alien), ?_⟩
  unfold City.WF
  rw [AddAlien_aliens]
  exact h.set_alien alien

theorem World.WF.add_alien (fightDurK : Int) {w : World} (hwf : w.WF) (alien : Alien)
    (newCity : String) {index : GoMap String} (hindex : index.keys.Nodup) :
    World.WF ⟨w.cities.modify newCity
      (fun _ => ((w.cityAt newCity).AddAlien fightDurK (some alien)).1), index⟩ := by
  unfold GoMap.modify
  cases h : w.cities.get? newCity with
  | none => exact ⟨hwf.1, hindex, hwf.2.2⟩
  | some d =>
    have hd := hwf.city_mem h
    have ha := AddAlien_WF fightDurK hd.2 alien
    rw [cityAt_eq h]
    exact hwf.set_city (ha.1.trans hd.1) ha.2 hindex

theorem moveAlienTo_WF (fightDurK : Int) {w : World} (hwf : w.WF) (alien : Option Alien)
    (oldCity newCity : Option String) :
    (w.moveAlienTo fightDurK alien oldCity newCity).1.WF := by
  cases alien with
  | none => exact hwf
  | some alien =>
    cases newCity with
    | none => exact hwf
    | some newCity =>
      have hidx := GoMap.nodup_set alien.Name (w.cityAt newCity).Name hwf.2.1
      cases oldCity with
      | none =>
        simp only [World.moveAlienTo, Bool.false_eq_true, if_false]
        exact World.WF.add_alien fightDurK
          (w := ⟨w.cities, w.alienCityMap.set alien.Name (w.cityAt newCity).Name⟩)
          ⟨hwf.1, hidx, hwf.2.2⟩ alien newCity hidx
      | some oldCity =>
        simp only [World.moveAlienTo]
        split
        · exact hwf
        · have h2 : World.WF ⟨w.cities.modify oldCity (fun c => c.RemoveAlien (some alien)),
              w.alienCityMap.set alien.Name (w.cityAt newCity).Name⟩ :=
            hwf.modify_city _ _ (fun city hc => ⟨rfl, hc.delete alien.Name⟩) hidx
          exact World.WF.add_alien fightDurK h2 alien newCity hidx

theorem World.Evolves.evolves_add (cleared : Option String) (fightDurK : Int) (w : World)
    (alien : Alien) (newCity : String) (index : GoMap String) :
    World.Evolves cleared w ⟨w.cities.modify newCity
      (fun _ => ((w.cityAt newCity).AddAlien fightDurK (some alien)).1), index⟩ := by
  apply World.Evolves.evolves_modify
  intro d hd
  rw [cityAt_eq hd]
  exact CityStep.added fightDurK d alien

theorem moveAlienTo_evolves (cleared : Option String) (fightDurK : Int) (w : World)
    (alien : Option Alien) (oldCity newCity : Option String) :
    World.Evolves cleared w (w.moveAlienTo fightDurK alien oldCity newCity).1 := by
  cases alien with
  | none => exact World.Evolves.evolves_refl cleared w
  | some alien =>
    cases newCity with
    | none => exact World.Evolves.evolves_refl cleared w
    | some newCity =>
      cases oldCity with
      | none =>
        simp only [World.moveAlienTo, Bool.false_eq_true, if_false]
        exact (World.Evolves.of_cities_eq rfl).evolves_trans
          (World.Evolves.evolves_add cleared fightDurK ⟨w.cities, _⟩ alien newCity _)
      | some oldCity =>
        simp only [World.moveAlienTo]
        split
        · exact World.Evolves.evolves_refl cleared w
        · exact (World.Evolves.evolves_modify oldCity _ _
            (fun d _ => CityStep.removed d alien.Name)).evolves_trans
            (World.Evolves.evolves_add cleared fightDurK ⟨_, _⟩ alien newCity _)

end state

namespace GoMap

variable {V : Type}

theorem len_delete_le (m : GoMap V) (k : String) : (m.delete k).len ≤ m.len := by
  obtain ⟨l⟩ := m
  simp only [delete, len]
  induction l with
  | nil => simp [deleteIn]
  | cons e rest ih =>
    obtain ⟨k2, w⟩ := e
    by_cases h : k2 = k
    · simp only [deleteIn, h, if_true, List.length_cons]; omega
    · simp only [deleteIn, h, if_false, List.length_cons]; omega

end GoMap

namespace state

theorem CityStep.name {cleared : Option String} {d d2 : City} (h : CityStep cleared d d2) :
    d2.Name = d.Name := by
  induction h with
  | refl c => rfl
  | removed c k => rfl
  | added K c alien => exact congrArg model.City.Name (AddAlien_toCity K c alien)
  | roads c cityID _ => rw [RemoveRoadsTo_eq]
  | trans _ _ ih1 ih2 => exact ih2.trans ih1

theorem CityStep.wf {cleared : Option String} {d d2 : City} (h : CityStep cleared d d2)
    (hd : d.WF) : d2.WF := by
  induction h with
  | refl c => exact hd
  | removed c k => exact hd.delete k
  | added K c alien => exact (AddAlien_WF K hd alien).2
  | roads c cityID _ => rw [RemoveRoadsTo_eq]; exact hd
  | trans _ _ ih1 ih2 => exact ih2 (ih1 hd)

theorem AddAlien_timer (fightDurK : Int) (c : City) (alien : Alien) :
    (c.fightTimer.isSome = true → (c.AddAlien fightDurK (some alien)).1.fightTimer.isSome = true) ∧
      (2 ≤ (c.AddAlien fightDurK (some alien)).1.aliens.len →
        (c.AddAlien fightDurK (some alien)).1.fightTimer.isSome = true) := by
  rw [AddAlien_aliens]
  unfold City.AddAlien
  simp only
  split
  · rename_i h
    exact ⟨fun ht => ht, fun hlen => by omega⟩
  · split <;> exact ⟨fun _ => rfl, fun _ => rfl⟩

theorem CityStep.timer {cleared : Option String} {d d2 : City} (h : CityStep cleared d d2)
    (hd : d.fightTimer.isSome = true) : d2.fightTimer.isSome = true := by
  induction h with
  | refl c => exact hd
  | removed c k => exact hd
  | added K c alien => exact (AddAlien_timer K c alien).1 hd
  | roads c cityID _ => rw [RemoveRoadsTo_eq]; exact hd
  | trans _ _ ih1 ih2 => exact ih2 (ih1 hd)

theorem CityStep.fights_timed {cleared : Option String} {d d2 : City} (h : CityStep cleared d d2)
    (hd : 2 ≤ d.aliens.len → d.fightTimer.isSome = true) :
    2 ≤ d2.aliens.len → d2.fightTimer.isSome = true := by
  induction h with
  | refl c => exact hd
  | removed c k =>
    intro hlen
    have := GoMap.len_delete_le c.aliens k
    exact hd (by simp only at hlen; omega)
  | added K c alien => exact (AddAlien_timer K c alien).2
  | roads c cityID _ => rw [RemoveRoadsTo_eq]; exact hd
  | trans _ _ ih1 ih2 => exact ih2 (ih1 hd)

theorem CityStep.toCity_none {d d2 : City} (h : CityStep none d d2) : d2.toCity = d.toCity := by
  induction h with
  | refl c => rfl
  | removed c k => rfl
  | added K c alien => exact AddAlien_toCity K c alien
  | roads c cityID h => cases h
  | trans _ _ ih1 ih2 => exact ih2.trans ih1

theorem CityStep.toCity_some {cityID : String} {d d2 : City} (h : CityStep (some cityID) d d2) :
    d2.toCity = d.toCity ∨ d2.toCity = (d.RemoveRoadsTo cityID).toCity := by
  induction h with
  | refl c => exact Or.inl rfl
  | removed c k => exact Or.inl rfl
  | added K c alien => exact Or.inl (AddAlien_toCity K c alien)
  | roads c x h => cases h; exact Or.inr rfl
  | @trans a b c _ _ ih1 ih2 =>
    have hcongr : ∀ x y : City, x.toCity = y.toCity →
        (x.RemoveRoadsTo cityID).toCity = (y.RemoveRoadsTo cityID).toCity := by
      intro x y hxy
      simp only [RemoveRoadsTo_eq, hxy]
    rcases ih1 with h1 | h1 <;> rcases ih2 with h2 | h2
    · exact Or.inl (h2.trans h1)
    · exact Or.inr (h2.trans (hcongr _ _ h1))
    · exact Or.inr (h2.trans h1)
    · right
      rw [h2, hcongr b (a.RemoveRoadsTo cityID) h1, RemoveRoadsTo_idem]

end state

namespace state

/-! ## One request -/

theorem handleCityDestroyRequest_cities {w : World} (hwf : w.WF) (r : types.CityDestroyRequest)
    {city : City} (hcity : w.cities.get? r.CityID = some city) :
    ∃ x : World, x.WF ∧ World.Evolves (some r.CityID) w x ∧
      (w.handleCityDestroyRequest r).1 = ⟨x.cities.delete r.CityID, x.alienCityMap⟩ := by
  have hrc := removeConnections_cleared w r.CityID
  have hwf2 := hrc.WF hwf
  have hwf3 := dismissAliens_WF r.CityID ((w.removeConnections r.CityID).1.cityAt
    r.CityID).aliens.entries _ hwf2
  have hev := hrc.evolves.evolves_trans (dismissAliens_evolves (some r.CityID) r.CityID
    ((w.removeConnections r.CityID).1.cityAt r.CityID).aliens.entries _ hwf2)
  refine ⟨_, hwf3, hev, ?_⟩
  rcases hev r.CityID with ⟨h1, _⟩ | ⟨d, d2, h1, h2, hs⟩
  · rw [hcity] at h1; cases h1
  · rw [hcity] at h1; cases h1
    have hname : d2.Name = r.CityID := hs.name.trans (hwf.city_mem hcity).1
    simp only [World.handleCityDestroyRequest, hcity, cityAt_eq h2, hname]

theorem handleCityDestroyRequest_WF {w : World} (hwf : w.WF) (r : types.CityDestroyRequest) :
    (w.handleCityDestroyRequest r).1.WF := by
  cases hcity : w.cities.get? r.CityID with
  | none => simp only [World.handleCityDestroyRequest, hcity]; exact hwf
  | some city =>
    obtain ⟨x, hx, _, heq⟩ := handleCityDestroyRequest_cities hwf r hcity
    rw [heq]
    exact ⟨GoMap.nodup_delete _ hx.1, hx.2.1,
      fun e he => hx.2.2 e (GoMap.mem_entries_delete he).1⟩

theorem handleAlienMoveRequest_cases (fightDurK : Int) (w : World)
    (r : types.AlienMoveRequest) :
    w.handleAlienMoveRequest fightDurK r = (w, []) ∨
      ∃ o oc alien nc, w.alienCityMap.get? r.AlienID = some o ∧ w.cities.get? o = some oc ∧
        oc.aliens.get? r.AlienID = some alien ∧ w.cities.get? r.NewCityID = some nc ∧
        w.handleAlienMoveRequest fightDurK r =
          w.moveAlienTo fightDurK (some alien) (some o) (some r.NewCityID) := by
  cases hidx : w.alienCityMap.get? r.AlienID with
  | none => left; simp only [World.handleAlienMoveRequest, hidx]
  | some o =>
    cases hcity : w.cities.get? o with
    | none => left; simp only [World.handleAlienMoveRequest, hidx, hcity]
    | some oc =>
      cases hal : oc.aliens.get? r.AlienID with
      | none => left; simp only [World.handleAlienMoveRequest, hidx, hcity, hal]
      | some alien =>
        cases hnew : w.cities.get? r.NewCityID with
        | none => left; simp only [World.handleAlienMoveRequest, hidx, hcity, hal, hnew]
        | some nc =>
          right
          exact ⟨o, oc, alien, nc, rfl, hcity, hal, rfl, by
            simp only [World.handleAlienMoveRequest, hidx, hcity, hal, hnew]⟩

theorem handleAlienDisembarkRequest_cases (fightDurK : Int) (w : World)
    (r : types.AlienDisembarkRequest) :
    (w.cities.get? r.CityID = none ∧ w.handleAlienDisembarkRequest fightDurK r = (w, [])) ∨
      ∃ city, w.cities.get? r.CityID = some city ∧
        (w.handleAlienDisembarkRequest fightDurK r).1 =
          (w.moveAlienTo fightDurK (some (NewAlien r.Alien city.toCity)) none
            (some r.CityID)).1 := by
  cases hcity : w.cities.get? r.CityID with
  | none => left; exact ⟨rfl, by simp only [World.handleAlienDisembarkRequest, hcity]⟩
  | some city =>
    right
    exact ⟨city, rfl, by simp only [World.handleAlienDisembarkRequest, hcity]⟩

theorem handle_WF (fightDurK : Int) {w : World} (hwf : w.WF) (req : Request) :
    (w.handle fightDurK req).1.WF := by
  rcases req with (r | r) | (r | r)
  · rcases handleAlienMoveRequest_cases fightDurK w r with h | ⟨o, oc, alien, nc, _, _, _, _, h⟩
    · simp only [World.handle, h]; exact hwf
    · simp only [World.handle, h]; exact moveAlienTo_WF fightDurK hwf _ _ _
  · exact dismissAlien_WF hwf _ _
  · exact handleCityDestroyRequest_WF hwf r
  · rcases handleAlienDisembarkRequest_cases fightDurK w r with ⟨_, h⟩ | ⟨city, _, h⟩
    · simp only [World.handle, h]; exact hwf
    · simp only [World.handle, h]; exact moveAlienTo_WF fightDurK hwf _ _ _

theorem handleAll_WF (fightDurK : Int) (reqs : List Request) :
    ∀ {w : World}, w.WF → (w.handleAll fightDurK reqs).1.WF := by
  induction reqs with
  | nil => intro w hwf; exact hwf
  | cons r rest ih => intro w hwf; exact ih (handle_WF fightDurK hwf r)

theorem NewWorld_WF (cityMap : model.CityMap) : (NewWorld cityMap).WF := by
  have h : ∀ (l : List (String × model.City)) (cities : GoMap City),
      World.WF ⟨cities, GoMap.empty⟩ →
      World.WF ⟨l.foldl (fun cities e => cities.set e.2.Name (NewCity e.2)) cities,
        GoMap.empty⟩ := by
    intro l
    induction l with
    | nil => intro cities h; exact h
    | cons e rest ih =>
      intro cities h
      simp only [List.foldl_cons]
      apply ih
      exact World.WF.set_city h rfl ⟨List.nodup_nil, fun _ he => by cases he⟩ List.nodup_nil
  exact h cityMap.entries GoMap.empty ⟨List.nodup_nil, List.nodup_nil, fun _ he => by cases he⟩

/-- Every city of the state after a request was a city of the state before, it evolved by
`CityStep`, and it is not the city the request asked to destroy. -/
theorem handle_city (fightDurK : Int) {w : World} (hwf : w.WF) (req : Request) {c : String}
    {d2 : City} (h : (w.handle fightDurK req).1.cities.get? c = some d2) :
    ∃ d, w.cities.get? c = some d ∧ CityStep req.destroyed d d2 ∧ req.destroyed ≠ some c := by
  have hof : ∀ {w2 : World}, World.Evolves req.destroyed w w2 → w2.cities.get? c = some d2 →
      ∃ d, w.cities.get? c = some d ∧ CityStep req.destroyed d d2 := by
    intro w2 hev h2
    rcases hev c with ⟨_, h3⟩ | ⟨d, e, h3, h4, hs⟩
    · rw [h2] at h3; cases h3
    · rw [h2] at h4; cases h4; exact ⟨d, h3, hs⟩
  rcases req with (r | r) | (r | r)
  · have hev : World.Evolves none w (w.handleAlienMoveRequest fightDurK r).1 := by
      rcases handleAlienMoveRequest_cases fightDurK w r with h | ⟨o, oc, alien, nc, _, _, _, _, h⟩
      · rw [h]; exact World.Evolves.evolves_refl _ w
      · rw [h]; exact moveAlienTo_evolves _ fightDurK w _ _ _
    obtain ⟨d, hd, hs⟩ := hof hev h
    exact ⟨d, hd, hs, by simp [Request.destroyed]⟩
  · obtain ⟨d, hd, hs⟩ := hof (dismissAlien_evolves none hwf r.AlienID "evacuated") h
    exact ⟨d, hd, hs, by simp [Request.destroyed]⟩
  · cases hcity : w.cities.get? r.CityID with
    | none =>
      have heq : (w.handle fightDurK (.world (.cityDestroy r))).1 = w := by
        simp only [World.handle, World.handleCityDestroyRequest, hcity]
      rw [heq] at h
      refine ⟨d2, h, CityStep.refl d2, ?_⟩
      intro hc
      simp only [Request.destroyed, Option.some.injEq] at hc
      rw [hc, h] at hcity
      cases hcity
    | some city =>
      obtain ⟨x, _, hev, heq⟩ := handleCityDestroyRequest_cities hwf r hcity
      simp only [World.handle, heq, GoMap.get?_delete] at h
      by_cases hc : r.CityID = c
      · simp [hc] at h
      · simp only [hc, if_false] at h
        obtain ⟨d, hd, hs⟩ := hof hev h
        exact ⟨d, hd, hs, by simpa [Request.destroyed] using hc⟩
  · have hev : World.Evolves none w (w.handleAlienDisembarkRequest fightDurK r).1 := by
      rcases handleAlienDisembarkRequest_cases fightDurK w r with ⟨_, h⟩ | ⟨city, _, h⟩
      · rw [h]; exact World.Evolves.evolves_refl _ w
      · rw [h]; exact moveAlienTo_evolves _ fightDurK w _ _ _
    obtain ⟨d, hd, hs⟩ := hof hev h
    exact ⟨d, hd, hs, by simp [Request.destroyed]⟩

end state

namespace state

/-! ## Fight timers -/

theorem NewWorld_city (cityMap : model.CityMap) {c : String} {d : City}
    (h : (NewWorld cityMap).cities.get? c = some d) :
    ∃ e ∈ cityMap.entries, d = NewCity e.2 := by
  have hfold : ∀ (l : List (String × model.City)) (cities : GoMap City),
      (∀ x ∈ cities.entries, ∃ e ∈ cityMap.entries, x.2 = NewCity e.2) →
      (∀ e ∈ l, e ∈ cityMap.entries) →
      ∀ x ∈ (l.foldl (fun cities e => cities.set e.2.Name (NewCity e.2)) cities).entries,
        ∃ e ∈ cityMap.entries, x.2 = NewCity e.2 := by
    intro l
    induction l with
    | nil => intro cities hc _; exact hc
    | cons e rest ih =>
      intro cities hc hl
      simp only [List.foldl_cons]
      apply ih
      · intro x hx
        rcases GoMap.mem_entries_set hx with heq | hmem
        · exact ⟨e, hl e (List.mem_cons_self _ _), by rw [heq]⟩
        · exact hc x hmem
      · intro e2 he2
        exact hl e2 (List.mem_cons_of_mem _ he2)
  exact hfold cityMap.entries GoMap.empty (fun _ hx => by cases hx) (fun _ he => he) (c, d)
    (GoMap.mem_entries_of_get? h)

theorem handleAll_induction (fightDurK : Int) (P : World → Prop)
    (hstep : ∀ w req, w.WF → P w → P (w.handle fightDurK req).1) (reqs : List Request) :
    ∀ w : World, w.WF → P w → P (w.handleAll fightDurK reqs).1 := by
  induction reqs with
  | nil => intro w _ hp; exact hp
  | cons r rest ih =>
    intro w hwf hp
    exact ih _ (handle_WF fightDurK hwf r) (hstep w r hwf hp)

end state

namespace model

/-! ## Validated city maps -/

theorem CityMap.validateFrom_ok (m : CityMap) :
    ∀ l : List (String × City), CityMap.validateFrom m l = .ok () →
      ∀ e ∈ l, CityMap.validateEntry m e.1 e.2 = .ok () := by
  intro l
  induction l with
  | nil => intro _ e he; cases he
  | cons e rest ih =>
    intro h x hx
    obtain ⟨k, city⟩ := e
    unfold CityMap.validateFrom at h
    cases hv : CityMap.validateEntry m k city with
    | error msg => rw [hv] at h; cases h
    | ok u =>
      rw [hv] at h
      rcases List.mem_cons.mp hx with heq | hmem
      · rw [heq]; exact hv
      · exact ih h x hmem

theorem cityNameRegexp_ne_empty {s : String} (h : cityNameRegexp s = true) : s ≠ "" := by
  intro hs
  subst hs
  simp [cityNameRegexp] at h

theorem CityMap.validateEntry_ok {m : CityMap} {k : String} {city : City}
    (h : CityMap.validateEntry m k city = .ok ()) :
    k = city.Name ∧ cityNameRegexp k = true ∧
      (city.NorthRoad ≠ "" → (m.getD city.NorthRoad City.zero).SouthRoad = k) ∧
      (city.EastRoad ≠ "" → (m.getD city.EastRoad City.zero).WestRoad = k) ∧
      (city.SouthRoad ≠ "" → (m.getD city.SouthRoad City.zero).NorthRoad = k) ∧
      (city.WestRoad ≠ "" → (m.getD city.WestRoad City.zero).EastRoad = k) := by
  unfold CityMap.validateEntry at h
  split at h
  · cases h
  · split at h
    · cases h
    · split at h
      · cases h
      · split at h
        · cases h
        · split at h
          · cases h
          · split at h
            · cases h
            · rename_i h1 h2 h3 h4 h5 h6
              refine ⟨by simpa using h1, by simpa using h2, ?_, ?_, ?_, ?_⟩
              · intro hne; by_contra hc; exact h3 ⟨hne, hc⟩
              · intro hne; by_contra hc; exact h4 ⟨hne, hc⟩
              · intro hne; by_contra hc; exact h5 ⟨hne, hc⟩
              · intro hne; by_contra hc; exact h6 ⟨hne, hc⟩

end model

namespace state

/-! ## Symmetric roads -/

theorem NewWorld_get? (cityMap : model.CityMap) (hnd : cityMap.keys.Nodup)
    (hname : ∀ e ∈ cityMap.entries, e.1 = e.2.Name) (c : String) :
    (NewWorld cityMap).cities.get? c = (cityMap.get? c).map NewCity := by
  have hfold : ∀ (l : List (String × model.City)) (cities : GoMap City),
      (l.map Prod.fst).Nodup → (∀ e ∈ l, e.1 = e.2.Name) →
      (l.foldl (fun cities e => cities.set e.2.Name (NewCity e.2)) cities).get? c =
        match GoMap.lookupIn l c with
        | some m => some (NewCity m)
        | none => cities.get? c := by
    intro l
    induction l with
    | nil => intro cities _ _; rfl
    | cons e rest ih =>
      intro cities hnd hn
      obtain ⟨k, m⟩ := e
      simp only [List.map_cons, List.nodup_cons] at hnd
      have hk : k = m.Name := hn (k, m) (List.mem_cons_self _ _)
      simp only [List.foldl_cons]
      rw [ih _ hnd.2 (fun e he => hn e (List.mem_cons_of_mem _ he)), ← hk]
      by_cases hkc : k = c
      · subst hkc
        have hnone : GoMap.lookupIn rest k = none :=
          (GoMap.lookupIn_eq_none_iff rest k).mpr hnd.1
        simp [hnone, GoMap.lookupIn]
      · simp only [GoMap.lookupIn, hkc, if_false, GoMap.get?_set_ne _ _ hkc]
  have h := hfold cityMap.entries GoMap.empty hnd hname
  unfold NewWorld
  simp only [h]
  unfold GoMap.get?
  cases GoMap.lookupIn cityMap.entries c <;> rfl

/-- The roads of a city after a request: every slot is as it was, or it named the
destroyed city and is now empty. -/
theorem CityStep.slots {cleared : Option String} {d d2 : City} (h : CityStep cleared d d2) :
    (d2.NorthRoad = d.NorthRoad ∨ (cleared = some d.NorthRoad ∧ d2.NorthRoad = "")) ∧
      (d2.EastRoad = d.EastRoad ∨ (cleared = some d.EastRoad ∧ d2.EastRoad = "")) ∧
      (d2.SouthRoad = d.SouthRoad ∨ (cleared = some d.SouthRoad ∧ d2.SouthRoad = "")) ∧
      (d2.WestRoad = d.WestRoad ∨ (cleared = some d.WestRoad ∧ d2.WestRoad = "")) := by
  cases cleared with
  | none =>
    have ht := h.toCity_none
    exact ⟨Or.inl (congrArg model.City.NorthRoad ht), Or.inl (congrArg model.City.EastRoad ht),
      Or.inl (congrArg model.City.SouthRoad ht), Or.inl (congrArg model.City.WestRoad ht)⟩
  | some cityID =>
    rcases h.toCity_some with ht | ht
    · exact ⟨Or.inl (congrArg model.City.NorthRoad ht), Or.inl (congrArg model.City.EastRoad ht),
        Or.inl (congrArg model.City.SouthRoad ht), Or.inl (congrArg model.City.WestRoad ht)⟩
    · have h1 := congrArg model.City.NorthRoad ht
      have h2 := congrArg model.City.EastRoad ht
      have h3 := congrArg model.City.SouthRoad ht
      have h4 := congrArg model.City.WestRoad ht
      rw [RemoveRoadsTo_eq] at h1 h2 h3 h4
      simp only at h1 h2 h3 h4
      refine ⟨?_, ?_, ?_, ?_⟩
      · by_cases hc : d.NorthRoad = cityID
        · right; rw [h1, hc]; simp
        · left; rw [h1]; simp [hc]
      · by_cases hc : d.EastRoad = cityID
        · right; rw [h2, hc]; simp
        · left; rw [h2]; simp [hc]
      · by_cases hc : d.SouthRoad = cityID
        · right; rw [h3, hc]; simp
        · left; rw [h3]; simp [hc]
      · by_cases hc : d.WestRoad = cityID
        · right; rw [h4, hc]; simp
        · left; rw [h4]; simp [hc]

end state

namespace state

theorem symmetric_slot {cleared : Option String} {a b sa sa2 sb sb2 : String} (hb : b ≠ "")
    (hca : cleared ≠ some a)
    (h1 : sa2 = sa ∨ (cleared = some sa ∧ sa2 = ""))
    (h2 : sb2 = sb ∨ (cleared = some sb ∧ sb2 = ""))
    (hsym : sa = b → sb = a) : sa2 = b → sb2 = a := by
  intro h
  rcases h1 with h1 | ⟨_, h1⟩
  · have hsb : sb = a := hsym (h1 ▸ h)
    rcases h2 with h2 | ⟨h2, _⟩
    · rw [h2, hsb]
    · rw [hsb] at h2; exact absurd h2 hca
  · rw [h1] at h; exact absurd h.symm hb

/-- C2: in every state reached from the world of a city map (a Go map, so with distinct
keys) that passes `Validate` by handling requests, the roads between two cities of the map are symmetric: a north road
from A to B is answered by the south road of B to A, and likewise south by north, east by
west and west by east. -/
theorem roads_stay_symmetric (fightDurK : Int) (cityMap : model.CityMap)
    (hnd : cityMap.keys.Nodup) (hval : cityMap.Validate = .ok ()) (reqs : List Request) :
    ∀ a b da db, ((NewWorld cityMap).handleAll fightDurK reqs).1.cities.get? a = some da →
      ((NewWorld cityMap).handleAll fightDurK reqs).1.cities.get? b = some db →
      (da.NorthRoad = b → db.SouthRoad = a) ∧ (da.SouthRoad = b → db.NorthRoad = a) ∧
      (da.EastRoad = b → db.WestRoad = a) ∧ (da.WestRoad = b → db.EastRoad = a) := by
  have hentries := model.CityMap.validateFrom_ok cityMap cityMap.entries hval
  have hname : ∀ e ∈ cityMap.entries, e.1 = e.2.Name :=
    fun e he => (model.CityMap.validateEntry_ok (hentries e he)).1
  have hinit := NewWorld_get? cityMap hnd hname
  have hmain := handleAll_induction fightDurK
    (fun w => w.cities.get? "" = none ∧ ∀ a b da db, w.cities.get? a = some da →
      w.cities.get? b = some db →
      (da.NorthRoad = b → db.SouthRoad = a) ∧ (da.SouthRoad = b → db.NorthRoad = a) ∧
      (da.EastRoad = b → db.WestRoad = a) ∧ (da.WestRoad = b → db.EastRoad = a))
    ?_ reqs (NewWorld cityMap) (NewWorld_WF cityMap) ?_
  · exact hmain.2
  · intro w req hwf hp
    have hempty : (w.handle fightDurK req).1.cities.get? "" = none := by
      cases h : (w.handle fightDurK req).1.cities.get? "" with
      | none => rfl
      | some d2 =>
        obtain ⟨d, hd, _, _⟩ := handle_city fightDurK hwf req h
        rw [hp.1] at hd
        cases hd
    refine ⟨hempty, ?_⟩
    intro a b da2 db2 ha2 hb2
    obtain ⟨da, hda, hsa, hca⟩ := handle_city fightDurK hwf req ha2
    obtain ⟨db, hdb, hsb, hcb⟩ := handle_city fightDurK hwf req hb2
    have hane : a ≠ "" := by
      intro h; rw [h, hp.1] at hda; cases hda
    have hbne : b ≠ "" := by
      intro h; rw [h, hp.1] at hdb; cases hdb
    obtain ⟨p1, p2, p3, p4⟩ := hp.2 a b da db hda hdb
    obtain ⟨a1, a2, a3, a4⟩ := hsa.slots
    obtain ⟨b1, b2, b3, b4⟩ := hsb.slots
    exact ⟨symmetric_slot hbne hca a1 b3 p1, symmetric_slot hbne hca a3 b1 p2,
      symmetric_slot hbne hca a2 b4 p3, symmetric_slot hbne hca a4 b2 p4⟩
  · have hkey : ∀ c m, cityMap.get? c = some m → c ≠ "" ∧
        (m.NorthRoad ≠ "" → (cityMap.getD m.NorthRoad model.City.zero).SouthRoad = c) ∧
        (m.EastRoad ≠ "" → (cityMap.getD m.EastRoad model.City.zero).WestRoad = c) ∧
        (m.SouthRoad ≠ "" → (cityMap.getD m.SouthRoad model.City.zero).NorthRoad = c) ∧
        (m.WestRoad ≠ "" → (cityMap.getD m.WestRoad model.City.zero).EastRoad = c) := by
      intro c m hm
      have hv := model.CityMap.validateEntry_ok (hentries (c, m) (GoMap.mem_entries_of_get? hm))
      exact ⟨model.cityNameRegexp_ne_empty hv.2.1, hv.2.2⟩
    constructor
    · rw [hinit]
      cases h : cityMap.get? "" with
      | none => rfl
      | some m => exact absurd rfl (hkey "" m h).1
    · intro a b da db ha hb
      rw [hinit] at ha hb
      obtain ⟨ma, hma, hda⟩ := Option.map_eq_some'.mp ha
      obtain ⟨mb, hmb, hdb⟩ := Option.map_eq_some'.mp hb
      obtain ⟨_, k1, k2, k3, k4⟩ := hkey a ma hma
      have hbne : b ≠ "" := (hkey b mb hmb).1
      have hget : cityMap.getD b model.City.zero = mb := by
        simp [GoMap.getD, hmb]
      subst hda hdb
      simp only [NewCity]
      refine ⟨?_, ?_, ?_, ?_⟩
      · intro h; have := k1 (h ▸ hbne); rwa [h, hget] at this
      · intro h; have := k3 (h ▸ hbne); rwa [h, hget] at this
      · intro h; have := k2 (h ▸ hbne); rwa [h, hget] at this
      · intro h; have := k4 (h ▸ hbne); rwa [h, hget] at this

theorem roads_stay_symmetric_witness :
    sample.chain.keys.Nodup ∧ sample.chain.Validate = .ok () ∧
      ((sample.oneAtA.cityAt "A").EastRoad = "B" → (sample.oneAtA.cityAt "B").WestRoad = "A") :=
  ⟨by decide, by rfl,
    (roads_stay_symmetric 1 sample.chain (by decide) (by rfl)
      [.world (.disembark ⟨sample.a1, "A"⟩)] "A" "B" (sample.oneAtA.cityAt "A")
      (sample.oneAtA.cityAt "B") (by decide) (by decide)).2.2.1⟩

end state

namespace state

/-! ## The index and the rosters -/

theorem World.WF.consistent_iff {w : World} (hwf : w.WF) : w.Consistent ↔ w.Agrees := by
  constructor
  · intro h
    constructor
    · intro a c hidx
      have h1 := h.1 (a, c) (GoMap.mem_entries_of_get? hidx)
      simp only at h1
      cases hc : w.cities.get? c with
      | none => rw [hc] at h1; cases h1
      | some d => rw [hc] at h1; exact ⟨d, rfl, h1⟩
    · intro c d a hc ha
      obtain ⟨al, hal⟩ := Option.isSome_iff_exists.mp ha
      exact h.2 (c, d) (GoMap.mem_entries_of_get? hc) (a, al) (GoMap.mem_entries_of_get? hal)
  · intro h
    constructor
    · intro e he
      have hidx := GoMap.get?_of_mem_entries hwf.2.1 he
      obtain ⟨d, hd, ha⟩ := h.1 e.1 e.2 hidx
      rw [hd]
      exact ha
    · intro ce hce ae hae
      have hc := GoMap.get?_of_mem_entries hwf.1 hce
      have ha := GoMap.get?_of_mem_entries (hwf.2.2 ce hce).2.1 hae
      exact h.2 ce.1 ce.2 ae.1 hc (by rw [ha]; rfl)

theorem dismissAlien_agrees {w : World} (hwf : w.WF) (h : w.Agrees) (alienID reason : String) :
    (w.dismissAlien alienID reason).1.Agrees ∧
      ∀ a, ((w.dismissAlien alienID reason).1.alienCityMap.get? a).isSome = true →
        (w.alienCityMap.get? a).isSome = true := by
  rcases dismissAlien_cases w alienID with hmiss | ⟨c0, d0, alien, hidx, hcity, hal⟩
  · rw [dismissAlien_miss w _ _ hmiss]; exact ⟨h, fun _ ha => ha⟩
  · rw [dismissAlien_found w hwf reason hidx hcity hal]
    refine ⟨⟨?_, ?_⟩, ?_⟩
    · intro a c ha
      simp only [GoMap.get?_delete] at ha
      by_cases hne : alienID = a
      · simp [hne] at ha
      · simp only [hne, if_false] at ha
        obtain ⟨d, hd, hda⟩ := h.1 a c ha
        simp only [GoMap.get?_set]
        by_cases hc : c0 = c
        · subst hc
          rw [hcity] at hd
          cases hd
          exact ⟨⟨d0.toCity, d0.fightTimer, d0.aliens.delete alienID⟩, by simp,
            by simpa [GoMap.get?_delete_ne _ hne] using hda⟩
        · exact ⟨d, by simp [hc, hd], hda⟩
    · intro c d a hc ha
      simp only [GoMap.get?_set] at hc
      by_cases hcc : c0 = c
      · subst hcc
        simp only [if_true, Option.some.injEq] at hc
        subst hc
        simp only [GoMap.get?_delete] at ha
        by_cases hne : alienID = a
        · simp [hne] at ha
        · simp only [hne, if_false] at ha
          simp only [GoMap.get?_delete_ne _ hne]
          exact h.2 c0 d0 a hcity ha
      · simp only [hcc, if_false] at hc
        have hia := h.2 c d a hc ha
        have hne : alienID ≠ a := by
          intro heq
          rw [← heq, hidx] at hia
          exact hcc (Option.some.inj hia)
        simp only [GoMap.get?_delete_ne _ hne]
        exact hia
    · intro a ha
      simp only [GoMap.get?_delete] at ha
      by_cases hne : alienID = a
      · simp [hne] at ha
      · simpa [hne] using ha

end state

namespace state

theorem handleAlienMoveRequest_agrees (fightDurK : Int) {w : World} (hwf : w.WF)
    (h : w.Agrees) (r : types.AlienMoveRequest) :
    (w.handleAlienMoveRequest fightDurK r).1.Agrees ∧
      ∀ a, ((w.handleAlienMoveRequest fightDurK r).1.alienCityMap.get? a).isSome = true →
        (w.alienCityMap.get? a).isSome = true := by
  rcases handleAlienMoveRequest_cases fightDurK w r with
    hsame | ⟨o, oc, alien, nc, hidx, hO, hal, hN, hres⟩
  · rw [hsame]; exact ⟨h, fun _ ha => ha⟩
  · by_cases hnf : oc.aliens.len ≤ 1
    · obtain ⟨s1, s2, s3, ⟨nc2, s4, s5, s6, _⟩, s7, _, _⟩ :=
        handleAlienMoveRequest_moved fightDurK w r hwf hidx hO hal hnf hN
      refine ⟨⟨?_, ?_⟩, ?_⟩
      · intro a c ha
        by_cases haA : a = r.AlienID
        · subst haA
          rw [s1] at ha
          cases ha
          exact ⟨nc2, s4, by rw [s5]; rfl⟩
        · rw [s2 a haA] at ha
          obtain ⟨d, hd, hda⟩ := h.1 a c ha
          by_cases hcN : c = r.NewCityID
          · subst hcN
            rw [hN] at hd
            cases hd
            exact ⟨nc2, s4, by rw [s6 a haA]; exact hda⟩
          · by_cases hcO : c = o
            · subst hcO
              rw [hO] at hd
              cases hd
              obtain ⟨oc2, t1, _, t3⟩ := s3 hcN
              exact ⟨oc2, t1, by rw [t3 a haA]; exact hda⟩
            · exact ⟨d, by rw [s7 c hcO hcN]; exact hd, hda⟩
      · intro c d2 a hc ha
        by_cases hcN : c = r.NewCityID
        · subst hcN
          rw [s4] at hc
          cases hc
          by_cases haA : a = r.AlienID
          · subst haA; exact s1
          · rw [s6 a haA] at ha
            rw [s2 a haA]
            exact h.2 _ nc a hN ha
        · by_cases hcO : c = o
          · subst hcO
            obtain ⟨oc2, t1, t2, t3⟩ := s3 hcN
            rw [t1] at hc
            cases hc
            have haA : a ≠ r.AlienID := by
              intro heq
              rw [heq, t2] at ha
              cases ha
            rw [t3 a haA] at ha
            rw [s2 a haA]
            exact h.2 _ oc a hO ha
          · rw [s7 c hcO hcN] at hc
            have hia := h.2 c d2 a hc ha
            have haA : a ≠ r.AlienID := by
              intro heq
              rw [heq, hidx] at hia
              exact hcO (Option.some.inj hia).symm
            rw [s2 a haA]
            exact hia
      · intro a ha
        by_cases haA : a = r.AlienID
        · rw [haA, hidx]; rfl
        · rwa [s2 a haA] at ha
    · have hrej : w.handleAlienMoveRequest fightDurK r = (w, []) := by
        rw [hres]
        exact moveAlienTo_atFight fightDurK w _ o _ hO (by omega)
      rw [hrej]
      exact ⟨h, fun _ ha => ha⟩

theorem handleAlienDisembarkRequest_agrees (fightDurK : Int) {w : World} (hwf : w.WF)
    (h : w.Agrees) (r : types.AlienDisembarkRequest)
    (hfresh : w.alienCityMap.get? r.Alien.Name = none) :
    (w.handleAlienDisembarkRequest fightDurK r).1.Agrees ∧
      ∀ a, ((w.handleAlienDisembarkRequest fightDurK r).1.alienCityMap.get? a).isSome = true →
        (w.alienCityMap.get? a).isSome = true ∨ a = r.Alien.Name := by
  rcases handleAlienDisembarkRequest_cases fightDurK w r with ⟨_, hsame⟩ | ⟨city, hcity, hres⟩
  · rw [hsame]; exact ⟨h, fun _ ha => Or.inl ha⟩
  · rw [hres, moveAlienTo_landed fightDurK w _ hcity]
    have hname : city.Name = r.CityID := (hwf.city_mem hcity).1
    have hal : ∀ a, ((city.AddAlien fightDurK (some (NewAlien r.Alien city.toCity))).1.aliens.get?
        a).isSome = true ↔ a = r.Alien.Name ∨ (city.aliens.get? a).isSome = true := by
      intro a
      rw [AddAlien_aliens, GoMap.get?_set]
      simp only [NewAlien]
      by_cases ha : r.Alien.Name = a
      · simp [ha]
      · simp [ha, Ne.symm ha]
    simp only [hname, NewAlien] at hal ⊢
    refine ⟨⟨?_, ?_⟩, ?_⟩
    · intro a c ha
      simp only [GoMap.get?_set] at ha ⊢
      by_cases haA : r.Alien.Name = a
      · simp only [haA, if_true, Option.some.injEq] at ha
        subst ha
        exact ⟨_, by simp, (hal a).mpr (Or.inl haA.symm)⟩
      · simp only [haA, if_false] at ha
        obtain ⟨d, hd, hda⟩ := h.1 a c ha
        by_cases hc : r.CityID = c
        · subst hc
          rw [hcity] at hd
          cases hd
          exact ⟨_, by simp, (hal a).mpr (Or.inr hda)⟩
        · exact ⟨d, by simp [hc, hd], hda⟩
    · intro c d2 a hc ha
      simp only [GoMap.get?_set] at hc ⊢
      by_cases hcc : r.CityID = c
      · simp only [hcc, if_true, Option.some.injEq] at hc
        subst hc
        rcases (hal a).mp ha with haA | hda
        · simp [haA, hcc]
        · have hia := h.2 r.CityID city a hcity hda
          have hne : r.Alien.Name ≠ a := by
            intro heq
            rw [← heq, hfresh] at hia
            cases hia
          simp only [hne, if_false]
          rw [← hcc]
          exact hia
      · simp only [hcc, if_false] at hc
        have hia := h.2 c d2 a hc ha
        have hne : r.Alien.Name ≠ a := by
          intro heq
          rw [← heq, hfresh] at hia
          cases hia
        simp only [hne, if_false]
        exact hia
    · intro a ha
      simp only [GoMap.get?_set] at ha
      by_cases haA : r.Alien.Name = a
      · exact Or.inr haA.symm
      · simp only [haA, if_false] at ha
        exact Or.inl ha

end state

namespace state

theorem handleCityDestroyRequest_agrees {w : World} (hwf : w.WF) (h : w.Agrees)
    (r : types.CityDestroyRequest) :
    (w.handleCityDestroyRequest r).1.Agrees ∧
      ∀ a, ((w.handleCityDestroyRequest r).1.alienCityMap.get? a).isSome = true →
        (w.alienCityMap.get? a).isSome = true := by
  cases hcity : w.cities.get? r.CityID with
  | none =>
    have hsame : w.handleCityDestroyRequest r = (w, []) := by
      simp only [World.handleCityDestroyRequest, hcity]
    rw [hsame]
    exact ⟨h, fun _ ha => ha⟩
  | some city =>
    obtain ⟨_, _, hidx, hcities⟩ :=
      handleCityDestroyRequest_found hwf (hwf.consistent_iff.mpr h) hcity
    have hrc := removeConnections_cleared w r.CityID
    have hroster : ∀ c d2, (w.removeConnections r.CityID).1.cities.get? c = some d2 →
        ∃ d, w.cities.get? c = some d ∧ d2.aliens = d.aliens := by
      intro c d2 hd2
      rcases hrc.2.2 c with h2 | h2
      · exact ⟨d2, by rw [← h2]; exact hd2, rfl⟩
      · rw [h2] at hd2
        obtain ⟨d, hd, hdd⟩ := Option.map_eq_some'.mp hd2
        exact ⟨d, hd, by rw [← hdd, RemoveRoadsTo_eq]⟩
    have hin : ∀ a, a ∈ city.aliens.keys ↔ (city.aliens.get? a).isSome = true := by
      intro a
      rw [GoMap.mem_keys_iff, Option.isSome_iff_exists]
    refine ⟨⟨?_, ?_⟩, ?_⟩
    · intro a c ha
      rw [hidx] at ha
      by_cases hmem : a ∈ city.aliens.keys
      · simp [hmem] at ha
      · simp only [hmem, if_false] at ha
        obtain ⟨d, hd, hda⟩ := h.1 a c ha
        have hc : r.CityID ≠ c := by
          intro heq
          subst heq
          rw [hcity] at hd
          cases hd
          exact hmem ((hin a).mpr hda)
        obtain ⟨d2, hd2, _, hal, _, _⟩ := hrc.city hd
        exact ⟨d2, by rw [hcities]; simp [hc, hd2], by rw [hal]; exact hda⟩
    · intro c d2 a hc ha
      rw [hcities] at hc
      by_cases hcc : r.CityID = c
      · simp [hcc] at hc
      · simp only [hcc, if_false] at hc
        obtain ⟨d, hd, hal⟩ := hroster c d2 hc
        rw [hal] at ha
        have hia := h.2 c d a hd ha
        have hmem : a ∉ city.aliens.keys := by
          intro hm
          have := h.2 r.CityID city a hcity ((hin a).mp hm)
          rw [this] at hia
          exact hcc (Option.some.inj hia)
        rw [hidx]
        simp only [hmem, if_false]
        exact hia
    · intro a ha
      rw [hidx] at ha
      by_cases hmem : a ∈ city.aliens.keys
      · simp [hmem] at ha
      · simpa [hmem] using ha

theorem handle_agrees (fightDurK : Int) {w : World} (hwf : w.WF) (h : w.Agrees) (req : Request)
    (hfresh : ∀ a, req.disembarked = some a → w.alienCityMap.get? a = none) :
    (w.handle fightDurK req).1.Agrees ∧
      ∀ a, ((w.handle fightDurK req).1.alienCityMap.get? a).isSome = true →
        (w.alienCityMap.get? a).isSome = true ∨ req.disembarked = some a := by
  rcases req with (r | r) | (r | r)
  · have := handleAlienMoveRequest_agrees fightDurK hwf h r
    exact ⟨this.1, fun a ha => Or.inl (this.2 a ha)⟩
  · have := dismissAlien_agrees hwf h r.AlienID "evacuated"
    exact ⟨this.1, fun a ha => Or.inl (this.2 a ha)⟩
  · have := handleCityDestroyRequest_agrees hwf h r
    exact ⟨this.1, fun a ha => Or.inl (this.2 a ha)⟩
  · have := handleAlienDisembarkRequest_agrees fightDurK hwf h r (hfresh _ rfl)
    refine ⟨this.1, fun a ha => ?_⟩
    rcases this.2 a ha with h1 | h1
    · exact Or.inl h1
    · exact Or.inr (by rw [h1]; rfl)

theorem handleAll_agrees (fightDurK : Int) (reqs : List Request) :
    ∀ w : World, w.WF → w.Agrees → (reqs.filterMap Request.disembarked).Nodup →
      (∀ a, a ∈ reqs.filterMap Request.disembarked → w.alienCityMap.get? a = none) →
      (w.handleAll fightDurK reqs).1.Agrees := by
  induction reqs with
  | nil => intro w _ h _ _; exact h
  | cons req rest ih =>
    intro w hwf h hnd hfresh
    have hstep := handle_agrees fightDurK hwf h req (by
      intro a ha
      apply hfresh
      simp [List.filterMap_cons, ha])
    refine ih _ (handle_WF fightDurK hwf req) hstep.1 ?_ ?_
    · cases hd : req.disembarked with
      | none => simpa [List.filterMap_cons, hd] using hnd
      | some n =>
        simp only [List.filterMap_cons, hd, List.nodup_cons] at hnd
        exact hnd.2
    · intro a ha
      cases hget : (w.handle fightDurK req).1.alienCityMap.get? a with
      | none => rfl
      | some c =>
        exfalso
        rcases hstep.2 a (by rw [hget]; rfl) with h1 | h1
        · have hnone := hfresh a (by
            cases hd : req.disembarked with
            | none => simpa [List.filterMap_cons, hd] using ha
            | some n => simp [List.filterMap_cons, hd, ha])
          rw [hnone] at h1
          cases h1
        · simp only [List.filterMap_cons, h1, List.nodup_cons] at hnd
          exact hnd.1 ha

/-- C1: in every state reached from `NewWorld(cityMap)` by handling Disembark, Move,
Evacuate and CityDestroyed requests among which no alien name is disembarked more than
once, the index and the rosters agree: every alien of the index is mapped to a city of the
map whose roster holds it, every alien in the roster of a city is mapped to that city by
the index, and no alien is in the rosters of two cities. -/
theorem index_rosters_consistent (fightDurK : Int) (cityMap : model.CityMap)
    (reqs : List Request) (hnd : (reqs.filterMap Request.disembarked).Nodup) :
    (∀ a c, ((NewWorld cityMap).handleAll fightDurK reqs).1.alienCityMap.get? a = some c →
        ∃ d, ((NewWorld cityMap).handleAll fightDurK reqs).1.cities.get? c = some d ∧
          (d.aliens.get? a).isSome = true) ∧
      (∀ c d a, ((NewWorld cityMap).handleAll fightDurK reqs).1.cities.get? c = some d →
        (d.aliens.get? a).isSome = true →
        ((NewWorld cityMap).handleAll fightDurK reqs).1.alienCityMap.get? a = some c) ∧
      ∀ c1 c2 d1 d2 a,
        ((NewWorld cityMap).handleAll fightDurK reqs).1.cities.get? c1 = some d1 →
        ((NewWorld cityMap).handleAll fightDurK reqs).1.cities.get? c2 = some d2 →
        (d1.aliens.get? a).isSome = true → (d2.aliens.get? a).isSome = true → c1 = c2 := by
  have hinit : (NewWorld cityMap).Agrees := by
    constructor
    · intro a c ha
      cases ha
    · intro c d a hc ha
      obtain ⟨e, _, he⟩ := NewWorld_city cityMap hc
      rw [he] at ha
      cases ha
  have h := handleAll_agrees fightDurK reqs (NewWorld cityMap) (NewWorld_WF cityMap) hinit hnd
    (fun _ _ => rfl)
  refine ⟨h.1, h.2, ?_⟩
  intro c1 c2 d1 d2 a h1 h2 ha1 ha2
  have e1 := h.2 c1 d1 a h1 ha1
  have e2 := h.2 c2 d2 a h2 ha2
  rw [e1] at e2
  exact Option.some.inj e2

theorem index_rosters_consistent_witness :
    sample.fightAtB.alienCityMap.get? "a2" = some "B" :=
  (index_rosters_consistent 1 sample.chain
    [.world (.disembark ⟨sample.a1, "B"⟩), .world (.disembark ⟨sample.a2, "B"⟩)]
    (by decide)).2.1 "B" (sample.fightAtB.cityAt "B") "a2" (by decide) (by decide)

end state

namespace state

/-! ## The roads after a city is destroyed -/

theorem removeConnection_step {w s : World} {cityID x : String} {done : List String}
    (hs : ∀ c, s.cities.get? c =
      if c ∈ done then (w.cities.get? c).map (fun d => d.RemoveRoadsTo cityID)
      else w.cities.get? c) :
    (∀ c, (s.removeConnection cityID x).1.cities.get? c =
      if c ∈ done ++ [x] then (w.cities.get? c).map (fun d => d.RemoveRoadsTo cityID)
      else w.cities.get? c) ∧
    (s.removeConnection cityID x).2 =
      ((w.cities.get? x).map
        (fun d => Effect.notify (.CityUpdated (d.RemoveRoadsTo cityID).toCity))).toList := by
  have hidem : ∀ o : Option City,
      (o.map (fun d => d.RemoveRoadsTo cityID)).map (fun d => d.RemoveRoadsTo cityID) =
        o.map (fun d => d.RemoveRoadsTo cityID) := by
    intro o
    cases o with
    | none => rfl
    | some d => simp only [Option.map_some', RemoveRoadsTo_idem]
  constructor
  · intro c
    rw [removeConnection_get?, hs c]
    by_cases hx : x = c
    · subst hx
      by_cases hd : x ∈ done
      · simp [hd, hidem]
      · simp [hd]
    · by_cases hd : c ∈ done
      · simp [hx, hd]
      · simp [hx, hd, Ne.symm hx]
  · rw [removeConnection_effects, hs x]
    by_cases hd : x ∈ done
    · simp only [hd, if_true]
      cases w.cities.get? x with
      | none => rfl
      | some d => simp only [Option.map_some', RemoveRoadsTo_idem]
    · simp only [hd, if_false]

theorem removeConnections_exact {w : World} {city : String} {d : City}
    (hcity : w.cities.get? city = some d)
    (hself : city ∉ [d.NorthRoad, d.EastRoad, d.SouthRoad, d.WestRoad]) :
    (∀ c, (w.removeConnections city).1.cities.get? c =
      if c ∈ [d.NorthRoad, d.EastRoad, d.SouthRoad, d.WestRoad] then
        (w.cities.get? c).map (fun x => x.RemoveRoadsTo city)
      else w.cities.get? c) ∧
    (w.removeConnections city).2 =
      [d.NorthRoad, d.EastRoad, d.SouthRoad, d.WestRoad].filterMap (fun x =>
        (w.cities.get? x).map
          (fun y => Effect.notify (.CityUpdated (y.RemoveRoadsTo city).toCity))) := by
  simp only [List.mem_cons, List.mem_singleton, List.not_mem_nil, or_false, not_or] at hself
  obtain ⟨hn, he, hs, hw⟩ := hself
  have h0 : ∀ c, w.cities.get? c =
      if c ∈ ([] : List String) then (w.cities.get? c).map (fun x => x.RemoveRoadsTo city)
      else w.cities.get? c := by
    intro c; simp
  have c0 : w.cityAt city = d := cityAt_eq hcity
  have s1 := removeConnection_step (x := d.NorthRoad) h0
  have c1 : (w.removeConnection city d.NorthRoad).1.cityAt city = d := by
    apply cityAt_eq
    rw [s1.1 city]
    simp [hn, hcity]
  have s2 := removeConnection_step (x := d.EastRoad) s1.1
  have c2 : ((w.removeConnection city d.NorthRoad).1.removeConnection city d.EastRoad).1.cityAt
      city = d := by
    apply cityAt_eq
    rw [s2.1 city]
    simp [hn, he, hcity]
  have s3 := removeConnection_step (x := d.SouthRoad) s2.1
  have c3 : (((w.removeConnection city d.NorthRoad).1.removeConnection city
      d.EastRoad).1.removeConnection city d.SouthRoad).1.cityAt city = d := by
    apply cityAt_eq
    rw [s3.1 city]
    simp [hn, he, hs, hcity]
  have s4 := removeConnection_step (x := d.WestRoad) s3.1
  simp only [World.removeConnections, c0, c1, c2, c3]
  refine ⟨fun c => ?_, ?_⟩
  · rw [s4.1 c]
    simp
  · rw [s1.2, s2.2, s3.2, s4.2]
    simp only [List.filterMap_cons, List.filterMap_nil]
    cases w.cities.get? d.NorthRoad <;> cases w.cities.get? d.EastRoad <;>
      cases w.cities.get? d.SouthRoad <;> cases w.cities.get? d.WestRoad <;> rfl

end state

namespace state

theorem dismissAlien_effects (w : World) (alienID reason : String) :
    ∀ e ∈ (w.dismissAlien alienID reason).2, e.isCityUpdated = false := by
  intro e he
  unfold World.dismissAlien at he
  split at he
  · cases he
  · split at he
    · cases he
    · split at he
      · cases he
      · simp only [List.mem_cons, List.mem_singleton, List.not_mem_nil, or_false] at he
        rcases he with he | he <;> rw [he] <;> rfl

theorem dismissAliens_effects (city : String) :
    ∀ (rest : List (String × Alien)) (w : World),
      ∀ e ∈ (w.dismissAliens city rest).2, e.isCityUpdated = false := by
  intro rest
  induction rest with
  | nil => intro w e he; cases he
  | cons x rest ih =>
    intro w e he
    obtain ⟨k, v⟩ := x
    unfold World.dismissAliens at he
    split at he
    · exact ih w e he
    · simp only [List.mem_append] at he
      rcases he with he | he
      · exact dismissAlien_effects _ _ _ e he
      · exact ih _ e he

theorem handleCityDestroyRequest_eq {w : World} (hwf : w.WF) (r : types.CityDestroyRequest)
    {city : City} (hcity : w.cities.get? r.CityID = some city) :
    w.handleCityDestroyRequest r =
      (⟨(((w.removeConnections r.CityID).1.dismissAliens r.CityID
            city.aliens.entries).1).cities.delete r.CityID,
        (((w.removeConnections r.CityID).1.dismissAliens r.CityID
            city.aliens.entries).1).alienCityMap⟩,
       (w.removeConnections r.CityID).2 ++
         ((w.removeConnections r.CityID).1.dismissAliens r.CityID city.aliens.entries).2 ++
         [.notify (.CityDestroyed r.CityID city.aliens.keys)]) := by
  have hrc := removeConnections_cleared w r.CityID
  obtain ⟨d2, hd2, _, hal, _, _⟩ := hrc.city hcity
  have hwf2 := hrc.WF hwf
  have hev := hrc.evolves.evolves_trans (dismissAliens_evolves (some r.CityID) r.CityID
    city.aliens.entries _ hwf2)
  rcases hev r.CityID with ⟨h1, _⟩ | ⟨d, d3, h1, h3, hs⟩
  · rw [hcity] at h1; cases h1
  · rw [hcity] at h1; cases h1
    have hname : d3.Name = r.CityID := hs.name.trans (hwf.city_mem hcity).1
    simp only [World.handleCityDestroyRequest, hcity, cityAt_eq hd2, hal, cityAt_eq h3, hname,
      City.AlienIDs]

theorem AvailableRoads_eq (m : model.City) :
    m.AvailableRoads =
      [m.NorthRoad, m.EastRoad, m.SouthRoad, m.WestRoad].filter (fun x => decide (x ≠ "")) := by
  unfold model.City.AvailableRoads
  by_cases h1 : m.NorthRoad = "" <;> by_cases h2 : m.EastRoad = "" <;>
    by_cases h3 : m.SouthRoad = "" <;> by_cases h4 : m.WestRoad = "" <;>
    simp [h1, h2, h3, h4, List.filter_cons]

theorem AvailableRoads_mem (m : model.City) (x : String) :
    x ∈ m.AvailableRoads ↔
      x ≠ "" ∧ (x = m.NorthRoad ∨ x = m.EastRoad ∨ x = m.SouthRoad ∨ x = m.WestRoad) := by
  rw [AvailableRoads_eq, List.mem_filter]
  simp only [List.mem_cons, List.mem_singleton, List.not_mem_nil, or_false, decide_eq_true_eq]
  tauto

end state

namespace state

theorem World.RoadsSymmetric.get? {w : World} (h : w.RoadsSymmetric) {a b : String}
    {da db : City} (ha : w.cities.get? a = some da) (hb : w.cities.get? b = some db) :
    (da.NorthRoad = b → db.SouthRoad = a) ∧ (da.SouthRoad = b → db.NorthRoad = a) ∧
      (da.EastRoad = b → db.WestRoad = a) ∧ (da.WestRoad = b → db.EastRoad = a) :=
  h (a, da) (GoMap.mem_entries_of_get? ha) (b, db) (GoMap.mem_entries_of_get? hb)

/-- The cities and the `CityUpdated` calls after a city that names no road to itself is
destroyed, in a state with symmetric roads. -/
theorem handleCityDestroyRequest_cleared {w : World} (r : types.CityDestroyRequest)
    (hwf : w.WF) (hsym : w.RoadsSymmetric) {city : City}
    (hcity : w.cities.get? r.CityID = some city)
    (hself : r.CityID ∉ [city.NorthRoad, city.EastRoad, city.SouthRoad, city.WestRoad]) :
    (∀ c, c ≠ r.CityID →
        ((w.handleCityDestroyRequest r).1.cities.get? c).map City.toCity =
          (w.cities.get? c).map (fun d => (d.RemoveRoadsTo r.CityID).toCity)) ∧
      (w.handleCityDestroyRequest r).1.cities.get? r.CityID = none ∧
      (w.handleCityDestroyRequest r).2.filter Effect.isCityUpdated =
        [city.NorthRoad, city.EastRoad, city.SouthRoad, city.WestRoad].filterMap (fun x =>
          (w.cities.get? x).map
            (fun d => Effect.notify (.CityUpdated (d.RemoveRoadsTo r.CityID).toCity))) := by
  have heq := handleCityDestroyRequest_eq hwf r hcity
  obtain ⟨hex1, hex2⟩ := removeConnections_exact hcity hself
  have hwf2 := (removeConnections_cleared w r.CityID).WF hwf
  have hloop := dismissAliens_evolves none r.CityID city.aliens.entries _ hwf2
  rw [heq]
  refine ⟨?_, by simp, ?_⟩
  · intro c hc
    simp only [GoMap.get?_delete_ne _ (Ne.symm hc)]
    have h1 : (((w.removeConnections r.CityID).1.dismissAliens r.CityID
        city.aliens.entries).1.cities.get? c).map City.toCity =
        ((w.removeConnections r.CityID).1.cities.get? c).map City.toCity := by
      rcases hloop c with ⟨h2, h3⟩ | ⟨d, d2, h2, h3, hs⟩
      · rw [h2, h3]
      · rw [h2, h3]
        simp only [Option.map_some', hs.toCity_none]
    rw [h1, hex1 c]
    by_cases hmem : c ∈ [city.NorthRoad, city.EastRoad, city.SouthRoad, city.WestRoad]
    · simp only [hmem, if_true, Option.map_map]
      rfl
    · simp only [hmem, if_false]
      cases hd : w.cities.get? c with
      | none => rfl
      | some d =>
        simp only [Option.map_some', Option.some.injEq]
        obtain ⟨p1, p2, p3, p4⟩ := hsym.get? hd hcity
        simp only [List.mem_cons, List.mem_singleton, List.not_mem_nil, or_false, not_or] at hmem
        obtain ⟨m1, m2, m3, m4⟩ := hmem
        have q1 : d.NorthRoad ≠ r.CityID := fun h => m3 (p1 h).symm
        have q2 : d.SouthRoad ≠ r.CityID := fun h => m1 (p2 h).symm
        have q3 : d.EastRoad ≠ r.CityID := fun h => m4 (p3 h).symm
        have q4 : d.WestRoad ≠ r.CityID := fun h => m2 (p4 h).symm
        rw [RemoveRoadsTo_eq]
        simp [q1, q2, q3, q4]
  · simp only [List.filter_append]
    have hupd : (w.removeConnections r.CityID).2.filter Effect.isCityUpdated =
        (w.removeConnections r.CityID).2 := by
      rw [List.filter_eq_self]
      intro e he
      obtain ⟨m, hm⟩ := removeConnections_effects w r.CityID e he
      rw [hm]
      rfl
    have hdis : ((w.removeConnections r.CityID).1.dismissAliens r.CityID
        city.aliens.entries).2.filter Effect.isCityUpdated = [] := by
      rw [List.filter_eq_nil_iff]
      intro e he
      rw [dismissAliens_effects r.CityID _ _ e he]
      simp
    rw [hupd, hdis, hex2]
    simp [Effect.isCityUpdated]

/-- C7, as stated, fails for a city that names a road to itself: in the world of the map
`A north=A south=A`, which passes `Validate` and has symmetric roads, two road slots of `A`
name a city of the map, and destroying `A` makes one `CityUpdated` call. -/
theorem city_updated_per_slot_fails :
    sample.selfLoop.Validate = .ok () ∧ (NewWorld sample.selfLoop).WF ∧
      (NewWorld sample.selfLoop).RoadsSymmetric ∧
      ((["A", "", "A", ""] : List String).filter
        (fun x => ((NewWorld sample.selfLoop).cities.get? x).isSome)).length = 2 ∧
      ((NewWorld sample.selfLoop).cityAt "A").toCity = ⟨"A", "A", "", "A", ""⟩ ∧
      ((NewWorld sample.selfLoop).handleCityDestroyRequest ⟨"A"⟩).2 =
        [.notify (.CityUpdated ⟨"A", "", "", "", ""⟩), .notify (.CityDestroyed "A" [])] ∧
      ((((NewWorld sample.selfLoop).handleCityDestroyRequest ⟨"A"⟩).2.filter
        Effect.isCityUpdated).length ≠ 2) :=
  ⟨by rfl, by decide, by decide, by decide, by decide, by decide, by decide⟩

end state

namespace state

/-! ## The step of an alien -/

theorem wrapUint_succ {n m : Nat} (h : n < m) (hm : m < 2 ^ 64) : wrapUint (n + 1) = n + 1 := by
  unfold wrapUint
  exact Nat.mod_eq_of_lt (by omega)

theorem handleNextStepEvent_out (a : Alien) (intn : RandIntn) (h : a.MaxSteps ≤ a.curSteps) :
    a.handleNextStepEvent intn = (a, [.evacuate ⟨a.Name⟩]) := by
  unfold Alien.handleNextStepEvent
  simp only [ge_iff_le, h, if_true, types.NewAlienEvacuateRequest]

theorem handleNextStepEvent_stay (a : Alien) (intn : RandIntn) (h : a.curSteps < a.MaxSteps)
    (hroads : a.curLocation.AvailableRoads = []) :
    a.handleNextStepEvent intn = ({ a with curSteps := wrapUint (a.curSteps + 1) }, []) := by
  unfold Alien.handleNextStepEvent
  have h2 : ¬ a.MaxSteps ≤ a.curSteps := by omega
  simp only [ge_iff_le, h2, if_false, hroads, List.length_nil, dite_true]

theorem handleNextStepEvent_go (a : Alien) (intn : RandIntn) (h : a.curSteps < a.MaxSteps)
    (hroads : a.curLocation.AvailableRoads ≠ []) :
    ∃ target, target ∈ a.curLocation.AvailableRoads ∧
      a.handleNextStepEvent intn =
        ({ a with curSteps := wrapUint (a.curSteps + 1) }, [.move ⟨a.Name, target⟩]) := by
  unfold Alien.handleNextStepEvent
  have h2 : ¬ a.MaxSteps ≤ a.curSteps := by omega
  have h3 : ¬ a.curLocation.AvailableRoads.length = 0 := by
    intro h0
    exact hroads (List.length_eq_zero.mp h0)
  simp only [ge_iff_le, h2, if_false, h3, dite_false, types.NewAlienMoveRequest]
  exact ⟨_, List.get_mem _ _ _, rfl⟩

/-- C11: a step-tick of an alien whose used steps have reached its maximum sends exactly
one Evacuate request with its name and leaves the alien (used steps and current city) as
it was.  Otherwise, when the last known city has a non-empty road slot, it sends exactly
one Move request with its name whose target is one of the non-empty road slots (north,
east, south, west) of the last known city, the used steps grow by exactly one and the
current city is unchanged; this holds for every outcome of the random choice. -/
theorem handleNextStepEvent_spec (a : Alien) (intn : RandIntn) (hmax : a.MaxSteps < 2 ^ 64) :
    (a.MaxSteps ≤ a.curSteps → a.handleNextStepEvent intn = (a, [.evacuate ⟨a.Name⟩])) ∧
      (a.curSteps < a.MaxSteps → a.curLocation.AvailableRoads ≠ [] →
        ∃ target, target ≠ "" ∧
          (target = a.curLocation.NorthRoad ∨ target = a.curLocation.EastRoad ∨
            target = a.curLocation.SouthRoad ∨ target = a.curLocation.WestRoad) ∧
          a.handleNextStepEvent intn =
            ({ a with curSteps := a.curSteps + 1 }, [.move ⟨a.Name, target⟩])) := by
  refine ⟨handleNextStepEvent_out a intn, fun h hroads => ?_⟩
  obtain ⟨target, hmem, heq⟩ := handleNextStepEvent_go a intn h hroads
  rw [wrapUint_succ h hmax] at heq
  exact ⟨target, ((AvailableRoads_mem _ _).mp hmem).1, ((AvailableRoads_mem _ _).mp hmem).2, heq⟩

theorem handleNextStepEvent_spec_witness :
    ∃ target, target ≠ "" ∧
      (target = sample.atB.curLocation.NorthRoad ∨ target = sample.atB.curLocation.EastRoad ∨
        target = sample.atB.curLocation.SouthRoad ∨ target = sample.atB.curLocation.WestRoad) ∧
      sample.atB.handleNextStepEvent sample.lastRoad =
        ({ sample.atB with curSteps := sample.atB.curSteps + 1 },
          [.move ⟨sample.atB.Name, target⟩]) :=
  (handleNextStepEvent_spec sample.atB sample.lastRoad (by decide)).2 (by decide) (by decide)

end state

namespace state

/-- C12 (amended): a step-tick of an alien with used steps below its maximum whose last
known city has no outgoing road sends no request, leaves the current city unchanged and
increments the used-step counter by one. -/
theorem handleNextStepEvent_no_roads (a : Alien) (intn : RandIntn) (hmax : a.MaxSteps < 2 ^ 64)
    (h : a.curSteps < a.MaxSteps) (hroads : a.curLocation.AvailableRoads = []) :
    a.handleNextStepEvent intn = ({ a with curSteps := a.curSteps + 1 }, []) := by
  rw [handleNextStepEvent_stay a intn h hroads, wrapUint_succ h hmax]

theorem handleNextStepEvent_no_roads_witness :
    sample.walker.handleNextStepEvent sample.firstRoad =
      ({ sample.walker with curSteps := sample.walker.curSteps + 1 }, []) :=
  handleNextStepEvent_no_roads sample.walker sample.firstRoad (by decide) (by decide) (by decide)

/-- C12, as stated, fails: the alien `w` has used none of its three steps and its city
`Solo` has no road; a step-tick sends no request and leaves the counter at one. -/
theorem step_counter_not_kept :
    sample.walker.curSteps = 0 ∧ sample.walker.MaxSteps = 3 ∧
      sample.walker.curLocation.AvailableRoads = [] ∧
      (sample.walker.handleNextStepEvent sample.firstRoad).2 = [] ∧
      (sample.walker.handleNextStepEvent sample.firstRoad).1.curSteps = 1 ∧
      (sample.walker.handleNextStepEvent sample.firstRoad).1.curSteps ≠
        sample.walker.curSteps := by
  decide

/-! ## The loop of an alien -/

theorem Run_ticks_silent (ticks : List RandIntn) :
    ∀ a : Alien, a.MaxSteps < 2 ^ 64 → a.curLocation.AvailableRoads = [] →
      a.curSteps + ticks.length ≤ a.MaxSteps →
      a.Run (ticks.map AlienStep.tick) =
        ⟨{ a with curSteps := a.curSteps + ticks.length }, true, []⟩ := by
  induction ticks with
  | nil => intro a _ _ _; rfl
  | cons t rest ih =>
    intro a hmax hroads hlen
    simp only [List.length_cons] at hlen
    have hlt : a.curSteps < a.MaxSteps := by omega
    have hstep := handleNextStepEvent_stay a t hlt hroads
    rw [wrapUint_succ hlt hmax] at hstep
    have hrest := ih { a with curSteps := a.curSteps + 1 } hmax hroads (by simp only; omega)
    simp only [List.map_cons, Alien.Run, Alien.runStep, hstep, if_true, hrest, List.length_cons,
      List.append_nil]
    congr 2
    omega

theorem Run_ticks_evacuate (ticks : List RandIntn) :
    ∀ a : Alien, a.MaxSteps < 2 ^ 64 → a.curLocation.AvailableRoads = [] →
      a.curSteps ≤ a.MaxSteps → a.curSteps + ticks.length = a.MaxSteps + 1 →
      a.Run (ticks.map AlienStep.tick) =
        ⟨{ a with curSteps := a.MaxSteps }, true, [.evacuate ⟨a.Name⟩]⟩ := by
  induction ticks with
  | nil => intro a _ _ hle hlen; simp only [List.length_nil] at hlen; omega
  | cons t rest ih =>
    intro a hmax hroads hle hlen
    simp only [List.length_cons] at hlen
    by_cases hlt : a.curSteps < a.MaxSteps
    · have hstep := handleNextStepEvent_stay a t hlt hroads
      rw [wrapUint_succ hlt hmax] at hstep
      have hrest := ih { a with curSteps := a.curSteps + 1 } hmax hroads
        (by simp only; omega) (by simp only; omega)
      simp only [List.map_cons, Alien.Run, Alien.runStep, hstep, if_true, hrest,
        List.nil_append]
    · have heq : a.curSteps = a.MaxSteps := by omega
      have hrest : rest = [] := List.length_eq_zero.mp (by omega)
      have hstep := handleNextStepEvent_out a t (by omega)
      subst hrest
      simp only [List.map_cons, List.map_nil, Alien.Run, Alien.runStep, hstep, if_true,
        List.append_nil]
      congr 1
      cases a
      simp only at heq
      simp only [heq]

end state

namespace state

/-- C13: an alien with maximum n and a fresh step counter whose city has no road sends no
request in its first n step-ticks (and keeps running), and after n + 1 step-ticks the one
request it has sent is Evacuate, so the (n+1)-th tick sends it.  The World, handling that
request in a well-formed state whose index and roster hold the alien, removes it from the
roster and the index, sends it a Dismissed event with reason "evacuated" and calls
AlienDismissed(name, "evacuated").  For n = 3 and the alien `w` in `Solo`: three silent
ticks, the fourth sends Evacuate, and the World dismisses `w`. -/
theorem isolated_alien_evacuates (a : Alien) (hmax : a.MaxSteps < 2 ^ 64)
    (hfresh : a.curSteps = 0) (hroads : a.curLocation.AvailableRoads = []) :
    (∀ ticks : List RandIntn, ticks.length ≤ a.MaxSteps →
        (a.Run (ticks.map AlienStep.tick)).requests = [] ∧
        (a.Run (ticks.map AlienStep.tick)).working = true) ∧
      (∀ ticks : List RandIntn, ticks.length = a.MaxSteps + 1 →
        (a.Run (ticks.map AlienStep.tick)).requests = [.evacuate ⟨a.Name⟩]) ∧
      (∀ (w : World) (c : String) (city : City) (al : Alien), w.WF →
        w.alienCityMap.get? a.Name = some c → w.cities.get? c = some city →
        city.aliens.get? a.Name = some al →
        w.handleAlienEvacuateRequest ⟨a.Name⟩ =
          (⟨w.cities.set c { city with aliens := city.aliens.delete a.Name },
            w.alienCityMap.delete a.Name⟩,
           [.send a.Name (.AlienDismissedEvent a.Name "evacuated"),
            .notify (.AlienDismissed a.Name "evacuated")])) ∧
      (sample.walker.Run [.tick sample.firstRoad, .tick sample.firstRoad,
        .tick sample.firstRoad]).requests = [] ∧
      (sample.walker.Run [.tick sample.firstRoad, .tick sample.firstRoad,
        .tick sample.firstRoad, .tick sample.firstRoad]).requests = [.evacuate ⟨"w"⟩] ∧
      sample.soloWorld.handleAlienEvacuateRequest ⟨"w"⟩ =
        (NewWorld ⟨[("Solo", sample.solo)]⟩,
         [.send "w" (.AlienDismissedEvent "w" "evacuated"),
          .notify (.AlienDismissed "w" "evacuated")]) := by
  refine ⟨?_, ?_, ?_, by decide, by decide, by decide⟩
  · intro ticks hlen
    rw [Run_ticks_silent ticks a hmax hroads (by omega)]
    exact ⟨rfl, rfl⟩
  · intro ticks hlen
    rw [Run_ticks_evacuate ticks a hmax hroads (by omega) (by omega)]
  · intro w c city al hwf hidx hcity hal
    exact dismissAlien_found w hwf "evacuated" hidx hcity hal

theorem isolated_alien_evacuates_witness :
    (sample.walker.Run ([sample.firstRoad, sample.lastRoad, sample.firstRoad,
      sample.lastRoad].map AlienStep.tick)).requests = [.evacuate ⟨"w"⟩] :=
  (isolated_alien_evacuates sample.walker (by decide) (by decide) (by decide)).2.1
    [sample.firstRoad, sample.lastRoad, sample.firstRoad, sample.lastRoad] (by decide)

/-! ## The step budget -/

theorem countMoves_append (xs ys : List types.AlienRequest) :
    countMoves (xs ++ ys) = countMoves xs + countMoves ys := by
  simp [countMoves, List.filter_append]

theorem runStep_event_cases (a : Alien) (e : types.AlienEvent) :
    a.runStep (.event e) = ⟨a, true, []⟩ ∨
      (∃ loc, a.runStep (.event e) = ⟨{ a with curLocation := loc }, true, []⟩) ∨
      a.runStep (.event e) = ⟨a, false, []⟩ := by
  cases e with
  | AlienRelocatedEvent id loc =>
    by_cases h : a.Name = id
    · right; left
      exact ⟨loc, by simp [Alien.runStep, types.AlienEvent.TargetID, h,
        Alien.handleRelocatedEvent]⟩
    · left
      simp [Alien.runStep, types.AlienEvent.TargetID, h]
  | AlienDismissedEvent id reason =>
    by_cases h : a.Name = id
    · right; right
      simp [Alien.runStep, types.AlienEvent.TargetID, h, Alien.handleDismissedEvent]
    · left
      simp [Alien.runStep, types.AlienEvent.TargetID, h]

theorem runStep_budget (a : Alien) (s : AlienStep) (hmax : a.MaxSteps < 2 ^ 64)
    (hle : a.curSteps ≤ a.MaxSteps) :
    (a.runStep s).alien.MaxSteps = a.MaxSteps ∧ (a.runStep s).alien.curSteps ≤ a.MaxSteps ∧
      a.curSteps + countMoves (a.runStep s).requests ≤ (a.runStep s).alien.curSteps := by
  cases s with
  | done => exact ⟨rfl, hle, by simp [Alien.runStep, countMoves]⟩
  | event e =>
    rcases runStep_event_cases a e with h | ⟨loc, h⟩ | h <;> rw [h] <;>
      exact ⟨rfl, hle, by simp [countMoves]⟩
  | tick intn =>
    simp only [Alien.runStep]
    by_cases hlt : a.curSteps < a.MaxSteps
    · by_cases hroads : a.curLocation.AvailableRoads = []
      · rw [handleNextStepEvent_stay a intn hlt hroads, wrapUint_succ hlt hmax]
        exact ⟨rfl, hlt, by simp [countMoves]⟩
      · obtain ⟨target, _, heq⟩ := handleNextStepEvent_go a intn hlt hroads
        rw [heq, wrapUint_succ hlt hmax]
        exact ⟨rfl, hlt, by simp [countMoves]⟩
    · rw [handleNextStepEvent_out a intn (by omega)]
      exact ⟨rfl, hle, by simp [countMoves]⟩

theorem Run_budget (steps : List AlienStep) :
    ∀ a : Alien, a.MaxSteps < 2 ^ 64 → a.curSteps ≤ a.MaxSteps →
      (a.Run steps).alien.MaxSteps = a.MaxSteps ∧ (a.Run steps).alien.curSteps ≤ a.MaxSteps ∧
        a.curSteps + countMoves (a.Run steps).requests ≤ (a.Run steps).alien.curSteps := by
  induction steps with
  | nil => intro a _ hle; exact ⟨rfl, hle, by simp [Alien.Run, countMoves]⟩
  | cons s rest ih =>
    intro a hmax hle
    obtain ⟨h1, h2, h3⟩ := runStep_budget a s hmax hle
    unfold Alien.Run
    simp only
    split
    · obtain ⟨i1, i2, i3⟩ := ih (a.runStep s).alien (by rw [h1]; exact hmax) (by rw [h1]; exact h2)
      simp only [countMoves_append]
      rw [h1] at i1 i2
      exact ⟨i1, i2, by omega⟩
    · exact ⟨h1, h2, h3⟩

/-- C14: for an alien whose used steps do not exceed its maximum (as for every alien made
by `NewAlien`, whose counter is zero) and every sequence of cases its loop takes
(step-ticks with any random choice, inbound events, cancellation), the used-step counter
stays at most the maximum, the maximum itself never changes, and the number of Move
requests sent is at most the maximum less the steps used at the start. -/
theorem max_steps_budget (a : Alien) (steps : List AlienStep) (hmax : a.MaxSteps < 2 ^ 64)
    (hle : a.curSteps ≤ a.MaxSteps) :
    (a.Run steps).alien.curSteps ≤ a.MaxSteps ∧ (a.Run steps).alien.MaxSteps = a.MaxSteps ∧
      a.curSteps + countMoves (a.Run steps).requests ≤ a.MaxSteps ∧
      (∀ (profile : model.Alien) (loc : model.City), (NewAlien profile loc).curSteps = 0) := by
  obtain ⟨h1, h2, h3⟩ := Run_budget steps a hmax hle
  exact ⟨h2, h1, by omega, fun _ _ => rfl⟩

theorem max_steps_budget_witness :
    (sample.atB.Run [.tick sample.firstRoad, .event (.AlienRelocatedEvent "a1" sample.solo),
      .tick sample.lastRoad]).alien.curSteps ≤ sample.atB.MaxSteps :=
  (max_steps_budget sample.atB [.tick sample.firstRoad,
    .event (.AlienRelocatedEvent "a1" sample.solo), .tick sample.lastRoad]
    (by decide) (by decide)).1

/-! ## Inbound events -/

/-- C15: an event whose target differs from the name of the alien leaves the alien (current
city and step counter) as it is, sends nothing and the loop goes on; a Relocated event for
the alien sets its current city to the city of the event, leaves the step counter
unchanged and the loop goes on; a Dismissed event for the alien ends the loop, so that no
later case is taken. -/
theorem runStep_event (a : Alien) :
    (∀ e : types.AlienEvent, a.Name ≠ e.TargetID → a.runStep (.event e) = ⟨a, true, []⟩) ∧
      (∀ loc, a.runStep (.event (.AlienRelocatedEvent a.Name loc)) =
        ⟨{ a with curLocation := loc }, true, []⟩) ∧
      (∀ reason, a.runStep (.event (.AlienDismissedEvent a.Name reason)) = ⟨a, false, []⟩) ∧
      (∀ reason rest, a.Run (.event (.AlienDismissedEvent a.Name reason) :: rest) =
        ⟨a, false, []⟩) := by
  refine ⟨?_, ?_, ?_, ?_⟩
  · intro e h
    simp only [Alien.runStep, h, ne_eq, not_false_eq_true, if_true]
  · intro loc
    simp [Alien.runStep, types.AlienEvent.TargetID, Alien.handleRelocatedEvent]
  · intro reason
    simp [Alien.runStep, types.AlienEvent.TargetID, Alien.handleDismissedEvent]
  · intro reason rest
    simp [Alien.Run, Alien.runStep, types.AlienEvent.TargetID, Alien.handleDismissedEvent]

theorem runStep_event_witness :
    sample.atB.runStep (.event (.AlienDismissedEvent "a2" "destroyed")) =
      ⟨sample.atB, true, []⟩ :=
  (runStep_event sample.atB).1 (.AlienDismissedEvent "a2" "destroyed") (by decide)

end state

namespace state

/-! ## The fight timer of `AddAlien` -/

/-- C16: for a non-nil alien `AddAlien` stores the alien in the roster under its name and
returns true exactly when the roster then holds two or more aliens; when the roster then
holds exactly one alien it returns false and leaves the timer as it was; for a nil alien it
returns false and leaves the city (roster and timer) unchanged. -/
theorem AddAlien_spec (fightDurK : Int) (c : City) (alien : Alien) :
    (c.AddAlien fightDurK (some alien)).1.aliens = c.aliens.set alien.Name alien ∧
      (c.AddAlien fightDurK (some alien)).1.aliens.get? alien.Name = some alien ∧
      ((c.AddAlien fightDurK (some alien)).2 = true ↔
        2 ≤ (c.AddAlien fightDurK (some alien)).1.aliens.len) ∧
      ((c.AddAlien fightDurK (some alien)).1.aliens.len = 1 →
        (c.AddAlien fightDurK (some alien)).2 = false ∧
        (c.AddAlien fightDurK (some alien)).1.fightTimer = c.fightTimer) ∧
      c.AddAlien fightDurK none = (c, false) := by
  refine ⟨AddAlien_aliens fightDurK c alien, ?_, AddAlien_flag fightDurK c alien, ?_, rfl⟩
  · rw [AddAlien_aliens]
    exact GoMap.get?_set_self _ _ _
  · intro hlen
    rw [AddAlien_aliens] at hlen
    unfold City.AddAlien
    simp only [hlen, if_true, and_self]

theorem AddAlien_spec_witness :
    ((NewCity sample.solo).AddAlien 1 (some sample.walker)).2 = false ∧
      ((NewCity sample.solo).AddAlien 1 (some sample.walker)).1.fightTimer =
        (NewCity sample.solo).fightTimer :=
  (AddAlien_spec 1 (NewCity sample.solo) sample.walker).2.2.2.1 (by decide)

theorem totalAlienPower_eq (aliens : GoMap Alien) :
    totalAlienPower aliens = powerSum aliens % 2 ^ 64 := by
  have h : ∀ (l : List (String × Alien)) (t : Nat),
      l.foldl (fun total e => wrapUint (total + e.2.Power)) (t % 2 ^ 64) =
        (t + (l.map (fun e => e.2.Power)).sum) % 2 ^ 64 := by
    intro l
    induction l with
    | nil => intro t; simp
    | cons e rest ih =>
      intro t
      simp only [List.foldl_cons, List.map_cons, List.sum_cons, wrapUint, Nat.mod_add_mod]
      have := ih (t + e.2.Power)
      simp only [wrapUint] at this
      rw [this, Nat.add_assoc]
  have h0 := h aliens.entries 0
  simpa [totalAlienPower, powerSum] using h0

theorem wrapInt64_of_fits {x : Int} (h1 : -(2 ^ 63) ≤ x) (h2 : x < 2 ^ 63) : wrapInt64 x = x := by
  unfold wrapInt64
  rw [Int.emod_eq_of_lt (by omega) (by omega)]
  omega

theorem AddAlien_fight (fightDurK : Int) (c : City) (alien : Alien)
    (h : 2 ≤ (c.AddAlien fightDurK (some alien)).1.aliens.len) :
    (c.AddAlien fightDurK (some alien)).1.fightTimer =
      some (wrapInt64 (fightDurK *
        wrapInt64 ((powerSum (c.aliens.set alien.Name alien) % 2 ^ 64 : Nat) : Int))) := by
  rw [AddAlien_aliens] at h
  unfold City.AddAlien
  have hne : ¬ (c.aliens.set alien.Name alien).len = 1 := by omega
  simp only [hne, if_false, totalAlienPower_eq]
  split <;> rfl

end state

namespace state

/-- C17 (amended): whenever `AddAlien` leaves two or more aliens in the roster, the fight
timer is set, whatever it was before (started or reset, not accumulated), to the product
of `fightDurK` and the sum of the powers of the aliens now in the roster, computed in
64-bit arithmetic: the sum wraps as a `uint`, is converted to `int64`, and the product
wraps.  For a non-negative `fightDurK` whose product with the sum of the powers fits in
a signed 64-bit integer the timer is set to exactly that product, which is non-negative;
and it is set to zero when the sum of the powers is zero. -/
theorem AddAlien_fight_duration (fightDurK : Int) (c : City) (alien : Alien)
    (h : 2 ≤ (c.AddAlien fightDurK (some alien)).1.aliens.len) :
    (c.AddAlien fightDurK (some alien)).1.fightTimer =
        some (wrapInt64 (fightDurK *
          wrapInt64 ((powerSum (c.aliens.set alien.Name alien) % 2 ^ 64 : Nat) : Int))) ∧
      (0 ≤ fightDurK →
        fightDurK * (powerSum (c.aliens.set alien.Name alien) : Int) < 2 ^ 63 →
        (c.AddAlien fightDurK (some alien)).1.fightTimer =
          some (fightDurK * (powerSum (c.aliens.set alien.Name alien) : Int)) ∧
        0 ≤ fightDurK * (powerSum (c.aliens.set alien.Name alien) : Int)) ∧
      (powerSum (c.aliens.set alien.Name alien) = 0 →
        (c.AddAlien fightDurK (some alien)).1.fightTimer = some 0) := by
  have hset := AddAlien_fight fightDurK c alien h
  refine ⟨hset, ?_, ?_⟩
  · intro hk hfit
    have hs : (0 : Int) ≤ (powerSum (c.aliens.set alien.Name alien) : Int) := Int.ofNat_nonneg _
    have hprod : 0 ≤ fightDurK * (powerSum (c.aliens.set alien.Name alien) : Int) :=
      Int.mul_nonneg hk hs
    refine ⟨?_, hprod⟩
    rw [hset]
    rcases lt_or_ge 0 fightDurK with hpos | hzero
    · have hle : (powerSum (c.aliens.set alien.Name alien) : Int) ≤
          fightDurK * (powerSum (c.aliens.set alien.Name alien) : Int) := by
        nlinarith
      have hlt : powerSum (c.aliens.set alien.Name alien) < 2 ^ 64 := by
        have : (powerSum (c.aliens.set alien.Name alien) : Int) < 2 ^ 63 := by omega
        omega
      have hin : wrapInt64 (powerSum (c.aliens.set alien.Name alien) : Int) =
          (powerSum (c.aliens.set alien.Name alien) : Int) :=
        wrapInt64_of_fits (by omega) (by omega)
      rw [Nat.mod_eq_of_lt hlt, hin, wrapInt64_of_fits (by omega) hfit]
    · have hk0 : fightDurK = 0 := by omega
      subst hk0
      simp [wrapInt64]
  · intro hzero
    rw [hset, hzero]
    simp [wrapInt64]

theorem AddAlien_fight_duration_witness :
    ((sample.oneAtB.cityAt "B").AddAlien 3 (some (NewAlien sample.a2 sample.solo))).1.fightTimer =
        some (3 * (powerSum ((sample.oneAtB.cityAt "B").aliens.set "a2"
          (NewAlien sample.a2 sample.solo)) : Int)) ∧
      0 ≤ (3 : Int) * (powerSum ((sample.oneAtB.cityAt "B").aliens.set "a2"
          (NewAlien sample.a2 sample.solo)) : Int) :=
  (AddAlien_fight_duration 3 (sample.oneAtB.cityAt "B") (NewAlien sample.a2 sample.solo)
    (by decide)).2.1 (by decide) (by decide)

/-- C17, as stated, fails: with `fightDurK = 1`, adding the alien `h2` of power `2 ^ 63` to a
city that holds the alien `h1` of power `2 ^ 63` leaves two aliens whose powers sum to
`2 ^ 64`, and the timer is set to zero, not to `1 * 2 ^ 64`. -/
theorem fight_duration_wraps :
    (sample.heavyCity.AddAlien 1 (some sample.heavy2)).1.aliens.len = 2 ∧
      powerSum (sample.heavyCity.AddAlien 1 (some sample.heavy2)).1.aliens = 2 ^ 64 ∧
      (sample.heavyCity.AddAlien 1 (some sample.heavy2)).1.fightTimer = some 0 ∧
      (sample.heavyCity.AddAlien 1 (some sample.heavy2)).1.fightTimer ≠
        some (1 * (powerSum (sample.heavyCity.AddAlien 1 (some sample.heavy2)).1.aliens : Int)) := by
  decide

end state

namespace state

/-! ## Where a Move request leads -/

theorem handleNextStepEvent_move (al : Alien) (intn : RandIntn) {r : types.AlienMoveRequest}
    (h : types.AlienRequest.move r ∈ (al.handleNextStepEvent intn).2) :
    r.AlienID = al.Name ∧ r.NewCityID ∈ al.curLocation.AvailableRoads := by
  by_cases hlt : al.curSteps < al.MaxSteps
  · by_cases hroads : al.curLocation.AvailableRoads = []
    · rw [handleNextStepEvent_stay al intn hlt hroads] at h
      cases h
    · obtain ⟨target, hmem, heq⟩ := handleNextStepEvent_go al intn hlt hroads
      rw [heq] at h
      simp only [List.mem_singleton, types.AlienRequest.move.injEq] at h
      subst h
      exact ⟨rfl, hmem⟩
  · rw [handleNextStepEvent_out al intn (by omega)] at h
    simp at h

theorem handleAlienMoveRequest_relocated (fightDurK : Int) {w : World} (hwf : w.WF)
    (r : types.AlienMoveRequest) {a x : String}
    (h : Effect.notify (.AlienRelocated a x) ∈ (w.handleAlienMoveRequest fightDurK r).2) :
    a = r.AlienID ∧ x = r.NewCityID ∧
      (w.handleAlienMoveRequest fightDurK r).1.alienCityMap.get? r.AlienID =
        some r.NewCityID := by
  rcases handleAlienMoveRequest_cases fightDurK w r with
    hsame | ⟨o, oc, alien, nc, hidx, hO, hal, hN, hres⟩
  · rw [hsame] at h; cases h
  · by_cases hnf : oc.aliens.len ≤ 1
    · obtain ⟨s1, _, _, ⟨nc2, _, _, _, s4⟩, _, _, _⟩ :=
        handleAlienMoveRequest_moved fightDurK w r hwf hidx hO hal hnf hN
      rw [s4] at h
      simp only [List.mem_append, List.mem_cons, List.mem_singleton, List.not_mem_nil,
        or_false] at h
      rcases h with (h | h) | h
      · cases h
      · injection h with h1
        injection h1 with h2 h3
        exact ⟨h2, h3, s1⟩
      · split at h
        · simp at h
        · cases h
    · have hrej : w.handleAlienMoveRequest fightDurK r = (w, []) := by
        rw [hres]
        exact moveAlienTo_atFight fightDurK w _ o _ hO (by omega)
      rw [hrej] at h
      cases h

/-- C18 (amended): when the handler of a Move request relocates an alien, the alien is the
one named in the request and the city it is relocated to is the city named in the request,
to which the index then maps it.  When the request was sent by a step-tick of an alien whose
last known city is the city the index maps it to when the request is handled, with the
data that city then has, the city it is relocated to is named by one of the four road
slots of that city. -/
theorem relocation_follows_request (fightDurK : Int) (w : World) (hwf : w.WF)
    (r : types.AlienMoveRequest) (a x : String)
    (h : Effect.notify (.AlienRelocated a x) ∈ (w.handleAlienMoveRequest fightDurK r).2) :
    a = r.AlienID ∧ x = r.NewCityID ∧
      (w.handleAlienMoveRequest fightDurK r).1.alienCityMap.get? a = some x ∧
      ∀ (al : Alien) (intn : RandIntn) (o : String) (oc : City),
        types.AlienRequest.move r ∈ (al.handleNextStepEvent intn).2 →
        w.alienCityMap.get? al.Name = some o → w.cities.get? o = some oc →
        al.curLocation = oc.toCity →
        x ≠ "" ∧ (x = oc.NorthRoad ∨ x = oc.EastRoad ∨ x = oc.SouthRoad ∨ x = oc.WestRoad) := by
  obtain ⟨h1, h2, h3⟩ := handleAlienMoveRequest_relocated fightDurK hwf r h
  refine ⟨h1, h2, by rw [h1, h2]; exact h3, ?_⟩
  intro al intn o oc hmove _ _ hloc
  have hm := (handleNextStepEvent_move al intn hmove).2
  rw [hloc, AvailableRoads_mem] at hm
  rw [h2]
  exact hm

theorem relocation_follows_request_witness :
    sample.oneAtB.WF ∧ sample.oneAtC.alienCityMap.get? "a1" = some "C" :=
  ⟨by decide,
    (relocation_follows_request 1 sample.oneAtB (by decide) ⟨"a1", "C"⟩ "a1" "C"
      (by decide)).2.2.1⟩

/-- C18, as stated, fails: the alien `a1` in `B` ticks twice before it reads its mailbox
and sends Move to `C` and Move to `A`, both roads of `B`.  The World moves it to `C`; it
then honours the second request and relocates the alien from `C` to `A`, which no road
slot of `C` names. -/
theorem move_to_distant_city :
    (sample.atB.Run [.tick sample.firstRoad, .tick sample.lastRoad]).requests =
        [.move ⟨"a1", "C"⟩, .move ⟨"a1", "A"⟩] ∧
      sample.oneAtB.alienCityMap.get? "a1" = some "B" ∧
      sample.oneAtC.alienCityMap.get? "a1" = some "C" ∧
      (sample.oneAtC.cityAt "C").toCity = ⟨"C", "", "", "", "B"⟩ ∧
      (sample.oneAtC.handleAlienMoveRequest 1 ⟨"a1", "A"⟩).2 =
        [.send "a1" (.AlienRelocatedEvent "a1" ⟨"A", "", "B", "", ""⟩),
         .notify (.AlienRelocated "a1" "A")] ∧
      (sample.oneAtC.handleAlienMoveRequest 1 ⟨"a1", "A"⟩).1.alienCityMap.get? "a1" =
        some "A" ∧
      ¬ ("A" = (sample.oneAtC.cityAt "C").NorthRoad ∨ "A" = (sample.oneAtC.cityAt "C").EastRoad ∨
        "A" = (sample.oneAtC.cityAt "C").SouthRoad ∨
        "A" = (sample.oneAtC.cityAt "C").WestRoad) := by
  decide

end state

namespace GoMap

variable {V : Type}

theorem mem_keys_delete (m : GoMap V) (k x : String) :
    x ∈ (m.delete k).keys ↔ x ∈ m.keys ∧ x ≠ k := by
  rw [mem_keys_iff, mem_keys_iff, get?_delete]
  by_cases h : k = x
  · subst h; simp
  · simp [h, Ne.symm h]

theorem len_delete_of_mem {m : GoMap V} {k : String} (hnd : m.keys.Nodup) (hk : k ∈ m.keys) :
    (m.delete k).len + 1 = m.len := by
  obtain ⟨l⟩ := m
  simp only [delete, len, keys] at *
  induction l with
  | nil => simp at hk
  | cons e rest ih =>
    obtain ⟨k2, w⟩ := e
    simp only [List.map_cons, List.nodup_cons, List.mem_cons] at hnd hk
    by_cases h : k2 = k
    · subst h
      have hnot : ∀ l : List (String × V), k2 ∉ l.map Prod.fst → deleteIn l k2 = l := by
        intro l
        induction l with
        | nil => intro _; rfl
        | cons e2 rest2 ih2 =>
          intro hn
          obtain ⟨k3, w3⟩ := e2
          simp only [List.map_cons, List.mem_cons, not_or] at hn
          simp only [deleteIn, Ne.symm hn.1, if_false, ih2 hn.2]
      simp only [deleteIn, if_true, hnot rest hnd.1, List.length_cons]
    · have hk2 : k ∈ rest.map Prod.fst := by
        rcases hk with hk | hk
        · exact absurd hk.symm h
        · exact hk
      simp only [deleteIn, h, if_false, List.length_cons]
      have := ih hnd.2 hk2
      omega

theorem len_eq_of_keys_eq {m m2 : GoMap V} (h : m2.keys = m.keys) : m2.len = m.len := by
  have := congrArg List.length h
  simpa [keys, len] using this

theorem len_set_le (m : GoMap V) (k : String) (v : V) : (m.set k v).len ≤ m.len + 1 := by
  obtain ⟨l⟩ := m
  simp only [set, len]
  induction l with
  | nil => simp [setIn]
  | cons e rest ih =>
    obtain ⟨k2, w⟩ := e
    by_cases h : k2 = k
    · simp [setIn, h]
    · simp only [setIn, h, if_false, List.length_cons]
      omega

end GoMap

namespace state

/-! ## The number of cities -/

theorem moveAlienTo_keys (fightDurK : Int) (w : World) (alien : Option Alien)
    (oldCity newCity : Option String) :
    (w.moveAlienTo fightDurK alien oldCity newCity).1.cities.keys = w.cities.keys := by
  cases alien with
  | none => rfl
  | some alien =>
    cases newCity with
    | none => rfl
    | some newCity =>
      cases oldCity with
      | none =>
        simp only [World.moveAlienTo, Bool.false_eq_true, if_false, GoMap.keys_modify]
      | some oldCity =>
        simp only [World.moveAlienTo]
        split
        · rfl
        · simp only [GoMap.keys_modify]

theorem dismissAlien_keys {w : World} (hwf : w.WF) (alienID reason : String) :
    (w.dismissAlien alienID reason).1.cities.keys = w.cities.keys := by
  rcases dismissAlien_cases w alienID with hmiss | ⟨c, city, alien, hidx, hcity, hal⟩
  · rw [dismissAlien_miss w _ _ hmiss]
  · rw [dismissAlien_found w hwf reason hidx hcity hal]
    exact GoMap.keys_set_of_get? _ hcity

theorem dismissAliens_keys (city : String) :
    ∀ (rest : List (String × Alien)) (w : World), w.WF →
      (w.dismissAliens city rest).1.cities.keys = w.cities.keys := by
  intro rest
  induction rest with
  | nil => intro w _; rfl
  | cons e rest ih =>
    intro w hwf
    obtain ⟨k, v⟩ := e
    unfold World.dismissAliens
    cases (w.cityAt city).aliens.get? k with
    | none => exact ih w hwf
    | some alien =>
      exact (ih _ (dismissAlien_WF hwf _ _)).trans (dismissAlien_keys hwf _ _)

theorem handle_keys (fightDurK : Int) {w : World} (hwf : w.WF) (req : Request) :
    (w.handle fightDurK req).1.cities.keys = w.cities.keys ∨
      ∃ c, req.destroyed = some c ∧ c ∈ w.cities.keys ∧
        (w.handle fightDurK req).1.cities.len + 1 = w.cities.len ∧
        ∀ x, x ∈ (w.handle fightDurK req).1.cities.keys ↔ x ∈ w.cities.keys ∧ x ≠ c := by
  rcases req with (r | r) | (r | r)
  · left
    rcases handleAlienMoveRequest_cases fightDurK w r with h | ⟨o, oc, alien, nc, _, _, _, _, h⟩
    · simp only [World.handle, h]
    · simp only [World.handle, h, moveAlienTo_keys]
  · left
    exact dismissAlien_keys hwf _ _
  · cases hcity : w.cities.get? r.CityID with
    | none =>
      left
      simp only [World.handle, World.handleCityDestroyRequest, hcity]
    | some city =>
      right
      have hkeys : ((w.removeConnections r.CityID).1.dismissAliens r.CityID
          city.aliens.entries).1.cities.keys = w.cities.keys :=
        (dismissAliens_keys r.CityID _ _ ((removeConnections_cleared w r.CityID).WF hwf)).trans
          (removeConnections_cleared w r.CityID).2.1
      have hmem : r.CityID ∈ w.cities.keys := (GoMap.mem_keys_iff _ _).mpr ⟨city, hcity⟩
      refine ⟨r.CityID, rfl, hmem, ?_, ?_⟩
      · simp only [World.handle, handleCityDestroyRequest_eq hwf r hcity]
        rw [GoMap.len_delete_of_mem (by rw [hkeys]; exact hwf.1) (by rw [hkeys]; exact hmem)]
        exact GoMap.len_eq_of_keys_eq hkeys
      · intro x
        simp only [World.handle, handleCityDestroyRequest_eq hwf r hcity, GoMap.mem_keys_delete,
          hkeys]
  · left
    rcases handleAlienDisembarkRequest_cases fightDurK w r with ⟨_, h⟩ | ⟨city, _, h⟩
    · simp only [World.handle, h]
    · simp only [World.handle, h, moveAlienTo_keys]

theorem handleAll_cities_len (fightDurK : Int) (reqs : List Request) :
    ∀ w : World, w.WF → (w.handleAll fightDurK reqs).1.cities.len ≤ w.cities.len := by
  induction reqs with
  | nil => intro w _; exact Nat.le_refl _
  | cons req rest ih =>
    intro w hwf
    have h1 := ih _ (handle_WF fightDurK hwf req)
    have h2 : (w.handle fightDurK req).1.cities.len ≤ w.cities.len := by
      rcases handle_keys fightDurK hwf req with h | ⟨c, _, _, h, _⟩
      · exact Nat.le_of_eq (GoMap.len_eq_of_keys_eq h)
      · omega
    exact Nat.le_trans h1 h2

/-- C19: in a well-formed state no handled request adds a city: every key of the cities map
afterwards was a key before.  A request other than CityDestroyed, and a CityDestroyed
request for a city that is not in the map, leaves the keys of the cities map as they were;
a CityDestroyed request for a city of the map removes exactly that key and lowers the
number of cities by exactly one.  Along every sequence of handled requests the number of
cities does not grow. -/
theorem cities_never_added (fightDurK : Int) (w : World) (hwf : w.WF) (req : Request) :
    (∀ x, x ∈ (w.handle fightDurK req).1.cities.keys → x ∈ w.cities.keys) ∧
      (req.destroyed = none → (w.handle fightDurK req).1.cities.keys = w.cities.keys) ∧
      (∀ c, req.destroyed = some c → c ∉ w.cities.keys →
        (w.handle fightDurK req).1.cities.keys = w.cities.keys) ∧
      (∀ c, req.destroyed = some c → c ∈ w.cities.keys →
        (w.handle fightDurK req).1.cities.len + 1 = w.cities.len ∧
        ∀ x, x ∈ (w.handle fightDurK req).1.cities.keys ↔ x ∈ w.cities.keys ∧ x ≠ c) ∧
      ∀ reqs, (w.handleAll fightDurK reqs).1.cities.len ≤ w.cities.len := by
  have hk := handle_keys fightDurK hwf req
  refine ⟨?_, ?_, ?_, ?_, fun reqs => handleAll_cities_len fightDurK reqs w hwf⟩
  · intro x hx
    rcases hk with h | ⟨c, _, _, _, h⟩
    · rwa [h] at hx
    · exact ((h x).mp hx).1
  · intro hnone
    rcases hk with h | ⟨c, h, _⟩
    · exact h
    · rw [hnone] at h; cases h
  · intro c hc hnot
    rcases hk with h | ⟨c2, h, hmem, _⟩
    · exact h
    · rw [hc] at h; cases h; exact absurd hmem hnot
  · intro c hc hmem
    rcases hk with h | ⟨c2, h, _, hlen, hx⟩
    · exfalso
      rcases req with (r | r) | (r | r)
      · cases hc
      · cases hc
      · simp only [Request.destroyed, Option.some.injEq] at hc
        subst hc
        obtain ⟨city, hcity⟩ := (GoMap.mem_keys_iff _ _).mp hmem
        have hgone : (w.handleCityDestroyRequest r).1.cities.get? r.CityID = none := by
          rw [handleCityDestroyRequest_eq hwf r hcity]
          simp
        have hstill : r.CityID ∈ (w.handleCityDestroyRequest r).1.cities.keys := by
          simp only [World.handle] at h
          rw [h]; exact hmem
        rw [GoMap.mem_keys_iff, hgone] at hstill
        obtain ⟨_, hv⟩ := hstill
        cases hv
      · cases hc
    · rw [hc] at h; cases h
      exact ⟨hlen, hx⟩

theorem cities_never_added_witness :
    (sample.fightAtB.handle 1 (.world (.cityDestroy ⟨"B"⟩))).1.cities.len + 1 =
      sample.fightAtB.cities.len :=
  ((cities_never_added 1 sample.fightAtB (by decide) (.world (.cityDestroy ⟨"B"⟩))).2.2.2.1
    "B" rfl (by decide)).1

end state

namespace GoMap

variable {V : Type}

theorem len_set_of_get? {m : GoMap V} {k : String} {v0 : V} (v : V)
    (h : m.get? k = some v0) : (m.set k v).len = m.len :=
  len_eq_of_keys_eq (keys_set_of_get? v h)

theorem len_set_of_none {m : GoMap V} {k : String} (v : V) (h : m.get? k = none) :
    (m.set k v).len = m.len + 1 := by
  obtain ⟨l⟩ := m
  simp only [set, len, get?] at *
  induction l with
  | nil => simp [setIn]
  | cons e rest ih =>
    obtain ⟨k2, w⟩ := e
    by_cases h2 : k2 = k
    · simp [lookupIn, h2] at h
    · simp only [lookupIn, h2, if_false] at h
      simp only [setIn, h2, if_false, List.length_cons, ih h]

end GoMap

namespace state

/-! ## The number of aliens -/

theorem moveAlienTo_index (fightDurK : Int) (w : World) (alien : Alien)
    (oldCity : Option String) (newCity : String) :
    (w.moveAlienTo fightDurK (some alien) oldCity (some newCity)).1.alienCityMap =
        w.alienCityMap ∨
      (w.moveAlienTo fightDurK (some alien) oldCity (some newCity)).1.alienCityMap =
        w.alienCityMap.set alien.Name (w.cityAt newCity).Name := by
  cases oldCity with
  | none =>
    right
    simp only [World.moveAlienTo, Bool.false_eq_true, if_false]
  | some oldCity =>
    simp only [World.moveAlienTo]
    split
    · left; rfl
    · right; rfl

theorem moveAlienTo_landed_index (fightDurK : Int) (w : World) (alien : Alien)
    (newCity : String) :
    (w.moveAlienTo fightDurK (some alien) none (some newCity)).1.alienCityMap =
      w.alienCityMap.set alien.Name (w.cityAt newCity).Name := by
  simp only [World.moveAlienTo, Bool.false_eq_true, if_false]

theorem dismissAlien_index_len (w : World) (alienID reason : String) :
    (w.dismissAlien alienID reason).1.alienCityMap.len ≤ w.alienCityMap.len := by
  unfold World.dismissAlien
  split
  · exact Nat.le_refl _
  · split
    · exact Nat.le_refl _
    · split
      · exact Nat.le_refl _
      · exact GoMap.len_delete_le _ _

theorem dismissAliens_index_len (city : String) :
    ∀ (rest : List (String × Alien)) (w : World),
      (w.dismissAliens city rest).1.alienCityMap.len ≤ w.alienCityMap.len := by
  intro rest
  induction rest with
  | nil => intro w; exact Nat.le_refl _
  | cons e rest ih =>
    intro w
    obtain ⟨k, v⟩ := e
    unfold World.dismissAliens
    cases (w.cityAt city).aliens.get? k with
    | none => exact ih w
    | some alien => exact Nat.le_trans (ih _) (dismissAlien_index_len w _ _)

theorem handleCityDestroyRequest_index_len (w : World) (r : types.CityDestroyRequest) :
    (w.handleCityDestroyRequest r).1.alienCityMap.len ≤ w.alienCityMap.len := by
  unfold World.handleCityDestroyRequest
  split
  · exact Nat.le_refl _
  · have h := dismissAliens_index_len r.CityID
      ((w.removeConnections r.CityID).1.cityAt r.CityID).aliens.entries
      (w.removeConnections r.CityID).1
    rw [(removeConnections_cleared w r.CityID).1] at h
    exact h

theorem handleAlienMoveRequest_index_len (fightDurK : Int) {w : World} (hwf : w.WF)
    (r : types.AlienMoveRequest) :
    (w.handleAlienMoveRequest fightDurK r).1.alienCityMap.len = w.alienCityMap.len := by
  rcases handleAlienMoveRequest_cases fightDurK w r with h | ⟨o, oc, alien, nc, hidx, hoc, hal, _, h⟩
  · rw [h]
  · rw [h]
    have hn : alien.Name = r.AlienID := (hwf.city_mem hoc).2.alien_name hal
    rcases moveAlienTo_index fightDurK w alien (some o) r.NewCityID with h2 | h2
    · rw [h2]
    · rw [h2, hn]
      exact GoMap.len_set_of_get? _ hidx

theorem handle_index_len (fightDurK : Int) {w : World} (hwf : w.WF) (req : Request) :
    (req.disembarked = none →
        (w.handle fightDurK req).1.alienCityMap.len ≤ w.alienCityMap.len) ∧
      (w.handle fightDurK req).1.alienCityMap.len ≤ w.alienCityMap.len + 1 := by
  rcases req with (r | r) | (r | r)
  · have h := handleAlienMoveRequest_index_len fightDurK hwf r
    exact ⟨fun _ => Nat.le_of_eq h, by simp only [World.handle]; omega⟩
  · have h := dismissAlien_index_len w r.AlienID "evacuated"
    refine ⟨fun _ => h, ?_⟩
    simp only [World.handle, World.handleAlienEvacuateRequest]
    omega
  · have h := handleCityDestroyRequest_index_len w r
    exact ⟨fun _ => h, by simp only [World.handle]; omega⟩
  · refine ⟨fun h => (by cases h), ?_⟩
    rcases handleAlienDisembarkRequest_cases fightDurK w r with ⟨_, h⟩ | ⟨city, _, h⟩
    · simp only [World.handle, h]; omega
    · simp only [World.handle, h, moveAlienTo_landed_index]
      exact GoMap.len_set_le _ _ _

theorem handleAll_index_len (fightDurK : Int) (reqs : List Request) :
    ∀ w : World, w.WF →
      (w.handleAll fightDurK reqs).1.alienCityMap.len ≤
        w.alienCityMap.len + countDisembarks reqs := by
  induction reqs with
  | nil => intro w _; exact Nat.le_refl _
  | cons req rest ih =>
    intro w hwf
    have h1 : (w.handleAll fightDurK (req :: rest)).1.alienCityMap.len ≤
        (w.handle fightDurK req).1.alienCityMap.len + countDisembarks rest :=
      ih _ (handle_WF fightDurK hwf req)
    have h2 := handle_index_len fightDurK hwf req
    cases hd : req.disembarked with
    | none =>
      have h3 := h2.1 hd
      have h4 : countDisembarks (req :: rest) = countDisembarks rest := by
        simp [countDisembarks, List.filter_cons, hd]
      omega
    | some n =>
      have h3 := h2.2
      have h4 : countDisembarks (req :: rest) = countDisembarks rest + 1 := by
        simp [countDisembarks, List.filter_cons, hd]
      omega

/-- C20, as stated, fails: a Disembark request is a handled request and it adds an alien.
The world of the chain `A - B - C` starts with an empty index; after the one request
Disembark(`a1`, `A`) the index holds one alien, and the stop check reports one alien. -/
theorem disembark_adds_alien :
    (NewWorld sample.chain).WF ∧ (NewWorld sample.chain).alienCityMap.len = 0 ∧
      ((NewWorld sample.chain).handleAll 1
        [.world (.disembark ⟨sample.a1, "A"⟩)]).1.alienCityMap.len = 1 ∧
      ((NewWorld sample.chain).handleAll 1
        [.world (.disembark ⟨sample.a1, "A"⟩)]).1.checkStopConditions =
        (true, [.notify (.SimStatus 1 3 true)]) := by
  decide

/-- C20 (amended): in a well-formed state a Move request leaves the size of the alien->city
index unchanged, and an Evacuate or CityDestroyed request does not raise it; a Disembark
request raises it by at most one, and by exactly one when its city is in the map and the
name of its alien is not yet in the index.  Along every sequence of handled requests the
size of the index grows by at most the number of Disembark requests in the sequence, so
along a sequence without Disembark requests it does not grow. -/
theorem aliens_grow_only_by_disembark (fightDurK : Int) (w : World) (hwf : w.WF) :
    (∀ r, (w.handle fightDurK (.alien (.move r))).1.alienCityMap.len = w.alienCityMap.len) ∧
      (∀ req, req.disembarked = none →
        (w.handle fightDurK req).1.alienCityMap.len ≤ w.alienCityMap.len) ∧
      (∀ req, (w.handle fightDurK req).1.alienCityMap.len ≤ w.alienCityMap.len + 1) ∧
      (∀ r city, w.cities.get? r.CityID = some city →
        w.alienCityMap.get? r.Alien.Name = none →
        (w.handle fightDurK (.world (.disembark r))).1.alienCityMap.len =
          w.alienCityMap.len + 1) ∧
      (∀ reqs, (w.handleAll fightDurK reqs).1.alienCityMap.len ≤
        w.alienCityMap.len + countDisembarks reqs) ∧
      ∀ reqs, (∀ q ∈ reqs, q.disembarked = none) →
        (w.handleAll fightDurK reqs).1.alienCityMap.len ≤ w.alienCityMap.len := by
  refine ⟨fun r => handleAlienMoveRequest_index_len fightDurK hwf r,
    fun req h => (handle_index_len fightDurK hwf req).1 h,
    fun req => (handle_index_len fightDurK hwf req).2, ?_,
    fun reqs => handleAll_index_len fightDurK reqs w hwf, ?_⟩
  · intro r city hcity hnone
    rcases handleAlienDisembarkRequest_cases fightDurK w r with ⟨h, _⟩ | ⟨city2, _, h⟩
    · rw [hcity] at h; cases h
    · simp only [World.handle, h, moveAlienTo_landed_index]
      exact GoMap.len_set_of_none _ hnone
  · intro reqs hall
    have h := handleAll_index_len fightDurK reqs w hwf
    have h0 : countDisembarks reqs = 0 := by
      simp only [countDisembarks, List.length_eq_zero, List.filter_eq_nil_iff]
      intro q hq
      simp [hall q hq]
    omega

theorem aliens_grow_only_by_disembark_witness :
    (sample.fightAtB.handleAll 1 [.alien (.move ⟨"a1", "C"⟩), .alien (.evacuate ⟨"a2"⟩),
      .world (.cityDestroy ⟨"B"⟩)]).1.alienCityMap.len ≤ sample.fightAtB.alienCityMap.len :=
  (aliens_grow_only_by_disembark 1 sample.fightAtB (by decide)).2.2.2.2.2
    [.alien (.move ⟨"a1", "C"⟩), .alien (.evacuate ⟨"a2"⟩), .world (.cityDestroy ⟨"B"⟩)]
    (by decide)

end state

namespace state

/-! ## The stop check on consistent states -/

/-- C28: in a state in which every alien of the index is mapped to a city of the map,
`checkStopConditions`, which tests `aliens <= 1` and `cities == 1`, returns true exactly
when `aliens <= 1 or cities <= 1` (the stop condition of the specification), and it
reports one `SimStatus` carrying the two counts and the flag it returns. -/
theorem checkStopConditions_refines (w : World)
    (h : ∀ e ∈ w.alienCityMap.entries, (w.cities.get? e.2).isSome = true) :
    w.checkStopConditions.1 = stopConditionSpec w.alienCityMap.len w.cities.len ∧
      (w.checkStopConditions.1 = true ↔ w.alienCityMap.len ≤ 1 ∨ w.cities.len ≤ 1) ∧
      (w.cities.len = 0 → w.alienCityMap.len = 0) ∧
      w.checkStopConditions.2 =
        [.notify (.SimStatus w.alienCityMap.len w.cities.len w.checkStopConditions.1)] := by
  have hzero : w.cities.len = 0 → w.alienCityMap.len = 0 := by
    intro hc
    have hnil : w.cities.entries = [] := List.length_eq_zero.mp hc
    cases hidx : w.alienCityMap.entries with
    | nil => simp [GoMap.len, hidx]
    | cons e rest =>
      have he := h e (by rw [hidx]; exact List.mem_cons_self _ _)
      simp [GoMap.get?, hnil, GoMap.lookupIn] at he
  have hiff : w.checkStopConditions.1 = true ↔ w.alienCityMap.len ≤ 1 ∨ w.cities.len ≤ 1 := by
    rw [checkStopConditions_fst]
    constructor
    · rintro (h1 | h1)
      · exact Or.inl h1
      · exact Or.inr (by omega)
    · rintro (h1 | h1)
      · exact Or.inl h1
      · rcases Nat.lt_or_ge w.cities.len 1 with h2 | h2
        · have := hzero (by omega)
          exact Or.inl (by omega)
        · exact Or.inr (by omega)
  refine ⟨?_, hiff, hzero, rfl⟩
  cases hb : w.checkStopConditions.1 with
  | true => exact (decide_eq_true (hiff.mp hb)).symm
  | false =>
    have hn : ¬ (w.alienCityMap.len ≤ 1 ∨ w.cities.len ≤ 1) := by
      intro hc
      rw [hiff.mpr hc] at hb
      cases hb
    exact (decide_eq_false hn).symm

theorem checkStopConditions_refines_witness :
    sample.fightAtB.checkStopConditions.1 =
      stopConditionSpec sample.fightAtB.alienCityMap.len sample.fightAtB.cities.len :=
  (checkStopConditions_refines sample.fightAtB (by decide)).1

/-! ## The loop of the World -/

theorem loop_append (fightDurK : Int) (pre rest : List WorldStep) :
    ∀ w : World, World.loop fightDurK w (pre ++ rest) =
      if (World.loop fightDurK w pre).working then
        ⟨(World.loop fightDurK (World.loop fightDurK w pre).world rest).world,
          (World.loop fightDurK (World.loop fightDurK w pre).world rest).working,
          (World.loop fightDurK w pre).effects ++
            (World.loop fightDurK (World.loop fightDurK w pre).world rest).effects⟩
      else World.loop fightDurK w pre := by
  induction pre with
  | nil => intro w; simp [World.loop]
  | cons s pre ih =>
    intro w
    cases hw : (w.runStep fightDurK s).working with
    | false => simp [World.loop, hw]
    | true =>
      simp only [List.cons_append, World.loop, hw, if_true, List.append_eq]
      rw [ih]
      cases hw2 : (World.loop fightDurK (w.runStep fightDurK s).world pre).working with
      | false => simp [hw2]
      | true => simp [hw2, List.append_assoc]

theorem countCloses_append (xs ys : List RunEffect) :
    countCloses (xs ++ ys) = countCloses xs + countCloses ys := by
  simp [countCloses, List.count_append]

theorem countCloses_effects (es : List Effect) : countCloses (es.map RunEffect.effect) = 0 := by
  induction es with
  | nil => rfl
  | cons e rest ih =>
    simp only [countCloses] at ih
    simp [countCloses, List.count_cons, ih]

theorem runStep_cases (fightDurK : Int) (w : World) (s : WorldStep) :
    ((w.runStep fightDurK s).working = true ∧ countCloses (w.runStep fightDurK s).effects = 0) ∨
      (s = .done ∧ w.runStep fightDurK s = ⟨w, false, []⟩) ∨
      (s = .stopTick ∧ w.checkStopConditions.1 = true ∧
        w.runStep fightDurK s =
          ⟨w, false, w.checkStopConditions.2.map RunEffect.effect ++ [.closeSimStopCh]⟩) := by
  cases s with
  | done => exact Or.inr (Or.inl ⟨rfl, rfl⟩)
  | stopTick =>
    cases hc : w.checkStopConditions.1 with
    | true =>
      refine Or.inr (Or.inr ⟨rfl, rfl, ?_⟩)
      simp only [World.runStep, hc, if_true]
    | false =>
      left
      simp only [World.runStep, hc, Bool.false_eq_true, if_false, countCloses_effects, and_self]
  | request req =>
    left
    simp only [World.runStep, countCloses_effects, and_self]

/-- What a run of the loop has done when it has ended: either a cancellation ended it and
the stop channel was never closed, or a stop-tick whose check returned true ended it and
the close is the last thing the loop did. -/
theorem loop_ended (fightDurK : Int) (steps : List WorldStep) :
    ∀ w : World, (World.loop fightDurK w steps).working = false →
      ∃ pre rest, (World.loop fightDurK w pre).working = true ∧
        countCloses (World.loop fightDurK w pre).effects = 0 ∧
        ((steps = pre ++ .done :: rest ∧
            World.loop fightDurK w steps =
              ⟨(World.loop fightDurK w pre).world, false, (World.loop fightDurK w pre).effects⟩) ∨
          (steps = pre ++ .stopTick :: rest ∧
            (World.loop fightDurK w pre).world.checkStopConditions.1 = true ∧
            World.loop fightDurK w steps =
              ⟨(World.loop fightDurK w pre).world, false,
                (World.loop fightDurK w pre).effects ++
                  ((World.loop fightDurK w pre).world.checkStopConditions.2.map
                    RunEffect.effect ++ [.closeSimStopCh])⟩)) := by
  induction steps with
  | nil => intro w h; simp [World.loop] at h
  | cons s steps ih =>
    intro w h
    rcases runStep_cases fightDurK w s with ⟨hw, hc⟩ | ⟨hs, heq⟩ | ⟨hs, hchk, heq⟩
    · have hloop : World.loop fightDurK w (s :: steps) =
          ⟨(World.loop fightDurK (w.runStep fightDurK s).world steps).world,
            (World.loop fightDurK (w.runStep fightDurK s).world steps).working,
            (w.runStep fightDurK s).effects ++
              (World.loop fightDurK (w.runStep fightDurK s).world steps).effects⟩ := by
        simp only [World.loop, hw, if_true]
      have hpre : ∀ pre, World.loop fightDurK w (s :: pre) =
          ⟨(World.loop fightDurK (w.runStep fightDurK s).world pre).world,
            (World.loop fightDurK (w.runStep fightDurK s).world pre).working,
            (w.runStep fightDurK s).effects ++
              (World.loop fightDurK (w.runStep fightDurK s).world pre).effects⟩ := by
        intro pre
        simp only [World.loop, hw, if_true]
      rw [hloop] at h
      obtain ⟨pre, rest, h1, h2, h3⟩ := ih _ h
      refine ⟨s :: pre, rest, ?_, ?_, ?_⟩
      · rw [hpre]; exact h1
      · rw [hpre, countCloses_append, hc, h2]
      · rcases h3 with ⟨h4, h5⟩ | ⟨h4, h5, h6⟩
        · left
          refine ⟨by rw [h4]; rfl, ?_⟩
          rw [hloop, hpre, h5]
        · right
          refine ⟨by rw [h4]; rfl, by rw [hpre]; exact h5, ?_⟩
          rw [hloop, hpre, h6]
          simp only [List.append_assoc]
    · refine ⟨[], steps, rfl, rfl, Or.inl ⟨by rw [hs]; rfl, ?_⟩⟩
      simp only [World.loop, heq, Bool.false_eq_true, if_false]
    · refine ⟨[], steps, rfl, rfl, Or.inr ⟨by rw [hs]; rfl, hchk, ?_⟩⟩
      simp only [World.loop, heq, Bool.false_eq_true, if_false, List.nil_append]

theorem loop_working (fightDurK : Int) (steps : List WorldStep) :
    ∀ w : World, (World.loop fightDurK w steps).working = true →
      countCloses (World.loop fightDurK w steps).effects = 0 := by
  induction steps with
  | nil => intro w _; rfl
  | cons s steps ih =>
    intro w h
    rcases runStep_cases fightDurK w s with ⟨hw, hc⟩ | ⟨hs, heq⟩ | ⟨hs, hchk, heq⟩
    · simp only [World.loop, hw, if_true] at h ⊢
      rw [countCloses_append, hc, ih _ h]
    · simp [World.loop, heq] at h
    · simp [World.loop, heq] at h

end state
namespace state

theorem loop_requests (fightDurK : Int) (reqs : List Request) :
    ∀ w : World, World.loop fightDurK w (reqs.map WorldStep.request) =
      ⟨(w.handleAll fightDurK reqs).1, true,
        (w.handleAll fightDurK reqs).2.map RunEffect.effect⟩ := by
  induction reqs with
  | nil => intro w; rfl
  | cons req rest ih =>
    intro w
    simp only [List.map_cons, World.loop, World.runStep, if_true, ih, World.handleAll,
      List.map_append]

/-- C21: along every run of the World loop the stop channel is closed at most once, and not
at all while the loop is still working.  When it has been closed, the run consists of
steps after which the loop was still working and had not closed the channel, followed by
a stop-tick whose stop check returned true; the close is the last thing the loop did, the
state is the state at that stop-tick, and the steps after it are not handled.  A
cancellation step taken while the loop is working ends the loop with the stop channel
not closed, and a loop that has ended handles no further step. -/
theorem stop_channel_closed_once (fightDurK : Int) (w : World) (steps : List WorldStep) :
    countCloses (w.Run fightDurK steps).effects ≤ 1 ∧
      ((w.Run fightDurK steps).working = true →
        countCloses (w.Run fightDurK steps).effects = 0) ∧
      (countCloses (w.Run fightDurK steps).effects = 1 →
        ∃ pre rest, steps = pre ++ .stopTick :: rest ∧
          (w.Run fightDurK pre).working = true ∧
          countCloses (w.Run fightDurK pre).effects = 0 ∧
          (w.Run fightDurK pre).world.checkStopConditions.1 = true ∧
          w.Run fightDurK steps =
            ⟨(w.Run fightDurK pre).world, false,
              (w.Run fightDurK pre).effects ++
                ((w.Run fightDurK pre).world.checkStopConditions.2.map RunEffect.effect ++
                  [.closeSimStopCh])⟩) ∧
      (∀ pre rest, steps = pre ++ .done :: rest → (w.Run fightDurK pre).working = true →
        w.Run fightDurK steps =
            ⟨(w.Run fightDurK pre).world, false, (w.Run fightDurK pre).effects⟩ ∧
          countCloses (w.Run fightDurK steps).effects = 0) ∧
      ∀ more, (w.Run fightDurK steps).working = false →
        w.Run fightDurK (steps ++ more) = w.Run fightDurK steps := by
  unfold World.Run
  generalize ({ w with alienCityMap := GoMap.empty } : World) = w0
  have hend := loop_ended fightDurK steps w0
  have hwork := loop_working fightDurK steps w0
  refine ⟨?_, hwork, ?_, ?_, ?_⟩
  · cases hw : (World.loop fightDurK w0 steps).working with
    | true => rw [hwork hw]; exact Nat.zero_le _
    | false =>
      obtain ⟨pre, rest, _, h2, h3⟩ := hend hw
      rcases h3 with ⟨_, h5⟩ | ⟨_, _, h6⟩
      · rw [h5]; simp only [h2]; exact Nat.zero_le _
      · rw [h6]
        simp only [countCloses_append, h2, countCloses_effects]
        exact Nat.le_refl _
  · intro hone
    cases hw : (World.loop fightDurK w0 steps).working with
    | true => rw [hwork hw] at hone; cases hone
    | false =>
      obtain ⟨pre, rest, h1, h2, h3⟩ := hend hw
      rcases h3 with ⟨_, h5⟩ | ⟨h4, h5, h6⟩
      · rw [h5] at hone; simp only [h2] at hone; cases hone
      · exact ⟨pre, rest, h4, h1, h2, h5, h6⟩
  · intro pre rest hsteps hpre
    have h := loop_append fightDurK pre (.done :: rest) w0
    rw [hpre] at h
    simp only [if_true, World.loop, World.runStep, Bool.false_eq_true, if_false,
      List.append_nil] at h
    rw [hsteps, h]
    exact ⟨rfl, loop_working fightDurK pre w0 hpre⟩
  · intro more hw
    rw [loop_append, hw]
    simp

theorem stop_channel_closed_once_witness :
    countCloses (sample.fightAtB.Run 1 [.request (.world (.cityDestroy ⟨"B"⟩)), .stopTick,
      .stopTick, .done]).effects = 1 ∧
    ∃ pre rest, [WorldStep.request (.world (.cityDestroy ⟨"B"⟩)), .stopTick, .stopTick, .done] =
        pre ++ .stopTick :: rest ∧
      (sample.fightAtB.Run 1 pre).working = true ∧
      countCloses (sample.fightAtB.Run 1 pre).effects = 0 ∧
      (sample.fightAtB.Run 1 pre).world.checkStopConditions.1 = true ∧
      sample.fightAtB.Run 1 [.request (.world (.cityDestroy ⟨"B"⟩)), .stopTick, .stopTick,
          .done] =
        ⟨(sample.fightAtB.Run 1 pre).world, false,
          (sample.fightAtB.Run 1 pre).effects ++
            ((sample.fightAtB.Run 1 pre).world.checkStopConditions.2.map RunEffect.effect ++
              [.closeSimStopCh])⟩ :=
  ⟨by decide,
    (stop_channel_closed_once 1 sample.fightAtB
      [.request (.world (.cityDestroy ⟨"B"⟩)), .stopTick, .stopTick, .done]).2.2.1 (by decide)⟩

/-- C29: for every city map, the stop check on the freshly constructed world returns true
and reports no alien, so a run of the World whose first step is a stop-tick closes the
stop channel and ends with the state as constructed, whatever steps follow.  The same
holds for a stop-tick taken after any requests other than Disembark: the index is still
empty, the check returns true and the loop ends with the stop channel closed once and no
alien landed. -/
theorem stop_before_first_landing (fightDurK : Int) (cityMap : model.CityMap) :
    (NewWorld cityMap).checkStopConditions =
        (true, [.notify (.SimStatus 0 (NewWorld cityMap).cities.len true)]) ∧
      (∀ rest, (NewWorld cityMap).Run fightDurK (.stopTick :: rest) =
        ⟨NewWorld cityMap, false,
          [.effect (.notify (.SimStatus 0 (NewWorld cityMap).cities.len true)),
            .closeSimStopCh]⟩) ∧
      ∀ reqs rest, countDisembarks reqs = 0 →
        ((NewWorld cityMap).Run fightDurK
            (reqs.map WorldStep.request ++ .stopTick :: rest)).working = false ∧
          ((NewWorld cityMap).Run fightDurK
            (reqs.map WorldStep.request ++ .stopTick :: rest)).world.alienCityMap.len = 0 ∧
          countCloses ((NewWorld cityMap).Run fightDurK
            (reqs.map WorldStep.request ++ .stopTick :: rest)).effects = 1 := by
  have hfresh : ({ NewWorld cityMap with alienCityMap := GoMap.empty } : World) =
      NewWorld cityMap := rfl
  have hcheck : ∀ w : World, w.alienCityMap.len = 0 →
      w.checkStopConditions = (true, [.notify (.SimStatus 0 w.cities.len true)]) := by
    intro w h0
    simp [World.checkStopConditions, h0]
  have htick : ∀ (w : World) (rest : List WorldStep), w.alienCityMap.len = 0 →
      World.loop fightDurK w (.stopTick :: rest) =
        ⟨w, false, [.effect (.notify (.SimStatus 0 w.cities.len true)), .closeSimStopCh]⟩ := by
    intro w rest h0
    simp [World.loop, World.runStep, hcheck w h0]
  refine ⟨hcheck _ rfl, fun rest => ?_, fun reqs rest hno => ?_⟩
  · unfold World.Run
    rw [hfresh]
    exact htick _ rest rfl
  · unfold World.Run
    rw [hfresh, loop_append, loop_requests]
    have hlen := handleAll_index_len fightDurK reqs (NewWorld cityMap) (NewWorld_WF cityMap)
    rw [hno] at hlen
    have h0 : ((NewWorld cityMap).handleAll fightDurK reqs).1.alienCityMap.len = 0 := by
      have : (NewWorld cityMap).alienCityMap.len = 0 := rfl
      omega
    simp only [if_true, htick _ rest h0, h0, countCloses_append, countCloses_effects]
    exact ⟨trivial, trivial, rfl⟩

theorem stop_before_first_landing_witness :
    ((NewWorld sample.chain).Run 1
        ([Request.alien (.evacuate ⟨"a1"⟩)].map WorldStep.request ++
          .stopTick :: [.request (.world (.disembark ⟨sample.a1, "A"⟩))])).working = false :=
  ((stop_before_first_landing 1 sample.chain).2.2 [.alien (.evacuate ⟨"a1"⟩)]
    [.request (.world (.disembark ⟨sample.a1, "A"⟩))] (by decide)).1

end state

namespace model

/-! ## What `Validate` checks -/

theorem CityMap.validateFrom_of_entries (m : CityMap) :
    ∀ l : List (String × City), (∀ e ∈ l, CityMap.validateEntry m e.1 e.2 = .ok ()) →
      CityMap.validateFrom m l = .ok () := by
  intro l
  induction l with
  | nil => intro _; rfl
  | cons e rest ih =>
    intro h
    obtain ⟨k, city⟩ := e
    have hk := h (k, city) (List.mem_cons_self _ _)
    simp only at hk
    simp only [CityMap.validateFrom, hk]
    exact ih (fun x hx => h x (List.mem_cons_of_mem _ hx))

theorem CityMap.validateEntry_of_checks {m : CityMap} {k : String} {city : City}
    (hname : k = city.Name) (hre : cityNameRegexp k = true)
    (hn : city.NorthRoad ≠ "" → (m.getD city.NorthRoad City.zero).SouthRoad = k)
    (he : city.EastRoad ≠ "" → (m.getD city.EastRoad City.zero).WestRoad = k)
    (hs : city.SouthRoad ≠ "" → (m.getD city.SouthRoad City.zero).NorthRoad = k)
    (hw : city.WestRoad ≠ "" → (m.getD city.WestRoad City.zero).EastRoad = k) :
    CityMap.validateEntry m k city = .ok () := by
  unfold CityMap.validateEntry
  rw [if_neg (by simpa using hname), if_neg (by simp [hre]),
    if_neg (fun h => h.2 (hn h.1)), if_neg (fun h => h.2 (he h.1)),
    if_neg (fun h => h.2 (hs h.1)), if_neg (fun h => h.2 (hw h.1))]

/-- The lookup `m[road].Slot == k` for a non-empty `k`: the city exists and its slot is `k`. -/
theorem CityMap.slot_of_getD (m : CityMap) {k road : String} (hk : k ≠ "")
    (slot : City → String) (hzero : slot City.zero = "") :
    slot (m.getD road City.zero) = k ↔ ∃ d, m.get? road = some d ∧ slot d = k := by
  unfold GoMap.getD
  cases h : m.get? road with
  | none =>
    simp only [Option.getD_none, hzero]
    constructor
    · intro h2; exact absurd h2.symm hk
    · rintro ⟨d, hd, _⟩; cases hd
  | some d => simp

/-- C23: `Validate` returns no error exactly when, for every entry of the map, the key is
the `Name` of the city, the name passes the city-name check, and for each non-empty road
slot the city it names is in the map and the opposite slot of that city (south for north,
west for east, north for south, east for west) names this city. -/
theorem CityMap.Validate_ok_iff (m : CityMap) :
    m.Validate = .ok () ↔
      ∀ e ∈ m.entries, e.1 = e.2.Name ∧ cityNameRegexp e.1 = true ∧
        (e.2.NorthRoad ≠ "" → ∃ d, m.get? e.2.NorthRoad = some d ∧ d.SouthRoad = e.1) ∧
        (e.2.EastRoad ≠ "" → ∃ d, m.get? e.2.EastRoad = some d ∧ d.WestRoad = e.1) ∧
        (e.2.SouthRoad ≠ "" → ∃ d, m.get? e.2.SouthRoad = some d ∧ d.NorthRoad = e.1) ∧
        (e.2.WestRoad ≠ "" → ∃ d, m.get? e.2.WestRoad = some d ∧ d.EastRoad = e.1) := by
  constructor
  · intro h e he
    obtain ⟨h1, h2, h3, h4, h5, h6⟩ :=
      CityMap.validateEntry_ok (CityMap.validateFrom_ok m m.entries h e he)
    have hk := cityNameRegexp_ne_empty h2
    exact ⟨h1, h2,
      fun hr => (m.slot_of_getD hk City.SouthRoad rfl).mp (h3 hr),
      fun hr => (m.slot_of_getD hk City.WestRoad rfl).mp (h4 hr),
      fun hr => (m.slot_of_getD hk City.NorthRoad rfl).mp (h5 hr),
      fun hr => (m.slot_of_getD hk City.EastRoad rfl).mp (h6 hr)⟩
  · intro h
    apply CityMap.validateFrom_of_entries
    intro e he
    obtain ⟨h1, h2, h3, h4, h5, h6⟩ := h e he
    have hk := cityNameRegexp_ne_empty h2
    exact CityMap.validateEntry_of_checks h1 h2
      (fun hr => (m.slot_of_getD hk City.SouthRoad rfl).mpr (h3 hr))
      (fun hr => (m.slot_of_getD hk City.WestRoad rfl).mpr (h4 hr))
      (fun hr => (m.slot_of_getD hk City.NorthRoad rfl).mpr (h5 hr))
      (fun hr => (m.slot_of_getD hk City.EastRoad rfl).mpr (h6 hr))

end model

namespace state

/-! ## No dangling roads -/

theorem World.RoadsCleared.get?_cases {cityID : String} {w s : World}
    (h : World.RoadsCleared cityID w s) {x : String} {dx : City}
    (hx : w.cities.get? x = some dx) :
    s.cities.get? x = some dx ∨ s.cities.get? x = some (dx.RemoveRoadsTo cityID) := by
  rcases h.2.2 x with h2 | h2
  · left; rw [h2, hx]
  · right; rw [h2, hx]; rfl

theorem World.RoadsCleared.keep {cityID : String} {s t : World}
    (h : World.RoadsCleared cityID s t) {x : String} {dx : City}
    (hx : s.cities.get? x = some (dx.RemoveRoadsTo cityID)) :
    t.cities.get? x = some (dx.RemoveRoadsTo cityID) := by
  rcases h.get?_cases hx with h2 | h2
  · exact h2
  · rw [h2, RemoveRoadsTo_idem]

/-- A visit of `removeConnection` to the city a slot of the destroyed city names: whatever
earlier visits have done, the slot still names `x`, and the city `x` has its roads to the
destroyed city removed afterwards. -/
theorem removeConnection_visit {cityID x : String} {w s : World} {d dx : City}
    (h : World.RoadsCleared cityID w s) (hd : w.cities.get? cityID = some d)
    (hx : w.cities.get? x = some dx) (hne : x ≠ cityID) (slot : City → String)
    (hslot : ∀ e : City, slot e ≠ cityID → slot (e.RemoveRoadsTo cityID) = slot e)
    (hnames : slot d = x) :
    (s.removeConnection cityID (slot (s.cityAt cityID))).1.cities.get? x =
      some (dx.RemoveRoadsTo cityID) := by
  have hat : slot (s.cityAt cityID) = x := by
    rcases h.get?_cases hd with h2 | h2
    · rw [cityAt_eq h2, hnames]
    · rw [cityAt_eq h2, hslot d (by rw [hnames]; exact hne), hnames]
  rw [hat, removeConnection_get?]
  simp only [if_true]
  rcases h.get?_cases hx with h2 | h2
  · rw [h2]; rfl
  · rw [h2]; simp only [Option.map_some', RemoveRoadsTo_idem]

theorem RemoveRoadsTo_slots (e : City) (cityID : String) :
    (e.NorthRoad ≠ cityID → (e.RemoveRoadsTo cityID).NorthRoad = e.NorthRoad) ∧
      (e.EastRoad ≠ cityID → (e.RemoveRoadsTo cityID).EastRoad = e.EastRoad) ∧
      (e.SouthRoad ≠ cityID → (e.RemoveRoadsTo cityID).SouthRoad = e.SouthRoad) ∧
      (e.WestRoad ≠ cityID → (e.RemoveRoadsTo cityID).WestRoad = e.WestRoad) := by
  rw [RemoveRoadsTo_eq]
  refine ⟨fun h => ?_, fun h => ?_, fun h => ?_, fun h => ?_⟩ <;> simp [h]

/-- After the four calls of `removeConnection`, a city other than the destroyed one that a
road slot of the destroyed city names has no road to the destroyed city left. -/
theorem removeConnections_neighbour {w : World} {cityID x : String} {d dx : City}
    (hd : w.cities.get? cityID = some d) (hx : w.cities.get? x = some dx) (hne : x ≠ cityID)
    (hmem : x = d.NorthRoad ∨ x = d.EastRoad ∨ x = d.SouthRoad ∨ x = d.WestRoad) :
    (w.removeConnections cityID).1.cities.get? x = some (dx.RemoveRoadsTo cityID) := by
  have r0 := World.RoadsCleared.cleared_refl cityID w
  have r1 := removeConnection_cleared w cityID (w.cityAt cityID).NorthRoad
  have r2 := removeConnection_cleared (w.removeConnection cityID (w.cityAt cityID).NorthRoad).1
    cityID ((w.removeConnection cityID (w.cityAt cityID).NorthRoad).1.cityAt cityID).EastRoad
  have r3 := removeConnection_cleared
    ((w.removeConnection cityID (w.cityAt cityID).NorthRoad).1.removeConnection cityID
      ((w.removeConnection cityID (w.cityAt cityID).NorthRoad).1.cityAt cityID).EastRoad).1
    cityID
    (((w.removeConnection cityID (w.cityAt cityID).NorthRoad).1.removeConnection cityID
      ((w.removeConnection cityID (w.cityAt cityID).NorthRoad).1.cityAt
        cityID).EastRoad).1.cityAt cityID).SouthRoad
  have r4 := removeConnection_cleared
    (((w.removeConnection cityID (w.cityAt cityID).NorthRoad).1.removeConnection cityID
      ((w.removeConnection cityID (w.cityAt cityID).NorthRoad).1.cityAt
        cityID).EastRoad).1.removeConnection cityID
      (((w.removeConnection cityID (w.cityAt cityID).NorthRoad).1.removeConnection cityID
        ((w.removeConnection cityID (w.cityAt cityID).NorthRoad).1.cityAt
          cityID).EastRoad).1.cityAt cityID).SouthRoad).1
    cityID
    ((((w.removeConnection cityID (w.cityAt cityID).NorthRoad).1.removeConnection cityID
      ((w.removeConnection cityID (w.cityAt cityID).NorthRoad).1.cityAt
        cityID).EastRoad).1.removeConnection cityID
      (((w.removeConnection cityID (w.cityAt cityID).NorthRoad).1.removeConnection cityID
        ((w.removeConnection cityID (w.cityAt cityID).NorthRoad).1.cityAt
          cityID).EastRoad).1.cityAt cityID).SouthRoad).1.cityAt cityID).WestRoad
  unfold World.removeConnections
  simp only
  rcases hmem with h | h | h | h
  · exact r4.keep (r3.keep (r2.keep
      (removeConnection_visit r0 hd hx hne (fun e : City => e.NorthRoad)
        (fun e => (RemoveRoadsTo_slots e cityID).1) h.symm)))
  · exact r4.keep (r3.keep
      (removeConnection_visit r1 hd hx hne (fun e : City => e.EastRoad)
        (fun e => (RemoveRoadsTo_slots e cityID).2.1) h.symm))
  · exact r4.keep
      (removeConnection_visit (r1.cleared_trans r2) hd hx hne (fun e : City => e.SouthRoad)
        (fun e => (RemoveRoadsTo_slots e cityID).2.2.1) h.symm)
  · exact removeConnection_visit ((r1.cleared_trans r2).cleared_trans r3) hd hx hne
      (fun e : City => e.WestRoad) (fun e => (RemoveRoadsTo_slots e cityID).2.2.2) h.symm

end state

namespace state

theorem RemoveRoadsTo_cleared (e : City) {cityID : String} (hne : cityID ≠ "") :
    (e.RemoveRoadsTo cityID).NorthRoad ≠ cityID ∧ (e.RemoveRoadsTo cityID).EastRoad ≠ cityID ∧
      (e.RemoveRoadsTo cityID).SouthRoad ≠ cityID ∧
      (e.RemoveRoadsTo cityID).WestRoad ≠ cityID := by
  rw [RemoveRoadsTo_eq]
  refine ⟨?_, ?_, ?_, ?_⟩
  · by_cases h : e.NorthRoad = cityID
    · simp [h, Ne.symm hne]
    · simp [h]
  · by_cases h : e.EastRoad = cityID
    · simp [h, Ne.symm hne]
    · simp [h]
  · by_cases h : e.SouthRoad = cityID
    · simp [h, Ne.symm hne]
    · simp [h]
  · by_cases h : e.WestRoad = cityID
    · simp [h, Ne.symm hne]
    · simp [h]

/-- In a well-formed state with symmetric roads, after the CityDestroyed handler has
removed an existing city, no city of the map has a road slot that names it. -/
theorem handleCityDestroyRequest_no_road {w : World} (hwf : w.WF)
    (r : types.CityDestroyRequest) {d : City} (hd : w.cities.get? r.CityID = some d)
    (hne : r.CityID ≠ "")
    (hsym : ∀ a b da db, w.cities.get? a = some da → w.cities.get? b = some db →
      (da.NorthRoad = b → db.SouthRoad = a) ∧ (da.SouthRoad = b → db.NorthRoad = a) ∧
      (da.EastRoad = b → db.WestRoad = a) ∧ (da.WestRoad = b → db.EastRoad = a))
    {x : String} {e2 : City} (hx : (w.handleCityDestroyRequest r).1.cities.get? x = some e2) :
    e2.NorthRoad ≠ r.CityID ∧ e2.EastRoad ≠ r.CityID ∧ e2.SouthRoad ≠ r.CityID ∧
      e2.WestRoad ≠ r.CityID := by
  rw [handleCityDestroyRequest_eq hwf r hd] at hx
  have hxne : r.CityID ≠ x := by
    intro h
    rw [← h] at hx
    simp at hx
  simp only [GoMap.get?_delete_ne _ hxne] at hx
  have hrc := removeConnections_cleared w r.CityID
  have hev := dismissAliens_evolves none r.CityID d.aliens.entries _ (hrc.WF hwf)
  rcases hev x with ⟨_, h2⟩ | ⟨e1, e3, h1, h3, hs⟩
  · rw [h2] at hx; cases hx
  · rw [hx] at h3
    cases h3
    have hto : e2.toCity = e1.toCity := hs.toCity_none
    cases hdx : w.cities.get? x with
    | none =>
      rcases hrc.2.2 x with h4 | h4 <;> rw [h4, hdx] at h1 <;> cases h1
    | some dx =>
      have hcl : (dx.NorthRoad = r.CityID ∨ dx.EastRoad = r.CityID ∨ dx.SouthRoad = r.CityID ∨
          dx.WestRoad = r.CityID) → e1 = dx.RemoveRoadsTo r.CityID := by
        intro hslot
        obtain ⟨p1, p2, p3, p4⟩ := hsym x r.CityID dx d hdx hd
        have hmem : x = d.NorthRoad ∨ x = d.EastRoad ∨ x = d.SouthRoad ∨ x = d.WestRoad := by
          rcases hslot with h | h | h | h
          · exact Or.inr (Or.inr (Or.inl (p1 h).symm))
          · exact Or.inr (Or.inr (Or.inr (p3 h).symm))
          · exact Or.inl (p2 h).symm
          · exact Or.inr (Or.inl (p4 h).symm)
        have := removeConnections_neighbour hd hdx (Ne.symm hxne) hmem
        rw [h1] at this
        exact Option.some.inj this
      have hclr := RemoveRoadsTo_cleared dx hne
      have he1 : e1.NorthRoad ≠ r.CityID ∧ e1.EastRoad ≠ r.CityID ∧ e1.SouthRoad ≠ r.CityID ∧
          e1.WestRoad ≠ r.CityID := by
        rcases hrc.get?_cases hdx with h4 | h4
        · rw [h1] at h4
          have he : e1 = dx := Option.some.inj h4
          refine ⟨fun h => ?_, fun h => ?_, fun h => ?_, fun h => ?_⟩
          · have h5 := hcl (Or.inl (he ▸ h))
            rw [h5] at h; exact hclr.1 h
          · have h5 := hcl (Or.inr (Or.inl (he ▸ h)))
            rw [h5] at h; exact hclr.2.1 h
          · have h5 := hcl (Or.inr (Or.inr (Or.inl (he ▸ h))))
            rw [h5] at h; exact hclr.2.2.1 h
          · have h5 := hcl (Or.inr (Or.inr (Or.inr (he ▸ h))))
            rw [h5] at h; exact hclr.2.2.2 h
        · rw [h1] at h4
          rw [Option.some.inj h4]
          exact hclr
      have q1 : e2.NorthRoad = e1.NorthRoad := congrArg model.City.NorthRoad hto
      have q2 : e2.EastRoad = e1.EastRoad := congrArg model.City.EastRoad hto
      have q3 : e2.SouthRoad = e1.SouthRoad := congrArg model.City.SouthRoad hto
      have q4 : e2.WestRoad = e1.WestRoad := congrArg model.City.WestRoad hto
      rw [q1, q2, q3, q4]
      exact he1

/-- One handled request keeps the roads symmetric and the empty name out of the map. -/
theorem handle_symmetric (fightDurK : Int) {w : World} (hwf : w.WF) (req : Request)
    (hempty : w.cities.get? "" = none)
    (hsym : ∀ a b da db, w.cities.get? a = some da → w.cities.get? b = some db →
      (da.NorthRoad = b → db.SouthRoad = a) ∧ (da.SouthRoad = b → db.NorthRoad = a) ∧
      (da.EastRoad = b → db.WestRoad = a) ∧ (da.WestRoad = b → db.EastRoad = a)) :
    (w.handle fightDurK req).1.cities.get? "" = none ∧
      ∀ a b da db, (w.handle fightDurK req).1.cities.get? a = some da →
        (w.handle fightDurK req).1.cities.get? b = some db →
        (da.NorthRoad = b → db.SouthRoad = a) ∧ (da.SouthRoad = b → db.NorthRoad = a) ∧
        (da.EastRoad = b → db.WestRoad = a) ∧ (da.WestRoad = b → db.EastRoad = a) := by
  constructor
  · cases h : (w.handle fightDurK req).1.cities.get? "" with
    | none => rfl
    | some d2 =>
      obtain ⟨d, hd, _, _⟩ := handle_city fightDurK hwf req h
      rw [hempty] at hd
      cases hd
  · intro a b da2 db2 ha2 hb2
    obtain ⟨da, hda, hsa, hca⟩ := handle_city fightDurK hwf req ha2
    obtain ⟨db, hdb, hsb, _⟩ := handle_city fightDurK hwf req hb2
    have hbne : b ≠ "" := by
      intro h; rw [h, hempty] at hdb; cases hdb
    obtain ⟨p1, p2, p3, p4⟩ := hsym a b da db hda hdb
    obtain ⟨a1, a2, a3, a4⟩ := hsa.slots
    obtain ⟨b1, b2, b3, b4⟩ := hsb.slots
    exact ⟨symmetric_slot hbne hca a1 b3 p1, symmetric_slot hbne hca a3 b1 p2,
      symmetric_slot hbne hca a2 b4 p3, symmetric_slot hbne hca a4 b2 p4⟩

/-- The world of a validated city map: the empty name is not a city, the roads are
symmetric and every road leads to a city of the map. -/
theorem NewWorld_validated (cityMap : model.CityMap) (hnd : cityMap.keys.Nodup)
    (hval : cityMap.Validate = .ok ()) :
    (NewWorld cityMap).cities.get? "" = none ∧
      (∀ a b da db, (NewWorld cityMap).cities.get? a = some da →
        (NewWorld cityMap).cities.get? b = some db →
        (da.NorthRoad = b → db.SouthRoad = a) ∧ (da.SouthRoad = b → db.NorthRoad = a) ∧
        (da.EastRoad = b → db.WestRoad = a) ∧ (da.WestRoad = b → db.EastRoad = a)) ∧
      ∀ c d, (NewWorld cityMap).cities.get? c = some d →
        (d.NorthRoad ≠ "" → ∃ n, (NewWorld cityMap).cities.get? d.NorthRoad = some n) ∧
        (d.EastRoad ≠ "" → ∃ n, (NewWorld cityMap).cities.get? d.EastRoad = some n) ∧
        (d.SouthRoad ≠ "" → ∃ n, (NewWorld cityMap).cities.get? d.SouthRoad = some n) ∧
        (d.WestRoad ≠ "" → ∃ n, (NewWorld cityMap).cities.get? d.WestRoad = some n) := by
  have hentries := model.CityMap.validateFrom_ok cityMap cityMap.entries hval
  have hname : ∀ e ∈ cityMap.entries, e.1 = e.2.Name :=
    fun e he => (model.CityMap.validateEntry_ok (hentries e he)).1
  have hinit := NewWorld_get? cityMap hnd hname
  have hkey : ∀ c m, cityMap.get? c = some m → c ≠ "" ∧
      (m.NorthRoad ≠ "" → (cityMap.getD m.NorthRoad model.City.zero).SouthRoad = c) ∧
      (m.EastRoad ≠ "" → (cityMap.getD m.EastRoad model.City.zero).WestRoad = c) ∧
      (m.SouthRoad ≠ "" → (cityMap.getD m.SouthRoad model.City.zero).NorthRoad = c) ∧
      (m.WestRoad ≠ "" → (cityMap.getD m.WestRoad model.City.zero).EastRoad = c) := by
    intro c m hm
    have hv := model.CityMap.validateEntry_ok (hentries (c, m) (GoMap.mem_entries_of_get? hm))
    exact ⟨model.cityNameRegexp_ne_empty hv.2.1, hv.2.2⟩
  refine ⟨?_, ?_, ?_⟩
  · rw [hinit]
    cases h : cityMap.get? "" with
    | none => rfl
    | some m => exact absurd rfl (hkey "" m h).1
  · intro a b da db ha hb
    rw [hinit] at ha hb
    obtain ⟨ma, hma, hda⟩ := Option.map_eq_some'.mp ha
    obtain ⟨mb, hmb, hdb⟩ := Option.map_eq_some'.mp hb
    obtain ⟨_, k1, k2, k3, k4⟩ := hkey a ma hma
    have hbne : b ≠ "" := (hkey b mb hmb).1
    have hget : cityMap.getD b model.City.zero = mb := by
      simp [GoMap.getD, hmb]
    subst hda hdb
    simp only [NewCity]
    refine ⟨?_, ?_, ?_, ?_⟩
    · intro h; have := k1 (h ▸ hbne); rwa [h, hget] at this
    · intro h; have := k3 (h ▸ hbne); rwa [h, hget] at this
    · intro h; have := k2 (h ▸ hbne); rwa [h, hget] at this
    · intro h; have := k4 (h ▸ hbne); rwa [h, hget] at this
  · intro c d hc
    rw [hinit] at hc
    obtain ⟨m, hm, hdm⟩ := Option.map_eq_some'.mp hc
    obtain ⟨hcne, k1, k2, k3, k4⟩ := hkey c m hm
    subst hdm
    simp only [NewCity, hinit]
    have hex : ∀ (road : String) (slot : model.City → String), slot model.City.zero = "" →
        slot (cityMap.getD road model.City.zero) = c →
        ∃ n, (cityMap.get? road).map NewCity = some n := by
      intro road slot hz hs
      obtain ⟨dm, hdm, _⟩ := (cityMap.slot_of_getD hcne slot hz).mp hs
      exact ⟨NewCity dm, by rw [hdm]; rfl⟩
    exact ⟨fun h => hex _ model.City.SouthRoad rfl (k1 h),
      fun h => hex _ model.City.WestRoad rfl (k2 h),
      fun h => hex _ model.City.NorthRoad rfl (k3 h),
      fun h => hex _ model.City.EastRoad rfl (k4 h)⟩

end state

namespace state

/-- One handled request keeps every road leading to a city of the map, in a well-formed
state with symmetric roads in which the empty name is not a city. -/
theorem handle_no_dangling (fightDurK : Int) {w : World} (hwf : w.WF) (req : Request)
    (hempty : w.cities.get? "" = none)
    (hsym : ∀ a b da db, w.cities.get? a = some da → w.cities.get? b = some db →
      (da.NorthRoad = b → db.SouthRoad = a) ∧ (da.SouthRoad = b → db.NorthRoad = a) ∧
      (da.EastRoad = b → db.WestRoad = a) ∧ (da.WestRoad = b → db.EastRoad = a))
    (hroads : ∀ c d, w.cities.get? c = some d →
      (d.NorthRoad ≠ "" → ∃ n, w.cities.get? d.NorthRoad = some n) ∧
      (d.EastRoad ≠ "" → ∃ n, w.cities.get? d.EastRoad = some n) ∧
      (d.SouthRoad ≠ "" → ∃ n, w.cities.get? d.SouthRoad = some n) ∧
      (d.WestRoad ≠ "" → ∃ n, w.cities.get? d.WestRoad = some n)) :
    ∀ c d, (w.handle fightDurK req).1.cities.get? c = some d →
      (d.NorthRoad ≠ "" → ∃ n, (w.handle fightDurK req).1.cities.get? d.NorthRoad = some n) ∧
      (d.EastRoad ≠ "" → ∃ n, (w.handle fightDurK req).1.cities.get? d.EastRoad = some n) ∧
      (d.SouthRoad ≠ "" → ∃ n, (w.handle fightDurK req).1.cities.get? d.SouthRoad = some n) ∧
      (d.WestRoad ≠ "" → ∃ n, (w.handle fightDurK req).1.cities.get? d.WestRoad = some n) := by
  intro c d2 hc
  obtain ⟨d, hd, hstep, _⟩ := handle_city fightDurK hwf req hc
  obtain ⟨s1, s2, s3, s4⟩ := hstep.slots
  obtain ⟨g1, g2, g3, g4⟩ := hroads c d hd
  -- the roads of the city after the request do not name a city the request has destroyed
  have hgone : ∀ c0, req.destroyed = some c0 → c0 ∈ w.cities.keys →
      d2.NorthRoad ≠ c0 ∧ d2.EastRoad ≠ c0 ∧ d2.SouthRoad ≠ c0 ∧ d2.WestRoad ≠ c0 := by
    intro c0 hdest hmem
    obtain ⟨dd, hdd⟩ := (GoMap.mem_keys_iff _ _).mp hmem
    have hne : c0 ≠ "" := by
      intro h; rw [h, hempty] at hdd; cases hdd
    rcases req with (r | r) | (r | r)
    · cases hdest
    · cases hdest
    · simp only [Request.destroyed, Option.some.injEq] at hdest
      subst hdest
      exact handleCityDestroyRequest_no_road hwf r hdd hne hsym hc
    · cases hdest
  have hstay : ∀ x, (∃ n, w.cities.get? x = some n) →
      (∀ c0, req.destroyed = some c0 → c0 ∈ w.cities.keys → x ≠ c0) →
      ∃ n, (w.handle fightDurK req).1.cities.get? x = some n := by
    intro x hx hnot
    rcases handle_keys fightDurK hwf req with hk | ⟨c0, hdest, hmem, _, hk⟩
    · rw [← GoMap.mem_keys_iff, hk, GoMap.mem_keys_iff]
      exact hx
    · rw [← GoMap.mem_keys_iff, hk x, GoMap.mem_keys_iff]
      exact ⟨hx, hnot c0 hdest hmem⟩
  refine ⟨fun h => ?_, fun h => ?_, fun h => ?_, fun h => ?_⟩
  · rcases s1 with e | ⟨_, e⟩
    · exact hstay _ (e ▸ g1 (e ▸ h)) (fun c0 h1 h2 => (hgone c0 h1 h2).1)
    · exact absurd e h
  · rcases s2 with e | ⟨_, e⟩
    · exact hstay _ (e ▸ g2 (e ▸ h)) (fun c0 h1 h2 => (hgone c0 h1 h2).2.1)
    · exact absurd e h
  · rcases s3 with e | ⟨_, e⟩
    · exact hstay _ (e ▸ g3 (e ▸ h)) (fun c0 h1 h2 => (hgone c0 h1 h2).2.2.1)
    · exact absurd e h
  · rcases s4 with e | ⟨_, e⟩
    · exact hstay _ (e ▸ g4 (e ▸ h)) (fun c0 h1 h2 => (hgone c0 h1 h2).2.2.2)
    · exact absurd e h

/-- C27: in every state reached from the world of a city map (a Go map, so with distinct
keys) that passes `Validate` by handling any sequence of requests, no city of the map has
a dangling road: every non-empty road slot of every city of the cities map names a city
that is in the cities map. -/
theorem no_dangling_roads (fightDurK : Int) (cityMap : model.CityMap)
    (hnd : cityMap.keys.Nodup) (hval : cityMap.Validate = .ok ()) (reqs : List Request) :
    ∀ c d, ((NewWorld cityMap).handleAll fightDurK reqs).1.cities.get? c = some d →
      (d.NorthRoad ≠ "" →
        ∃ n, ((NewWorld cityMap).handleAll fightDurK reqs).1.cities.get? d.NorthRoad = some n) ∧
      (d.EastRoad ≠ "" →
        ∃ n, ((NewWorld cityMap).handleAll fightDurK reqs).1.cities.get? d.EastRoad = some n) ∧
      (d.SouthRoad ≠ "" →
        ∃ n, ((NewWorld cityMap).handleAll fightDurK reqs).1.cities.get? d.SouthRoad = some n) ∧
      (d.WestRoad ≠ "" →
        ∃ n, ((NewWorld cityMap).handleAll fightDurK reqs).1.cities.get? d.WestRoad = some n) := by
  obtain ⟨i1, i2, i3⟩ := NewWorld_validated cityMap hnd hval
  have hmain := handleAll_induction fightDurK
    (fun w => w.cities.get? "" = none ∧
      (∀ a b da db, w.cities.get? a = some da → w.cities.get? b = some db →
        (da.NorthRoad = b → db.SouthRoad = a) ∧ (da.SouthRoad = b → db.NorthRoad = a) ∧
        (da.EastRoad = b → db.WestRoad = a) ∧ (da.WestRoad = b → db.EastRoad = a)) ∧
      ∀ c d, w.cities.get? c = some d →
        (d.NorthRoad ≠ "" → ∃ n, w.cities.get? d.NorthRoad = some n) ∧
        (d.EastRoad ≠ "" → ∃ n, w.cities.get? d.EastRoad = some n) ∧
        (d.SouthRoad ≠ "" → ∃ n, w.cities.get? d.SouthRoad = some n) ∧
        (d.WestRoad ≠ "" → ∃ n, w.cities.get? d.WestRoad = some n))
    (fun w req hwf hp =>
      ⟨(handle_symmetric fightDurK hwf req hp.1 hp.2.1).1,
        (handle_symmetric fightDurK hwf req hp.1 hp.2.1).2,
        handle_no_dangling fightDurK hwf req hp.1 hp.2.1 hp.2.2⟩)
    reqs (NewWorld cityMap) (NewWorld_WF cityMap) ⟨i1, i2, i3⟩
  exact hmain.2.2

theorem no_dangling_roads_witness :
    ∃ n, ((NewWorld sample.chain).handleAll 1
        [.world (.disembark ⟨sample.a1, "B"⟩), .world (.disembark ⟨sample.a2, "B"⟩),
          .world (.cityDestroy ⟨"A"⟩)]).1.cities.get? "C" = some n :=
  (no_dangling_roads 1 sample.chain (by decide) (by rfl)
    [.world (.disembark ⟨sample.a1, "B"⟩), .world (.disembark ⟨sample.a2, "B"⟩),
      .world (.cityDestroy ⟨"A"⟩)] "B"
    (((NewWorld sample.chain).handleAll 1
        [.world (.disembark ⟨sample.a1, "B"⟩), .world (.disembark ⟨sample.a2, "B"⟩),
          .world (.cityDestroy ⟨"A"⟩)]).1.cityAt "B") (by decide)).2.1 (by decide)

end state

namespace sim

/-! ## The constructor of the simulation -/

theorem applyOpts_ok (args : List Arg) :
    ∀ p : Processor, (∀ cm, Arg.withCityMap cm ∈ args → cm.Validate = .ok ()) →
      Arg.withMonitor none ∉ args →
      applyOpts p (args.map Arg.toOpt) =
        .ok ⟨Arg.cityMapOf p.cityMap args, Arg.aliensOf p.aliens args,
          Arg.monitorOf p.monitor args, p.worldState⟩ := by
  induction args with
  | nil => intro p _ _; rfl
  | cons a rest ih =>
    intro p hval hmon
    have hval2 : ∀ cm, Arg.withCityMap cm ∈ rest → cm.Validate = .ok () :=
      fun cm h => hval cm (List.mem_cons_of_mem _ h)
    have hmon2 : Arg.withMonitor none ∉ rest := fun h => hmon (List.mem_cons_of_mem _ h)
    cases a with
    | withCityMap cm =>
      have hcm := hval cm (List.mem_cons_self _ _)
      simp only [List.map_cons, applyOpts, Arg.toOpt, WithCityMap, hcm, ih _ hval2 hmon2,
        Arg.cityMapOf, Arg.aliensOf, Arg.monitorOf]
    | withAliens aliens =>
      simp only [List.map_cons, applyOpts, Arg.toOpt, WithAliens, ih _ hval2 hmon2,
        Arg.cityMapOf, Arg.aliensOf, Arg.monitorOf]
    | withMonitor m =>
      cases m with
      | none => exact absurd (List.mem_cons_self _ _) hmon
      | some l =>
        simp only [List.map_cons, applyOpts, Arg.toOpt, WithMonitor, ih _ hval2 hmon2,
          Arg.cityMapOf, Arg.aliensOf, Arg.monitorOf]

theorem applyOpts_error (args : List Arg) :
    ∀ p : Processor,
      ((∃ cm, Arg.withCityMap cm ∈ args ∧ cm.Validate ≠ .ok ()) ∨
        Arg.withMonitor none ∈ args) →
      ∃ err, applyOpts p (args.map Arg.toOpt) = .error err := by
  induction args with
  | nil =>
    intro p h
    rcases h with ⟨cm, h, _⟩ | h <;> cases h
  | cons a rest ih =>
    intro p h
    have hrest : ∀ p2 : Processor, a.toOpt p = .ok p2 →
        ((∃ cm, Arg.withCityMap cm ∈ rest ∧ cm.Validate ≠ .ok ()) ∨
          Arg.withMonitor none ∈ rest) →
        ∃ err, applyOpts p (List.map Arg.toOpt (a :: rest)) = .error err := by
      intro p2 hp2 h2
      obtain ⟨err, herr⟩ := ih p2 h2
      exact ⟨err, by simp only [List.map_cons, applyOpts, hp2, herr]⟩
    cases hopt : a.toOpt p with
    | error err => exact ⟨err, by simp only [List.map_cons, applyOpts, hopt]⟩
    | ok p2 =>
      apply hrest p2 hopt
      rcases h with ⟨cm, hmem, hbad⟩ | hmem
      · rcases List.mem_cons.mp hmem with heq | hmem
        · exfalso
          subst heq
          simp only [Arg.toOpt, WithCityMap] at hopt
          cases hv : cm.Validate with
          | error e => rw [hv] at hopt; cases hopt
          | ok u => exact hbad hv
        · exact Or.inl ⟨cm, hmem, hbad⟩
      · rcases List.mem_cons.mp hmem with heq | hmem
        · exfalso
          subst heq
          simp only [Arg.toOpt, WithMonitor] at hopt
          cases hopt
        · exact Or.inr hmem

theorem cityMapOf_not_supplied (cur : model.CityMap) (args : List Arg)
    (h : ∀ cm, Arg.withCityMap cm ∉ args) : Arg.cityMapOf cur args = cur := by
  induction args with
  | nil => rfl
  | cons a rest ih =>
    have h2 : ∀ cm, Arg.withCityMap cm ∉ rest := fun cm hm => h cm (List.mem_cons_of_mem _ hm)
    cases a with
    | withCityMap cm => exact absurd (List.mem_cons_self _ _) (h cm)
    | withAliens aliens => exact ih h2
    | withMonitor m => exact ih h2

theorem aliensOf_not_supplied (cur : List model.Alien) (args : List Arg)
    (h : ∀ aliens, Arg.withAliens aliens ∉ args) : Arg.aliensOf cur args = cur := by
  induction args with
  | nil => rfl
  | cons a rest ih =>
    have h2 : ∀ aliens, Arg.withAliens aliens ∉ rest :=
      fun aliens hm => h aliens (List.mem_cons_of_mem _ hm)
    cases a with
    | withCityMap cm => exact ih h2
    | withAliens aliens => exact absurd (List.mem_cons_self _ _) (h aliens)
    | withMonitor m => exact ih h2

theorem monitorOf_not_supplied (cur : Option monitor.Listener) (args : List Arg)
    (h : ∀ m, Arg.withMonitor m ∉ args) : Arg.monitorOf cur args = cur := by
  induction args with
  | nil => rfl
  | cons a rest ih =>
    have h2 : ∀ m, Arg.withMonitor m ∉ rest := fun m hm => h m (List.mem_cons_of_mem _ hm)
    cases a with
    | withCityMap cm => exact ih h2
    | withAliens aliens => exact ih h2
    | withMonitor m => exact absurd (List.mem_cons_self _ _) (h m)

theorem New_eq (args : List Arg) (hval : ∀ cm, Arg.withCityMap cm ∈ args → cm.Validate = .ok ())
    (hmon : Arg.withMonitor none ∉ args) :
    New (args.map Arg.toOpt) =
      if (Arg.cityMapOf GoMap.empty args).len = 0 then .error "city map is not defined (empty)"
      else if (Arg.aliensOf [] args).length = 0 then .error "aliens are not defined (empty)"
      else .ok ⟨Arg.cityMapOf GoMap.empty args, Arg.aliensOf [] args,
        Arg.monitorOf (some noop.New) args, none⟩ := by
  simp only [New, applyOpts_ok args _ hval hmon]

end sim

namespace sim

theorem New_error_of_opts (args : List Arg)
    (h : (∃ cm, Arg.withCityMap cm ∈ args ∧ cm.Validate ≠ .ok ()) ∨
      Arg.withMonitor none ∈ args) :
    ∃ err, New (args.map Arg.toOpt) = .error err := by
  obtain ⟨err, herr⟩ := applyOpts_error args
    { cityMap := GoMap.empty, aliens := [], monitor := some noop.New, worldState := none } h
  exact ⟨err, by simp only [New, herr]⟩

theorem New_error_of_empty (args : List Arg)
    (h : (Arg.cityMapOf GoMap.empty args).len = 0 ∨ Arg.aliensOf [] args = []) :
    ∃ err, New (args.map Arg.toOpt) = .error err := by
  by_cases hbad : (∃ cm, Arg.withCityMap cm ∈ args ∧ cm.Validate ≠ .ok ()) ∨
      Arg.withMonitor none ∈ args
  · exact New_error_of_opts args hbad
  · have hval : ∀ cm, Arg.withCityMap cm ∈ args → cm.Validate = .ok () := by
      intro cm hm
      by_contra hv
      exact hbad (Or.inl ⟨cm, hm, hv⟩)
    rw [New_eq args hval (fun hm => hbad (Or.inr hm))]
    by_cases hcm : (Arg.cityMapOf GoMap.empty args).len = 0
    · exact ⟨_, by rw [if_pos hcm]⟩
    · rcases h with h | h
      · exact absurd h hcm
      · exact ⟨_, by rw [if_neg hcm, if_pos (by rw [h]; rfl)]⟩

/-- C22: `New`, called with options built by `WithCityMap`, `WithAliens` and `WithMonitor`,
returns an error and no processor when a supplied city map fails `Validate`, when a nil
monitor is supplied, when the city map is empty or no city map is supplied, and when the
alien list is empty or no alien list is supplied.  In every other case it returns no
error and a processor that holds the supplied city map and alien list and the supplied
monitor, which is the monitor of package `noop` when no monitor option is given. -/
theorem New_spec (args : List Arg) :
    ((∃ cm, Arg.withCityMap cm ∈ args ∧ cm.Validate ≠ .ok ()) →
        ∃ err, New (args.map Arg.toOpt) = .error err) ∧
      (Arg.withMonitor none ∈ args → ∃ err, New (args.map Arg.toOpt) = .error err) ∧
      ((Arg.cityMapOf GoMap.empty args).len = 0 →
        ∃ err, New (args.map Arg.toOpt) = .error err) ∧
      ((∀ cm, Arg.withCityMap cm ∉ args) → ∃ err, New (args.map Arg.toOpt) = .error err) ∧
      (Arg.aliensOf [] args = [] → ∃ err, New (args.map Arg.toOpt) = .error err) ∧
      ((∀ aliens, Arg.withAliens aliens ∉ args) →
        ∃ err, New (args.map Arg.toOpt) = .error err) ∧
      ((∀ cm, Arg.withCityMap cm ∈ args → cm.Validate = .ok ()) →
        Arg.withMonitor none ∉ args → (Arg.cityMapOf GoMap.empty args).len ≠ 0 →
        Arg.aliensOf [] args ≠ [] →
        New (args.map Arg.toOpt) =
          .ok ⟨Arg.cityMapOf GoMap.empty args, Arg.aliensOf [] args,
            Arg.monitorOf (some noop.New) args, none⟩) ∧
      ((∀ m, Arg.withMonitor m ∉ args) →
        Arg.monitorOf (some noop.New) args = some noop.New) := by
  refine ⟨fun h => New_error_of_opts args (Or.inl h),
    fun h => New_error_of_opts args (Or.inr h),
    fun h => New_error_of_empty args (Or.inl h),
    fun h => New_error_of_empty args (Or.inl ?_),
    fun h => New_error_of_empty args (Or.inr h),
    fun h => New_error_of_empty args (Or.inr (aliensOf_not_supplied [] args h)),
    fun hval hmon hcm hal => ?_,
    fun h => monitorOf_not_supplied _ args h⟩
  · rw [cityMapOf_not_supplied GoMap.empty args h]
    rfl
  · rw [New_eq args hval hmon, if_neg hcm, if_neg]
    intro hlen
    exact hal (List.length_eq_zero.mp hlen)

theorem New_spec_witness :
    New [WithAliens [sample.a1, sample.a2], WithCityMap sample.chain] =
      .ok ⟨sample.chain, [sample.a1, sample.a2], some noop.New, none⟩ :=
  (New_spec [.withAliens [sample.a1, sample.a2], .withCityMap sample.chain]).2.2.2.2.2.2.1
    (fun cm h => by
      rcases List.mem_cons.mp h with h | h
      · cases h
      · rw [Arg.withCityMap.inj (List.mem_singleton.mp h)]
        rfl)
    (by decide) (by decide) (by decide)

end sim

namespace model

/-! ## The city-name check -/

theorem isLetter_of_isSeparator {c : Char} (h : isSeparator c = true) : isLetter c = false := by
  simp only [isSeparator, Bool.or_eq_true, decide_eq_true_eq] at h
  rcases h with (((((h | h) | h) | h) | h) | h) | h <;> subst h <;> decide

theorem cityNameTail_eq (cs : List Char) :
    cityNameTail cs =
      ((splitRuns isSeparator cs).1.all isLetter &&
        (splitRuns isSeparator cs).2.all (fun run => !run.isEmpty && run.all isLetter)) := by
  induction cs using cityNameTail.induct with
  | case1 => rfl
  | case2 d rest2 hd ih =>
    have hsep : isSeparator d = false := by
      cases h : isSeparator d with
      | false => rfl
      | true => rw [isLetter_of_isSeparator h] at hd; cases hd
    have hstep : cityNameTail (d :: rest2) = cityNameTail rest2 := by
      cases rest2 <;> simp [cityNameTail, hd]
    rw [hstep, ih]
    simp only [splitRuns, hsep, Bool.false_eq_true, if_false, List.all_cons, hd, Bool.true_and]
  | case3 d hd hsep =>
    simp [cityNameTail, hd, hsep, splitRuns]
  | case4 d hd hsep d1 rest2 ih =>
    have hd1 : cityNameTail (d :: d1 :: rest2) = (isLetter d1 && cityNameTail rest2) := by
      simp only [cityNameTail, hd, hsep, if_true, Bool.false_eq_true, if_false]
    rw [hd1, ih]
    cases hl : isLetter d1 with
    | true =>
      have hs1 : isSeparator d1 = false := by
        cases h : isSeparator d1 with
        | false => rfl
        | true => rw [isLetter_of_isSeparator h] at hl; cases hl
      simp [splitRuns, hsep, hs1, hl]
    | false =>
      cases hs1 : isSeparator d1 with
      | true => simp [splitRuns, hsep, hs1]
      | false => simp [splitRuns, hsep, hs1, hl]
  | case5 d rest2 hd hsep =>
    have hstep : cityNameTail (d :: rest2) = false := by
      cases rest2 <;> simp [cityNameTail, hd, hsep]
    rw [hstep]
    simp [splitRuns, hsep, hd]

/-- The check accepts exactly the names that consist of non-empty runs of letters joined
by one character of the class `[\s\-)]` each. -/
theorem cityNameRegexp_eq (s : String) :
    cityNameRegexp s = lettersJoinedBy isSeparator s := by
  unfold cityNameRegexp lettersJoinedBy
  cases hs : s.toList with
  | nil => rfl
  | cons c rest =>
    simp only [cityNameTail_eq]
    cases hl : isLetter c with
    | true =>
      have hsep : isSeparator c = false := by
        cases h : isSeparator c with
        | false => rfl
        | true => rw [isLetter_of_isSeparator h] at hl; cases hl
      simp [splitRuns, hsep, hl]
    | false =>
      cases hsep : isSeparator c with
      | true => simp [splitRuns, hsep]
      | false => simp [splitRuns, hsep, hl]

theorem splitRuns_congr {sep1 sep2 : Char → Bool} (cs : List Char)
    (h : ∀ c ∈ cs, sep1 c = sep2 c) : splitRuns sep1 cs = splitRuns sep2 cs := by
  induction cs with
  | nil => rfl
  | cons c rest ih =>
    simp only [splitRuns, h c (List.mem_cons_self _ _),
      ih (fun x hx => h x (List.mem_cons_of_mem _ hx))]

/-- C24, as stated, fails: the check accepts the name `A<tab>B`, whose two runs of letters
are joined by a tab, which is neither a space nor a hyphen. -/
theorem tab_joins_city_name :
    cityNameRegexp "A\tB" = true ∧ lettersJoinedBy isSpaceOrHyphen "A\tB" = false := by
  decide

/-- C24 (amended): for a name without the character `)`, the city-name check accepts the
name exactly when it consists of one or more non-empty runs of ASCII letters joined by
exactly one character of the class `[\s\-]` (space, tab, line feed, form feed, carriage
return or hyphen) between consecutive runs; so for a name that also has no tab, line
feed, form feed or carriage return, exactly when the runs are joined by exactly one space
or exactly one hyphen. -/
theorem cityNameRegexp_spec (s : String) (h : ')' ∉ s.toList) :
    cityNameRegexp s = lettersJoinedBy isWhitespaceOrHyphen s ∧
      ((∀ c ∈ s.toList, c ≠ '\t' ∧ c ≠ '\n' ∧ c ≠ Char.ofNat 12 ∧ c ≠ '\r') →
        cityNameRegexp s = lettersJoinedBy isSpaceOrHyphen s) := by
  have h1 : splitRuns isSeparator s.toList = splitRuns isWhitespaceOrHyphen s.toList := by
    apply splitRuns_congr
    intro c hc
    have hne : c ≠ ')' := fun hp => h (hp ▸ hc)
    simp [isSeparator, isWhitespaceOrHyphen, hne]
  refine ⟨?_, fun hws => ?_⟩
  · rw [cityNameRegexp_eq]
    simp only [lettersJoinedBy, h1]
  · have h2 : splitRuns isSeparator s.toList = splitRuns isSpaceOrHyphen s.toList := by
      apply splitRuns_congr
      intro c hc
      have hne : c ≠ ')' := fun hp => h (hp ▸ hc)
      obtain ⟨w1, w2, w3, w4⟩ := hws c hc
      simp [isSeparator, isSpaceOrHyphen, hne, w1, w2, w3, w4]
    rw [cityNameRegexp_eq]
    simp only [lettersJoinedBy, h2]

theorem cityNameRegexp_spec_witness :
    cityNameRegexp "Qu-ux" = lettersJoinedBy isSpaceOrHyphen "Qu-ux" :=
  (cityNameRegexp_spec "Qu-ux" (by decide)).2 (by decide)

end model

namespace strings

/-! ## Splitting and joining -/

theorem splitAt_of_not_mem {sep : Char} (p : List Char) (hp : sep ∉ p) :
    splitAt sep p = (p, []) := by
  induction p with
  | nil => rfl
  | cons c rest ih =>
    have hc : c ≠ sep := fun h => hp (h ▸ List.mem_cons_self _ _)
    simp only [splitAt, hc, if_false, ih (fun h => hp (List.mem_cons_of_mem _ h))]

theorem splitAt_append {sep : Char} (p rest : List Char) (hp : sep ∉ p) :
    splitAt sep (p ++ sep :: rest) = (p, (splitAt sep rest).1 :: (splitAt sep rest).2) := by
  induction p with
  | nil => simp only [List.nil_append, splitAt, if_true]
  | cons c more ih =>
    have hc : c ≠ sep := fun h => hp (h ▸ List.mem_cons_self _ _)
    simp only [List.cons_append, splitAt, hc, if_false, List.append_eq,
      ih (fun h => hp (List.mem_cons_of_mem _ h))]

theorem mk_toList (s : String) : String.mk s.toList = s := rfl

theorem toList_append_sep (a b : String) (sep : Char) :
    (a ++ String.singleton sep ++ b).toList = a.toList ++ sep :: b.toList := by
  simp [String.toList, String.data_append, String.singleton]

theorem Split_of_not_mem (s : String) (sep : Char) (h : sep ∉ s.toList) :
    Split s sep = [s] := by
  simp only [Split, splitAt_of_not_mem _ h, List.map_cons, List.map_nil, mk_toList]

theorem Split_append (a b : String) (sep : Char) (h : sep ∉ a.toList) :
    Split (a ++ String.singleton sep ++ b) sep = a :: Split b sep := by
  simp only [Split, toList_append_sep, splitAt_append _ _ h, List.map_cons, mk_toList]

theorem ToLower_mem {s : String} {c : Char} (h : c ∈ s.toList) :
    c.toLower ∈ (ToLower s).toList :=
  List.mem_map_of_mem _ h

end strings

namespace model

/-! ## Parsing a line of the map file -/

theorem Split_joinWords (word : String) (rest : List String)
    (h : ∀ w ∈ word :: rest, ' ' ∉ w.toList) :
    strings.Split (joinWords (word :: rest)) ' ' = word :: rest := by
  induction rest generalizing word with
  | nil =>
    exact strings.Split_of_not_mem word ' ' (h word (List.mem_cons_self _ _))
  | cons next more ih =>
    have hw := h word (List.mem_cons_self _ _)
    have hrest : ∀ w ∈ next :: more, ' ' ∉ w.toList :=
      fun w hm => h w (List.mem_cons_of_mem _ hm)
    have hjoin : joinWords (word :: next :: more) =
        word ++ String.singleton ' ' ++ joinWords (next :: more) := rfl
    rw [hjoin, strings.Split_append _ _ _ hw, ih next hrest]

theorem Split_text (t : RoadToken) (hside : '=' ∉ t.side.toList) (hname : '=' ∉ t.name.toList) :
    strings.Split t.text '=' = [t.side, t.name] := by
  have htext : t.text = t.side ++ String.singleton '=' ++ t.name := rfl
  rw [htext, strings.Split_append _ _ _ hside, strings.Split_of_not_mem _ _ hname]

theorem sideOk_no_sep {t : RoadToken} (h : t.sideOk = true) :
    '=' ∉ t.side.toList ∧ ' ' ∉ t.side.toList := by
  simp only [RoadToken.sideOk, decide_eq_true_eq, List.mem_cons, List.mem_singleton,
    List.not_mem_nil, or_false] at h
  constructor
  · intro hmem
    have hl := strings.ToLower_mem hmem
    rcases h with h | h | h | h <;> rw [h] at hl <;> revert hl <;> decide
  · intro hmem
    have hl := strings.ToLower_mem hmem
    rcases h with h | h | h | h <;> rw [h] at hl <;> revert hl <;> decide

theorem text_no_space {t : RoadToken} (h : t.sideOk = true) (hname : ' ' ∉ t.name.toList) :
    ' ' ∉ t.text.toList := by
  have htext : t.text.toList = t.side.toList ++ '=' :: t.name.toList :=
    strings.toList_append_sep t.side t.name '='
  rw [htext]
  intro hmem
  rcases List.mem_append.mp hmem with h1 | h1
  · exact (sideOk_no_sep h).2 h1
  · rcases List.mem_cons.mp h1 with h2 | h2
    · revert h2; decide
    · exact hname h2

theorem parseRoad_text (lineN : Nat) (city : City) (t : RoadToken) (h : t.sideOk = true)
    (hname : '=' ∉ t.name.toList) :
    parseRoad lineN city t.text =
      .ok ⟨city.Name, roadOf "north" city.NorthRoad [t], roadOf "east" city.EastRoad [t],
        roadOf "south" city.SouthRoad [t], roadOf "west" city.WestRoad [t]⟩ := by
  have hsplit := Split_text t (sideOk_no_sep h).1 hname
  simp only [RoadToken.sideOk, decide_eq_true_eq, List.mem_cons, List.mem_singleton,
    List.not_mem_nil, or_false] at h
  unfold parseRoad
  simp only [hsplit, List.length_cons, List.length_nil, List.getD_cons_zero,
    List.getD_cons_succ, roadOf]
  rcases h with h | h | h | h <;> rw [h] <;> simp

theorem parseRoads_text (lineN : Nat) (tokens : List RoadToken) :
    ∀ city : City, (∀ t ∈ tokens, t.sideOk = true ∧ '=' ∉ t.name.toList) →
      parseRoads lineN city (tokens.map RoadToken.text) =
        .ok ⟨city.Name, roadOf "north" city.NorthRoad tokens, roadOf "east" city.EastRoad tokens,
          roadOf "south" city.SouthRoad tokens, roadOf "west" city.WestRoad tokens⟩ := by
  induction tokens with
  | nil => intro city _; rfl
  | cons t rest ih =>
    intro city h
    obtain ⟨h1, h2⟩ := h t (List.mem_cons_self _ _)
    simp only [List.map_cons, parseRoads, parseRoad_text lineN city t h1 h2,
      ih _ (fun u hu => h u (List.mem_cons_of_mem _ hu)), roadOf]

theorem parseLine_lineOf (lineN : Nat) (cityMap : CityMap) (name : String)
    (tokens : List RoadToken) (hname : ' ' ∉ name.toList)
    (htok : ∀ t ∈ tokens, t.sideOk = true ∧ ' ' ∉ t.name.toList ∧ '=' ∉ t.name.toList) :
    (cityMap.get? name = none →
        parseLine lineN cityMap (lineOf name tokens) =
          .ok (cityMap.set name ⟨name, roadOf "north" "" tokens, roadOf "east" "" tokens,
            roadOf "south" "" tokens, roadOf "west" "" tokens⟩)) ∧
      ∀ seen, cityMap.get? name = some seen →
        parseLine lineN cityMap (lineOf name tokens) =
          .error ("parsing line (" ++ toString lineN ++ "): duplicate found") := by
  have hsplit : strings.Split (lineOf name tokens) ' ' = name :: tokens.map RoadToken.text := by
    apply Split_joinWords
    intro w hw
    rcases List.mem_cons.mp hw with h | h
    · rw [h]; exact hname
    · obtain ⟨t, ht, hwt⟩ := List.mem_map.mp h
      rw [← hwt]
      exact text_no_space (htok t ht).1 (htok t ht).2.1
  have hroads := parseRoads_text lineN tokens (City.mk name "" "" "" "")
    (fun t ht => ⟨(htok t ht).1, (htok t ht).2.2⟩)
  constructor
  · intro hnone
    simp only [parseLine, hsplit, hroads, hnone]
  · intro seen hseen
    simp only [parseLine, hsplit, hroads, hseen]

theorem parseLines_append (pre post : List String) :
    ∀ (lineN : Nat) (cityMap : CityMap),
      parseLines lineN cityMap (pre ++ post) =
        match parseLines lineN cityMap pre with
        | .error err => .error err
        | .ok cityMap2 => parseLines (lineN + pre.length) cityMap2 post := by
  induction pre with
  | nil => intro lineN cityMap; rfl
  | cons line rest ih =>
    intro lineN cityMap
    simp only [List.cons_append, parseLines]
    cases parseLine lineN cityMap line with
    | error err => rfl
    | ok cityMap2 =>
      simp only [List.append_eq, ih, List.length_cons]
      rw [show lineN + 1 + rest.length = lineN + (rest.length + 1) by omega]

end model

namespace model

theorem roadOf_none (key : String) (tokens : List RoadToken) :
    ∀ cur : String, (∀ t ∈ tokens, strings.ToLower t.side ≠ key) →
      roadOf key cur tokens = cur := by
  induction tokens with
  | nil => intro cur _; rfl
  | cons t rest ih =>
    intro cur h
    simp only [roadOf, h t (List.mem_cons_self _ _), if_false]
    exact ih cur (fun u hu => h u (List.mem_cons_of_mem _ hu))

theorem roadOf_append (key : String) (pre post : List RoadToken) :
    ∀ cur : String, roadOf key cur (pre ++ post) = roadOf key (roadOf key cur pre) post := by
  induction pre with
  | nil => intro cur; rfl
  | cons t rest ih => intro cur; simp only [List.cons_append, roadOf, List.append_eq, ih]

/-- C25, as stated, fails: the name `New York` matches the city-name format with a single
internal space, and the line formed from it and the road link `north=Bar` is a parse
error: the line is split at every space, so the city is named `New` and `York` is taken
for a road link. -/
theorem name_with_space_not_parsed :
    cityNameRegexp "New York" = true ∧ lettersJoinedBy isSpaceOrHyphen "New York" = true ∧
      lineOf "New York" [⟨"north", "Bar"⟩] = "New York north=Bar" ∧
      NewCityMapFromFile (.ok [lineOf "New York" [⟨"north", "Bar"⟩]]) =
        .error
          "parsing line (0): road link (York): invalid format (north=CityName is expected)" :=
  ⟨by decide, by decide, by decide, by rfl⟩

/-- C25 (amended): for every city name without a space and every list of road links
`side=OtherName` whose side is north, east, south or west in any letter case and whose
other name has no space and no `=`, parsing the line formed by joining the name and the
links with single spaces yields a city with exactly that name whose four road slots hold
the names given for their sides (the last one given for a side, and the empty string for
a side not given).  After lines that parsed to a map, such a line adds its city when the
name is not yet in the map, and is a parse error when the name was already seen. -/
theorem NewCityMapFromFile_line (name : String) (tokens : List RoadToken)
    (hname : ' ' ∉ name.toList)
    (htok : ∀ t ∈ tokens, t.sideOk = true ∧ ' ' ∉ t.name.toList ∧ '=' ∉ t.name.toList) :
    NewCityMapFromFile (.ok [lineOf name tokens]) =
        .ok ⟨[(name, ⟨name, roadOf "north" "" tokens, roadOf "east" "" tokens,
          roadOf "south" "" tokens, roadOf "west" "" tokens⟩)]⟩ ∧
      (∀ key, (∀ t ∈ tokens, strings.ToLower t.side ≠ key) → roadOf key "" tokens = "") ∧
      (∀ key pre t post, tokens = pre ++ t :: post → strings.ToLower t.side = key →
        (∀ u ∈ post, strings.ToLower u.side ≠ key) → roadOf key "" tokens = t.name) ∧
      ∀ pre m post, parseLines 0 GoMap.empty pre = .ok m →
        (m.get? name = none →
          NewCityMapFromFile (.ok (pre ++ [lineOf name tokens])) =
            .ok (m.set name ⟨name, roadOf "north" "" tokens, roadOf "east" "" tokens,
              roadOf "south" "" tokens, roadOf "west" "" tokens⟩)) ∧
        (∀ seen, m.get? name = some seen →
          NewCityMapFromFile (.ok (pre ++ lineOf name tokens :: post)) =
            .error ("parsing line (" ++ toString pre.length ++ "): duplicate found")) := by
  refine ⟨?_, fun key h => roadOf_none key tokens "" h, ?_, ?_⟩
  · simp only [NewCityMapFromFile, parseLines,
      (parseLine_lineOf 0 GoMap.empty name tokens hname htok).1 rfl]
    rfl
  · intro key pre t post htokens hside hpost
    rw [htokens, roadOf_append]
    simp only [roadOf, hside, if_true]
    exact roadOf_none key post _ hpost
  · intro pre m post hpre
    constructor
    · intro hnone
      simp only [NewCityMapFromFile, parseLines_append, hpre, parseLines,
        (parseLine_lineOf _ m name tokens hname htok).1 hnone]
    · intro seen hseen
      simp only [NewCityMapFromFile, parseLines_append, hpre, parseLines,
        (parseLine_lineOf _ m name tokens hname htok).2 seen hseen, Nat.zero_add]

theorem NewCityMapFromFile_line_witness :
    NewCityMapFromFile (.ok (["Bar south=Foo", "Foo north=Bar"] ++
        lineOf "Foo" [⟨"NORTH", "Bar"⟩, ⟨"West", "Qu-ux"⟩] :: ["Baz"])) =
      .error ("parsing line (" ++ toString ["Bar south=Foo", "Foo north=Bar"].length ++
        "): duplicate found") :=
  ((NewCityMapFromFile_line "Foo" [⟨"NORTH", "Bar"⟩, ⟨"West", "Qu-ux"⟩] (by decide)
    (by decide)).2.2.2 ["Bar south=Foo", "Foo north=Bar"]
    ⟨[("Bar", ⟨"Bar", "", "", "Foo", ""⟩), ("Foo", ⟨"Foo", "Bar", "", "", ""⟩)]⟩ ["Baz"]
    (by rfl)).2 ⟨"Foo", "Bar", "", "", ""⟩ (by decide)

end model

namespace fmt

/-! ## The names of the generated aliens -/

theorem valueOf_digitsOf (fuel : Nat) : ∀ n, n ≤ fuel → valueOf (digitsOf fuel n) = n := by
  induction fuel with
  | zero => intro n h; simp [digitsOf, valueOf, Nat.le_zero.mp h]
  | succ fuel ih =>
    intro n h
    by_cases h0 : n = 0
    · simp [digitsOf, valueOf, h0]
    · have hdiv : n / 10 ≤ fuel := by omega
      simp only [digitsOf, h0, if_false, valueOf, ih _ hdiv]
      omega

theorem digitsOf_lt (fuel : Nat) : ∀ n, ∀ d ∈ digitsOf fuel n, d < 10 := by
  induction fuel with
  | zero => intro n d h; simp [digitsOf] at h
  | succ fuel ih =>
    intro n d h
    by_cases h0 : n = 0
    · simp [digitsOf, h0] at h
    · simp only [digitsOf, h0, if_false, List.mem_cons] at h
      rcases h with h | h
      · omega
      · exact ih _ d h

theorem valueOf_append_zeros (ds : List Nat) (k : Nat) :
    valueOf (ds ++ List.replicate k 0) = valueOf ds := by
  induction ds with
  | nil =>
    induction k with
    | zero => rfl
    | succ k ih =>
      simp only [List.nil_append] at ih
      simp [List.replicate_succ, valueOf, ih]
  | cons d ds ih => simp only [List.cons_append, valueOf, List.append_eq, ih]

theorem valueOf_padded8 (n : Nat) : valueOf (padded8 n) = n := by
  rw [padded8, valueOf_append_zeros, valueOf_digitsOf n n (Nat.le_refl n)]

theorem padded8_lt (n : Nat) : ∀ d ∈ padded8 n, d < 10 := by
  intro d h
  rcases List.mem_append.mp h with h | h
  · exact digitsOf_lt n n d h
  · rw [(List.mem_replicate.mp h).2]; decide

theorem digitChar_inj : ∀ a < 10, ∀ b < 10, Nat.digitChar a = Nat.digitChar b → a = b := by
  decide

theorem map_digitChar_inj :
    ∀ xs ys : List Nat, (∀ d ∈ xs, d < 10) → (∀ d ∈ ys, d < 10) →
      xs.map Nat.digitChar = ys.map Nat.digitChar → xs = ys := by
  intro xs
  induction xs with
  | nil =>
    intro ys _ _ h
    cases ys with
    | nil => rfl
    | cons y ys => simp at h
  | cons x xs ih =>
    intro ys hx hy h
    cases ys with
    | nil => simp at h
    | cons y ys =>
      simp only [List.map_cons, List.cons.injEq] at h
      rw [digitChar_inj x (hx x (List.mem_cons_self _ _)) y (hy y (List.mem_cons_self _ _)) h.1,
        ih ys (fun d hd => hx d (List.mem_cons_of_mem _ hd))
          (fun d hd => hy d (List.mem_cons_of_mem _ hd)) h.2]

/-- Different ids are given different names. -/
theorem alienName_inj {a b : Nat} (h : alienName a = alienName b) : a = b := by
  have hdata := congrArg String.toList h
  simp only [alienName, String.toList, List.cons.injEq, true_and] at hdata
  have hrev := map_digitChar_inj _ _
    (fun d hd => padded8_lt a d (List.mem_reverse.mp hd))
    (fun d hd => padded8_lt b d (List.mem_reverse.mp hd)) hdata
  have hpad : padded8 a = padded8 b := List.reverse_injective hrev
  rw [← valueOf_padded8 a, ← valueOf_padded8 b, hpad]

end fmt

namespace config

theorem validateAlien_ok {c : Alien} (h : validateAlien c = .ok ()) :
    0 < c.AlienStepMinDur ∧ 0 < c.AlienStepMaxDur ∧ c.AlienStepMinDur ≤ c.AlienStepMaxDur ∧
      c.AlienMinPower ≤ c.AlienMaxPower ∧ 0 < c.AlienMaxSteps := by
  unfold validateAlien at h
  split at h
  · cases h
  · split at h
    · cases h
    · split at h
      · cases h
      · split at h
        · cases h
        · split at h
          · cases h
          · rename_i h1 h2 h3 h4 h5
            exact ⟨by omega, by omega, by omega, by omega, by omega⟩

end config

namespace model

/-! ## Generated aliens -/

theorem drawPower_ok (cfg : config.Alien) (rnd : Nat → RandInt63n) (calls : Nat)
    (hle : cfg.AlienMinPower ≤ cfg.AlienMaxPower) (hmax : cfg.AlienMaxPower < 2 ^ 64)
    (hfit : cfg.AlienMaxPower - cfg.AlienMinPower < 2 ^ 63) :
    ∃ pwr calls2, drawPower cfg rnd calls = some (pwr, calls2) ∧ cfg.AlienMinPower ≤ pwr ∧
      pwr ≤ cfg.AlienMaxPower := by
  unfold drawPower
  by_cases hne : cfg.AlienMaxPower ≠ cfg.AlienMinPower
  · have hmod : ((cfg.AlienMaxPower : Int) - (cfg.AlienMinPower : Int)) % 2 ^ 64 =
        (cfg.AlienMaxPower : Int) - (cfg.AlienMinPower : Int) :=
      Int.emod_eq_of_lt (by omega) (by omega)
    have hdiff : wrapInt64 (((cfg.AlienMaxPower : Int) - (cfg.AlienMinPower : Int)) % 2 ^ 64) =
        (cfg.AlienMaxPower : Int) - (cfg.AlienMinPower : Int) := by
      rw [hmod]
      exact state.wrapInt64_of_fits (by omega) (by omega)
    rw [if_pos hne]
    by_cases hpos : 0 < wrapInt64 (((cfg.AlienMaxPower : Int) - (cfg.AlienMinPower : Int)) % 2 ^ 64)
    · rw [dif_pos hpos]
      refine ⟨_, _, rfl, ?_, ?_⟩
      · obtain ⟨h0, h1⟩ := (rnd calls _ hpos).2
        have h2 := lt_of_lt_of_eq h1 hdiff
        have hr : (((rnd calls _ hpos).1 % 2 ^ 64).toNat : Int) = (rnd calls _ hpos).1 := by
          rw [Int.emod_eq_of_lt h0 (by omega)]
          exact Int.toNat_of_nonneg h0
        unfold wrapUint
        rw [Nat.mod_eq_of_lt (by omega)]
        omega
      · obtain ⟨h0, h1⟩ := (rnd calls _ hpos).2
        have h2 := lt_of_lt_of_eq h1 hdiff
        have hr : (((rnd calls _ hpos).1 % 2 ^ 64).toNat : Int) = (rnd calls _ hpos).1 := by
          rw [Int.emod_eq_of_lt h0 (by omega)]
          exact Int.toNat_of_nonneg h0
        unfold wrapUint
        rw [Nat.mod_eq_of_lt (by omega)]
        omega
    · exfalso
      apply hpos
      rw [hdiff]
      omega
  · rw [if_neg hne]
    exact ⟨_, _, rfl, Nat.le_refl _, hle⟩

theorem drawStep_ok (cfg : config.Alien) (rnd : Nat → RandInt63n) (calls : Nat)
    (hpos : 0 < cfg.AlienStepMinDur) (hle : cfg.AlienStepMinDur ≤ cfg.AlienStepMaxDur)
    (hmax : cfg.AlienStepMaxDur < 2 ^ 63) :
    ∃ dur calls2, drawStep cfg rnd calls = some (dur, calls2) ∧ cfg.AlienStepMinDur ≤ dur ∧
      dur ≤ cfg.AlienStepMaxDur := by
  unfold drawStep
  by_cases hne : cfg.AlienStepMaxDur ≠ cfg.AlienStepMinDur
  · have hdiff : wrapInt64 (cfg.AlienStepMaxDur - cfg.AlienStepMinDur) =
        cfg.AlienStepMaxDur - cfg.AlienStepMinDur :=
      state.wrapInt64_of_fits (by omega) (by omega)
    rw [if_pos hne]
    by_cases hd : 0 < wrapInt64 (cfg.AlienStepMaxDur - cfg.AlienStepMinDur)
    · rw [dif_pos hd]
      obtain ⟨h0, h1⟩ := (rnd calls _ hd).2
      have h2 := lt_of_lt_of_eq h1 hdiff
      have hsum : wrapInt64 (cfg.AlienStepMinDur + (rnd calls _ hd).1) =
          cfg.AlienStepMinDur + (rnd calls _ hd).1 :=
        state.wrapInt64_of_fits (by omega) (by omega)
      refine ⟨_, _, rfl, ?_, ?_⟩
      · rw [hsum]; omega
      · rw [hsum]; omega
    · exfalso
      apply hd
      rw [hdiff]
      omega
  · rw [if_neg hne]
    exact ⟨_, _, rfl, Int.le_refl _, hle⟩

/-- What `GenAliensFromConfig` yields for a configuration that passes the validation and
whose powers are less than `2 ^ 63` apart. -/
theorem genAliensFrom_ok (cfg : config.Alien) (rnd : Nat → RandInt63n)
    (hval : config.validateAlien cfg = .ok ()) (hrange : cfg.InRange)
    (hfit : cfg.AlienMaxPower - cfg.AlienMinPower < 2 ^ 63) (count : Nat) :
    ∀ id calls, ∃ aliens, genAliensFrom cfg rnd count id calls = some aliens ∧
      aliens.map Alien.Name = (List.range' id count).map fmt.alienName ∧
      ∀ a ∈ aliens, cfg.AlienMinPower ≤ a.Power ∧ a.Power ≤ cfg.AlienMaxPower ∧
        cfg.AlienStepMinDur ≤ a.Speed ∧ a.Speed ≤ cfg.AlienStepMaxDur ∧
        a.MaxSteps = cfg.AlienMaxSteps := by
  obtain ⟨v1, _, v3, v4, _⟩ := config.validateAlien_ok hval
  obtain ⟨_, _, _, r4, _, _, r7⟩ := hrange
  induction count with
  | zero => intro id calls; exact ⟨[], rfl, rfl, fun _ h => by cases h⟩
  | succ count ih =>
    intro id calls
    obtain ⟨pwr, c1, hp, hp1, hp2⟩ := drawPower_ok cfg rnd calls v4 r7 hfit
    obtain ⟨dur, c2, hd, hd1, hd2⟩ := drawStep_ok cfg rnd c1 v1 v3 r4
    obtain ⟨rest, hrest, hnames, hall⟩ := ih (id + 1) c2
    refine ⟨⟨fmt.alienName id, pwr, dur, cfg.AlienMaxSteps⟩ :: rest, ?_, ?_, ?_⟩
    · simp only [genAliensFrom, genAlien, hp, hd, hrest]
    · simp only [List.map_cons, hnames, List.range'_succ]
    · intro a ha
      rcases List.mem_cons.mp ha with h | h
      · rw [h]; exact ⟨hp1, hp2, hd1, hd2, rfl⟩
      · exact hall a h

end model

namespace model

/-- For a configuration that passes the validation, with values in the range of their
types and a maximum power less than `2 ^ 63` above the minimum power, and for every
outcome of the random draws, `GenAliensFromConfig n` makes every draw with a positive
bound and returns `n` aliens named after the ids `0` to `n - 1`, with pairwise distinct
names, each with a power and a step duration between the configured minimum and maximum
and with the configured number of steps. -/
theorem GenAliensFromConfig_in_range (cfg : config.Alien) (rnd : Nat → RandInt63n) (n : Nat)
    (hval : config.validateAlien cfg = .ok ()) (hrange : cfg.InRange)
    (hfit : cfg.AlienMaxPower - cfg.AlienMinPower < 2 ^ 63) :
    ∃ aliens, GenAliensFromConfig cfg rnd n = some aliens ∧ aliens.length = n ∧
      aliens.map Alien.Name = (List.range n).map fmt.alienName ∧
      (aliens.map Alien.Name).Nodup ∧
      ∀ a ∈ aliens, cfg.AlienMinPower ≤ a.Power ∧ a.Power ≤ cfg.AlienMaxPower ∧
        cfg.AlienStepMinDur ≤ a.Speed ∧ a.Speed ≤ cfg.AlienStepMaxDur ∧
        a.MaxSteps = cfg.AlienMaxSteps := by
  obtain ⟨aliens, h1, h2, h3⟩ := genAliensFrom_ok cfg rnd hval hrange hfit n 0 0
  have hnames : aliens.map Alien.Name = (List.range n).map fmt.alienName := by
    rw [h2, List.range_eq_range']
  refine ⟨aliens, h1, ?_, hnames, ?_, h3⟩
  · have := congrArg List.length hnames
    simpa using this
  · rw [hnames]
    exact (List.nodup_range n).map (fun a b h => fmt.alienName_inj h)

/-- C30: the configuration with minimum power 0 and maximum power `2 ^ 63` passes the
validation and its values are in the range of their types, yet `GenAliensFromConfig`
converts the difference of the powers to `int64`, which gives `-2 ^ 63`, and requests a
draw with that bound: `rand.Int63n` panics, for every random source and every positive
number of aliens, and no alien is returned. -/
theorem GenAliensFromConfig_wide_power :
    config.validateAlien sample.widePower = .ok () ∧ sample.widePower.InRange ∧
      wrapInt64 (((sample.widePower.AlienMaxPower : Int) -
        (sample.widePower.AlienMinPower : Int)) % 2 ^ 64) = -(2 ^ 63) ∧
      GenAliensFromConfig sample.widePower sample.drawZero 1 = none ∧
      ∀ (rnd : Nat → RandInt63n) (n : Nat), 0 < n →
        GenAliensFromConfig sample.widePower rnd n = none := by
  refine ⟨by rfl, by decide, by decide, by decide, ?_⟩
  intro rnd n hn
  have hdraw : drawPower sample.widePower rnd 0 = none := by
    unfold drawPower
    rw [if_pos (by decide), dif_neg (by decide)]
  cases n with
  | zero => cases hn
  | succ k => simp only [GenAliensFromConfig, genAliensFrom, genAlien, hdraw]

end model

namespace state

/-! ## Events sent to the mailboxes -/

theorem sendsTo_append (alien : String) (xs ys : List Effect) :
    sendsTo alien (xs ++ ys) = sendsTo alien xs + sendsTo alien ys := by
  induction xs with
  | nil => simp [sendsTo]
  | cons x rest ih =>
    cases x with
    | send a e => simp only [List.cons_append, sendsTo, ih, List.append_eq]; omega
    | notify e => simp only [List.cons_append, sendsTo, ih, List.append_eq]
    | spawn al => simp only [List.cons_append, sendsTo, ih, List.append_eq]

theorem sendsTo_notifications (alien : String) (effects : List Effect)
    (h : ∀ e ∈ effects, ∃ m, e = Effect.notify m) : sendsTo alien effects = 0 := by
  induction effects with
  | nil => rfl
  | cons x rest ih =>
    obtain ⟨m, hm⟩ := h x (List.mem_cons_self _ _)
    subst hm
    simp only [sendsTo]
    exact ih (fun e he => h e (List.mem_cons_of_mem _ he))

theorem dismissAlien_sends {w : World} (hwf : w.WF) (alienID reason alien : String) :
    sendsTo alien (w.dismissAlien alienID reason).2 ≤ if alienID = alien then 1 else 0 := by
  rcases dismissAlien_cases w alienID with hmiss | ⟨c, city, al, hidx, hcity, hal⟩
  · rw [dismissAlien_miss w _ _ hmiss]
    exact Nat.zero_le _
  · rw [dismissAlien_found w hwf reason hidx hcity hal]
    simp only [sendsTo]
    omega

theorem cityAt_alien_name {w : World} (hwf : w.WF) {city k : String} {alien : Alien}
    (h : (w.cityAt city).aliens.get? k = some alien) : alien.Name = k := by
  cases hc : w.cities.get? city with
  | none =>
    simp only [World.cityAt, GoMap.getD, hc, Option.getD_none, NewCity] at h
    cases h
  | some c =>
    rw [cityAt_eq hc] at h
    exact (hwf.city_mem hc).2.alien_name h

theorem dismissAliens_sends (city : String) :
    ∀ (rest : List (String × Alien)) (w : World), w.WF → (rest.map Prod.fst).Nodup →
      ∀ alien, sendsTo alien (w.dismissAliens city rest).2 ≤
        if alien ∈ rest.map Prod.fst then 1 else 0 := by
  intro rest
  induction rest with
  | nil => intro w _ _ alien; exact Nat.zero_le _
  | cons e rest ih =>
    intro w hwf hnd alien
    obtain ⟨k, v⟩ := e
    simp only [List.map_cons, List.nodup_cons] at hnd
    have hrest := ih w hwf hnd.2 alien
    unfold World.dismissAliens
    cases hal : (w.cityAt city).aliens.get? k with
    | none =>
      simp only [List.map_cons, List.mem_cons]
      by_cases hm : alien ∈ rest.map Prod.fst
      · rw [if_pos (Or.inr hm)]
        rw [if_pos hm] at hrest
        exact hrest
      · rw [if_neg hm] at hrest
        omega
    | some al =>
      have hname := cityAt_alien_name hwf hal
      have h1 := dismissAlien_sends hwf al.Name "destroyed" alien
      have h2 := ih _ (dismissAlien_WF hwf al.Name "destroyed") hnd.2 alien
      simp only [sendsTo_append, List.map_cons, List.mem_cons]
      by_cases hk : k = alien
      · have hnot : alien ∉ rest.map Prod.fst := hk ▸ hnd.1
        rw [if_neg hnot] at h2
        rw [if_pos (hname.trans hk)] at h1
        rw [if_pos (Or.inl hk.symm)]
        omega
      · rw [if_neg (fun h => hk (hname.symm.trans h))] at h1
        by_cases hm : alien ∈ rest.map Prod.fst
        · rw [if_pos (Or.inr hm)]
          rw [if_pos hm] at h2
          omega
        · rw [if_neg hm] at h2
          omega

theorem moveAlienTo_sends (fightDurK : Int) (w : World) (alien : Option Alien)
    (oldCity newCity : Option String) (a : String) :
    sendsTo a (w.moveAlienTo fightDurK alien oldCity newCity).2 ≤ 1 := by
  cases alien with
  | none => exact Nat.zero_le _
  | some alien =>
    cases newCity with
    | none => exact Nat.zero_le _
    | some newCity =>
      simp only [World.moveAlienTo]
      split
      · exact Nat.zero_le _
      · simp only [List.cons_append, List.nil_append, sendsTo]
        split <;> split <;> simp [sendsTo]

/-- One handled request sends at most one event to any one alien. -/
theorem handle_sends (fightDurK : Int) {w : World} (hwf : w.WF) (req : Request) (a : String) :
    sendsTo a (w.handle fightDurK req).2 ≤ 1 := by
  rcases req with (r | r) | (r | r)
  · rcases handleAlienMoveRequest_cases fightDurK w r with h | ⟨_, _, _, _, _, _, _, _, h⟩
    · simp only [World.handle, h]; exact Nat.zero_le _
    · simp only [World.handle, h]; exact moveAlienTo_sends _ _ _ _ _ _
  · have h := dismissAlien_sends hwf r.AlienID "evacuated" a
    simp only [World.handle, World.handleAlienEvacuateRequest]
    split at h <;> omega
  · simp only [World.handle, World.handleCityDestroyRequest]
    cases hc : w.cities.get? r.CityID with
    | none => exact Nat.zero_le _
    | some city =>
      have hrc := removeConnections_cleared w r.CityID
      have hwf2 := hrc.WF hwf
      obtain ⟨d2, hd2, _⟩ := hrc.city hc
      have hnd : (((w.removeConnections r.CityID).1.cityAt r.CityID).aliens.entries.map
          Prod.fst).Nodup := by
        rw [cityAt_eq hd2]
        exact (hwf2.city_mem hd2).2.1
      have h1 := sendsTo_notifications a (w.removeConnections r.CityID).2 (fun e he => by
        obtain ⟨m, hm⟩ := removeConnections_effects w r.CityID e he
        exact ⟨_, hm⟩)
      have h2 := dismissAliens_sends r.CityID _ _ hwf2 hnd a
      simp only [sendsTo_append, h1, sendsTo]
      split at h2 <;> omega
  · simp only [World.handle, World.handleAlienDisembarkRequest]
    cases hc : w.cities.get? r.CityID with
    | none => exact Nat.zero_le _
    | some city =>
      have h := moveAlienTo_sends fightDurK w (some (NewAlien r.Alien city.toCity)) none
        (some r.CityID) a
      have hs : sendsTo a [Effect.spawn (NewAlien r.Alien city.toCity)] = 0 := rfl
      rw [sendsTo_append, hs]
      exact h

end state

namespace state

theorem pending_set (m : Mailboxes) (a b : String) (events : List types.AlienEvent) :
    (Mailboxes.mk (m.boxes.set a events)).pending b =
      if a = b then events else m.pending b := by
  simp only [Mailboxes.pending, GoMap.getD, GoMap.get?_set]
  by_cases h : a = b
  · simp [h]
  · simp [h]

theorem send_of_empty (m : Mailboxes) (a : String) (e : types.AlienEvent)
    (h : m.pending a = []) : m.send a e = some ⟨m.boxes.set a [e]⟩ := by
  simp [Mailboxes.send, h]

theorem mem_of_sendsTo (a : String) (effects : List Effect) (h : 0 < sendsTo a effects) :
    ∃ e, Effect.send a e ∈ effects := by
  induction effects with
  | nil => cases h
  | cons x rest ih =>
    cases x with
    | send b e =>
      by_cases hb : b = a
      · exact ⟨e, by rw [hb]; exact List.mem_cons_self _ _⟩
      · simp only [sendsTo, hb, if_false, Nat.zero_add] at h
        obtain ⟨e2, he2⟩ := ih h
        exact ⟨e2, List.mem_cons_of_mem _ he2⟩
    | notify n =>
      obtain ⟨e2, he2⟩ := ih h
      exact ⟨e2, List.mem_cons_of_mem _ he2⟩
    | spawn al =>
      obtain ⟨e2, he2⟩ := ih h
      exact ⟨e2, List.mem_cons_of_mem _ he2⟩

/-- Effects that send at most one event to each alien are delivered with every send
finding room, when the mailboxes of the aliens they send to are empty. -/
theorem deliver_ok (effects : List Effect) :
    ∀ m : Mailboxes, (∀ a, sendsTo a effects ≤ 1) →
      (∀ a, 0 < sendsTo a effects → m.pending a = []) →
      ∃ m2, m.deliver effects = some m2 := by
  induction effects with
  | nil => intro m _ _; exact ⟨m, rfl⟩
  | cons x rest ih =>
    intro m hone hempty
    cases x with
    | send b e =>
      have hb : m.pending b = [] := hempty b (by simp [sendsTo])
      have hrest : sendsTo b rest = 0 := by
        have := hone b
        simp only [sendsTo, if_true] at this
        omega
      simp only [Mailboxes.deliver, send_of_empty m b e hb]
      apply ih
      · intro a
        have := hone a
        simp only [sendsTo] at this
        omega
      · intro a ha
        have hne : b ≠ a := by
          intro h
          rw [← h, hrest] at ha
          cases ha
        rw [pending_set, if_neg hne]
        apply hempty a
        simp only [sendsTo]
        omega
    | notify n => exact ih m hone hempty
    | spawn al => exact ih m hone hempty

/-- C26, as stated, fails: the alien `a1` in `B` has taken its landing event from its
mailbox and has sent two Move requests.  The World handles the first and puts a Relocated
event in the mailbox; when it handles the second before the alien has taken that event,
its send finds the mailbox full.  With a receive by the alien in between, both sends find
room. -/
theorem second_event_finds_no_room :
    ((System.mk sample.oneAtB ⟨GoMap.empty⟩).run 1
        [.handle (.alien (.move ⟨"a1", "C"⟩))]).map (fun s => s.mailboxes.pending "a1") =
        some [.AlienRelocatedEvent "a1" ⟨"C", "", "", "", "B"⟩] ∧
      (System.mk sample.oneAtB ⟨GoMap.empty⟩).run 1
        [.handle (.alien (.move ⟨"a1", "C"⟩)), .handle (.alien (.move ⟨"a1", "A"⟩))] = none ∧
      ((System.mk sample.oneAtB ⟨GoMap.empty⟩).run 1
        [.handle (.alien (.move ⟨"a1", "C"⟩)), .receive "a1",
          .handle (.alien (.move ⟨"a1", "A"⟩))]).isSome = true := by
  decide

/-- C26 (amended): in a well-formed state the World sends at most one event to any one
alien while it handles one request, so every Relocate or Dismiss send of the handler
finds room in the capacity-1 mailbox whenever the mailboxes of the aliens it sends to are
empty when the request is handled, that is, whenever each of these aliens has taken the
event of the previous request that sent to it. -/
theorem sends_find_room (fightDurK : Int) (w : World) (hwf : w.WF) (req : Request)
    (m : Mailboxes)
    (hempty : ∀ a e, Effect.send a e ∈ (w.handle fightDurK req).2 → m.pending a = []) :
    (∀ a, sendsTo a (w.handle fightDurK req).2 ≤ 1) ∧
      (∃ m2, m.deliver (w.handle fightDurK req).2 = some m2) ∧
      ∃ s2, (System.mk w m).step fightDurK (.handle req) = some s2 := by
  have hone := fun a => handle_sends fightDurK hwf req a
  have hdel := deliver_ok (w.handle fightDurK req).2 m hone (fun a ha => by
    obtain ⟨e, he⟩ := mem_of_sendsTo a _ ha
    exact hempty a e he)
  refine ⟨hone, hdel, ?_⟩
  obtain ⟨m2, hm2⟩ := hdel
  exact ⟨⟨(w.handle fightDurK req).1, m2⟩, by simp only [System.step, hm2]⟩

theorem sends_find_room_witness :
    ∃ s2, (System.mk sample.fightAtB ⟨GoMap.empty⟩).step 1
      (.handle (.world (.cityDestroy ⟨"B"⟩))) = some s2 :=
  (sends_find_room 1 sample.fightAtB (by decide) (.world (.cityDestroy ⟨"B"⟩)) ⟨GoMap.empty⟩
    (fun _ _ _ => rfl)).2.2

end state

namespace state

/-! ## The fight timer and its goroutine -/

theorem Engine.step_timerFired_gone (fightDurK : Int) (s : Engine) {city : String}
    (hc : s.world.cities.get? city = none) :
    s.step fightDurK (.timerFired city) =
      ⟨s.world, s.worldRequestsCh ++ [.cityDestroy ⟨city⟩], s.cleanups⟩ := by
  simp only [Engine.step, hc, types.NewCityDestroyRequest]

theorem Engine.step_timerFired_idle (fightDurK : Int) (s : Engine) {city : String} {c : City}
    (hc : s.world.cities.get? city = some c)
    (ht : c.fightTimer = none ∨ city ∈ s.cleanups) :
    s.step fightDurK (.timerFired city) = s := by
  simp only [Engine.step, hc, if_pos ht]

theorem Engine.step_timerFired_sent (fightDurK : Int) (s : Engine) {city : String} {c : City}
    (hc : s.world.cities.get? city = some c)
    (ht : ¬ (c.fightTimer = none ∨ city ∈ s.cleanups)) :
    s.step fightDurK (.timerFired city) =
      ⟨s.world, s.worldRequestsCh ++ [.cityDestroy ⟨c.Name⟩], city :: s.cleanups⟩ := by
  simp only [Engine.step, hc, if_neg ht, City.fightOver, types.NewCityDestroyRequest]

theorem Engine.step_timerCleared_idle (fightDurK : Int) (s : Engine) {city : String}
    (h : city ∉ s.cleanups) : s.step fightDurK (.timerCleared city) = s := by
  simp only [Engine.step, if_neg h]

theorem Engine.step_timerCleared_run (fightDurK : Int) (s : Engine) {city : String}
    (h : city ∈ s.cleanups) :
    s.step fightDurK (.timerCleared city) =
      ⟨⟨s.world.cities.modify city City.clearFightTimer, s.world.alienCityMap⟩,
        s.worldRequestsCh, s.cleanups.erase city⟩ := by
  simp only [Engine.step, if_pos h]

theorem Engine.step_worldRequest_none (fightDurK : Int) (s : Engine)
    (hq : s.worldRequestsCh = []) : s.step fightDurK .worldRequest = s := by
  simp only [Engine.step, hq]

theorem Engine.step_worldRequest_next (fightDurK : Int) (s : Engine) {r : types.WorldRequest}
    {rest : List types.WorldRequest} (hq : s.worldRequestsCh = r :: rest) :
    s.step fightDurK .worldRequest =
      ⟨(s.world.handle fightDurK (.world r)).1, rest, s.cleanups⟩ := by
  simp only [Engine.step, hq]

theorem CityStep.fights_timed_or {cleared : Option String} {d d2 : City}
    (h : CityStep cleared d d2) (waiting : Prop)
    (hd : 2 ≤ d.aliens.len → d.fightTimer.isSome = true ∨ waiting) :
    2 ≤ d2.aliens.len → d2.fightTimer.isSome = true ∨ waiting := by
  intro hlen2
  by_cases ht : d.fightTimer.isSome = true
  · exact Or.inl (h.timer ht)
  · by_cases hlen : 2 ≤ d.aliens.len
    · rcases hd hlen with h1 | h1
      · exact absurd h1 ht
      · exact Or.inr h1
    · exact Or.inl (h.fights_timed (fun hl => absurd hl hlen) hlen2)

theorem Engine.step_fights (fightDurK : Int) (s : Engine) (step : EngineStep)
    (hwf : s.world.WF) (hp : s.Timed) :
    (s.step fightDurK step).world.WF ∧ (s.step fightDurK step).Timed := by
  cases step with
  | alienRequest r =>
    refine ⟨handle_WF fightDurK hwf _, ?_⟩
    intro c d2 hd2
    obtain ⟨d, hd, hs, _⟩ := handle_city fightDurK hwf (.alien r) hd2
    exact ⟨hs.fights_timed_or _ (hp c d hd).1, (hp c d hd).2⟩
  | disembark r =>
    refine ⟨hwf, ?_⟩
    intro c d hd
    refine ⟨fun hlen => ?_, fun hmem => List.mem_append_left _ ((hp c d hd).2 hmem)⟩
    rcases (hp c d hd).1 hlen with h | h
    · exact Or.inl h
    · exact Or.inr (List.mem_append_left _ h)
  | timerFired city =>
    cases hc : s.world.cities.get? city with
    | none =>
      rw [Engine.step_timerFired_gone fightDurK s hc]
      refine ⟨hwf, ?_⟩
      intro c d hd
      refine ⟨fun hlen => ?_, fun hmem => List.mem_append_left _ ((hp c d hd).2 hmem)⟩
      rcases (hp c d hd).1 hlen with h | h
      · exact Or.inl h
      · exact Or.inr (List.mem_append_left _ h)
    | some cc =>
      by_cases ht : cc.fightTimer = none ∨ city ∈ s.cleanups
      · rw [Engine.step_timerFired_idle fightDurK s hc ht]
        exact ⟨hwf, hp⟩
      · rw [Engine.step_timerFired_sent fightDurK s hc ht]
        have hcc := hwf.city_mem hc
        refine ⟨hwf, ?_⟩
        intro c d hd
        refine ⟨fun hlen => ?_, fun hmem => ?_⟩
        · rcases (hp c d hd).1 hlen with h | h
          · exact Or.inl h
          · exact Or.inr (List.mem_append_left _ h)
        · rcases List.mem_cons.mp hmem with heq | hmem2
          · rw [hcc.1, heq]
            exact List.mem_append_right _ (List.mem_singleton.mpr rfl)
          · exact List.mem_append_left _ ((hp c d hd).2 hmem2)
  | timerCleared city =>
    by_cases hin : city ∈ s.cleanups
    · rw [Engine.step_timerCleared_run fightDurK s hin]
      refine ⟨hwf.modify_city city City.clearFightTimer
        (fun e he => ⟨rfl, ⟨he.1, he.2⟩⟩) hwf.2.1, ?_⟩
      intro c d2 hd2
      simp only [GoMap.get?_modify] at hd2
      by_cases hcity : city = c
      · simp only [hcity, if_true] at hd2
        refine ⟨fun _ => Or.inr ?_, fun hmem => ?_⟩
        · cases hd : s.world.cities.get? c with
          | none => rw [hd] at hd2; cases hd2
          | some d => exact (hp c d hd).2 (hcity ▸ hin)
        · cases hd : s.world.cities.get? c with
          | none => rw [hd] at hd2; cases hd2
          | some d => exact (hp c d hd).2 (hcity ▸ hin)
      · simp only [hcity, if_false] at hd2
        exact ⟨(hp c d2 hd2).1, fun hmem => (hp c d2 hd2).2 (List.mem_of_mem_erase hmem)⟩
    · rw [Engine.step_timerCleared_idle fightDurK s hin]
      exact ⟨hwf, hp⟩
  | worldRequest =>
    cases hq : s.worldRequestsCh with
    | nil =>
      rw [Engine.step_worldRequest_none fightDurK s hq]
      exact ⟨hwf, hp⟩
    | cons r rest =>
      rw [Engine.step_worldRequest_next fightDurK s hq]
      refine ⟨handle_WF fightDurK hwf _, ?_⟩
      intro c d2 hd2
      obtain ⟨d, hd, hs, hne⟩ := handle_city fightDurK hwf (.world r) hd2
      have hrest : types.WorldRequest.cityDestroy ⟨c⟩ ∈ s.worldRequestsCh →
          types.WorldRequest.cityDestroy ⟨c⟩ ∈ rest := by
        intro h
        rw [hq] at h
        rcases List.mem_cons.mp h with heq | hmem
        · exfalso
          rw [← heq] at hne
          exact hne rfl
        · exact hmem
      refine ⟨?_, fun hmem => hrest ((hp c d hd).2 hmem)⟩
      apply hs.fights_timed_or
      intro hlen
      rcases (hp c d hd).1 hlen with h | h
      · exact Or.inl h
      · exact Or.inr (hrest h)

theorem Engine.run_fights (fightDurK : Int) (steps : List EngineStep) :
    ∀ s : Engine, s.world.WF → s.Timed →
      (s.run fightDurK steps).world.WF ∧ (s.run fightDurK steps).Timed := by
  induction steps with
  | nil => intro s hwf hp; exact ⟨hwf, hp⟩
  | cons step rest ih =>
    intro s hwf hp
    obtain ⟨h1, h2⟩ := Engine.step_fights fightDurK s step hwf hp
    exact ih _ h1 h2

theorem Engine.start_fights (fightDurK : Int) (cityMap : model.CityMap)
    (steps : List EngineStep) :
    ((Engine.start cityMap).run fightDurK steps).world.WF ∧
      ((Engine.start cityMap).run fightDurK steps).Timed := by
  apply Engine.run_fights fightDurK steps _ (NewWorld_WF cityMap)
  intro c d hd
  refine ⟨fun hlen => ?_, fun hmem => ?_⟩
  · obtain ⟨e, _, he⟩ := NewWorld_city cityMap hd
    rw [he] at hlen
    simp [NewCity, GoMap.empty, GoMap.len] at hlen
  · simp [Engine.start] at hmem

/-- A set timer is unset only by the deferred function of its goroutine. -/
theorem Engine.step_timer (fightDurK : Int) (s : Engine) (hwf : s.world.WF)
    (step : EngineStep) {c : String} {d d2 : City} (hd : s.world.cities.get? c = some d)
    (hd2 : (s.step fightDurK step).world.cities.get? c = some d2)
    (ht : d.fightTimer.isSome = true) :
    d2.fightTimer.isSome = true ∨ step = .timerCleared c := by
  have hsame : s.world.cities.get? c = some d2 → d2.fightTimer.isSome = true := by
    intro h
    rw [hd] at h
    cases h
    exact ht
  have hhandled : ∀ req, (s.world.handle fightDurK req).1.cities.get? c = some d2 →
      d2.fightTimer.isSome = true := by
    intro req h
    obtain ⟨d0, hd0, hs, _⟩ := handle_city fightDurK hwf req h
    rw [hd] at hd0
    cases hd0
    exact hs.timer ht
  cases step with
  | alienRequest r => exact Or.inl (hhandled _ hd2)
  | disembark r => exact Or.inl (hsame hd2)
  | timerFired city =>
    left
    cases hc : s.world.cities.get? city with
    | none =>
      rw [Engine.step_timerFired_gone fightDurK s hc] at hd2
      exact hsame hd2
    | some cc =>
      by_cases hcc : cc.fightTimer = none ∨ city ∈ s.cleanups
      · rw [Engine.step_timerFired_idle fightDurK s hc hcc] at hd2
        exact hsame hd2
      · rw [Engine.step_timerFired_sent fightDurK s hc hcc] at hd2
        exact hsame hd2
  | timerCleared city =>
    by_cases hcity : city = c
    · right; rw [hcity]
    · left
      by_cases hin : city ∈ s.cleanups
      · rw [Engine.step_timerCleared_run fightDurK s hin] at hd2
        simp only [GoMap.get?_modify, hcity, if_false] at hd2
        exact hsame hd2
      · rw [Engine.step_timerCleared_idle fightDurK s hin] at hd2
        exact hsame hd2
  | worldRequest =>
    left
    cases hq : s.worldRequestsCh with
    | nil =>
      rw [Engine.step_worldRequest_none fightDurK s hq] at hd2
      exact hsame hd2
    | cons r rest =>
      rw [Engine.step_worldRequest_next fightDurK s hq] at hd2
      exact hhandled _ hd2

/-- C3 (amended): in every state the engine reaches from `NewWorld` -- Disembark, Move,
Evacuate and CityDestroyed requests handled by the loop, fight timers firing and their
goroutines sending the request and clearing the field in between -- a city whose roster holds
two or more aliens has its fight timer set, or the timer has fired and a CityDestroyed
request for the city is waiting on `worldRequestsCh`; and no handler unsets a timer: a city
whose timer is set before a step and that is still in the map afterwards has its timer set
afterwards, whatever its roster then holds, unless the step is the deferred function of the
goroutine of that city. -/
theorem fight_timer_armed (fightDurK : Int) (cityMap : model.CityMap)
    (steps : List EngineStep) :
    (∀ c d, ((Engine.start cityMap).run fightDurK steps).world.cities.get? c = some d →
        2 ≤ d.aliens.len →
        d.fightTimer.isSome = true ∨ types.WorldRequest.cityDestroy ⟨c⟩ ∈
          ((Engine.start cityMap).run fightDurK steps).worldRequestsCh) ∧
      ∀ step c d d2,
        ((Engine.start cityMap).run fightDurK steps).world.cities.get? c = some d →
        (((Engine.start cityMap).run fightDurK steps).step fightDurK step).world.cities.get? c
          = some d2 →
        d.fightTimer.isSome = true →
        d2.fightTimer.isSome = true ∨ step = .timerCleared c := by
  constructor
  · intro c d hd hlen
    exact ((Engine.start_fights fightDurK cityMap steps).2 c d hd).1 hlen
  · intro step c d d2 hd hd2 ht
    exact Engine.step_timer fightDurK _ (Engine.start_fights fightDurK cityMap steps).1 step
      hd hd2 ht

theorem fight_timer_armed_witness :
    (sample.fightOverAtB.world.cityAt "B").fightTimer.isSome = true ∨
      types.WorldRequest.cityDestroy ⟨"B"⟩ ∈ sample.fightOverAtB.worldRequestsCh :=
  (fight_timer_armed 1000000000 sample.chain
    (sample.landTwoAtB ++ [EngineStep.timerFired "B", EngineStep.timerCleared "B"])).1 "B"
    (sample.fightOverAtB.world.cityAt "B") (by decide) (by decide)

/-- C3, as stated, fails in both directions.  After `a1` and `a2` have landed in `B` and
`a1` has been evacuated, the roster of `B` holds one alien and the fight timer of `B` is
still set.  After `a1` and `a2` have landed in `B` and the fight timer of `B` has fired,
the roster of `B` holds two aliens and the timer is nil while the CityDestroyed request
waits; the loop removes `B` when it takes the request. -/
theorem timer_iff_fight_fails :
    ¬ sample.evacuatedFromB.world.TimerIffFight ∧
      (sample.evacuatedFromB.world.cityAt "B").aliens.len = 1 ∧
      (sample.evacuatedFromB.world.cityAt "B").fightTimer = some 2000000000 ∧
      ¬ sample.fightOverAtB.world.TimerIffFight ∧
      (sample.fightOverAtB.world.cityAt "B").aliens.len = 2 ∧
      (sample.fightOverAtB.world.cityAt "B").fightTimer = none ∧
      sample.fightOverAtB.worldRequestsCh = [.cityDestroy ⟨"B"⟩] ∧
      (sample.fightOverAtB.step 1000000000 .worldRequest).world.cities.get? "B" = none := by
  decide

end state

namespace state

/-! ## The roads after a city is destroyed -/

/-- The city data of every other city after the CityDestroyed handler has removed a city,
in a state with symmetric roads: the slots that named the removed city are emptied and the
other slots are unchanged, also when the removed city names a road to itself. -/
theorem handleCityDestroyRequest_toCity {w : World} (r : types.CityDestroyRequest)
    (hwf : w.WF) (hsym : w.RoadsSymmetric) {city : City}
    (hcity : w.cities.get? r.CityID = some city) :
    (w.handleCityDestroyRequest r).1.cities.get? r.CityID = none ∧
      ∀ c, c ≠ r.CityID →
        ((w.handleCityDestroyRequest r).1.cities.get? c).map City.toCity =
          (w.cities.get? c).map (fun d => (d.RemoveRoadsTo r.CityID).toCity) := by
  have heq := handleCityDestroyRequest_eq hwf r hcity
  have hrc := removeConnections_cleared w r.CityID
  have hwf2 := hrc.WF hwf
  have hloop := dismissAliens_evolves none r.CityID city.aliens.entries _ hwf2
  rw [heq]
  refine ⟨by simp, ?_⟩
  intro c hc
  simp only [GoMap.get?_delete_ne _ (Ne.symm hc)]
  have h1 : (((w.removeConnections r.CityID).1.dismissAliens r.CityID
      city.aliens.entries).1.cities.get? c).map City.toCity =
      ((w.removeConnections r.CityID).1.cities.get? c).map City.toCity := by
    rcases hloop c with ⟨h2, h3⟩ | ⟨d, d2, h2, h3, hs⟩
    · rw [h2, h3]
    · rw [h2, h3]
      simp only [Option.map_some', hs.toCity_none]
  rw [h1]
  cases hd : w.cities.get? c with
  | none =>
    rcases hrc.2.2 c with h2 | h2
    · rw [h2, hd]; rfl
    · rw [h2, hd]; rfl
  | some dx =>
    by_cases hmem : c = city.NorthRoad ∨ c = city.EastRoad ∨ c = city.SouthRoad ∨
        c = city.WestRoad
    · rw [removeConnections_neighbour hcity hd hc hmem]
      rfl
    · rcases hrc.get?_cases hd with h2 | h2
      · rw [h2]
        simp only [Option.map_some', Option.some.injEq]
        obtain ⟨p1, p2, p3, p4⟩ := hsym.get? hd hcity
        simp only [not_or] at hmem
        obtain ⟨m1, m2, m3, m4⟩ := hmem
        have q1 : dx.NorthRoad ≠ r.CityID := fun h => m3 (p1 h).symm
        have q2 : dx.SouthRoad ≠ r.CityID := fun h => m1 (p2 h).symm
        have q3 : dx.EastRoad ≠ r.CityID := fun h => m4 (p3 h).symm
        have q4 : dx.WestRoad ≠ r.CityID := fun h => m2 (p4 h).symm
        rw [RemoveRoadsTo_eq]
        simp [q1, q2, q3, q4]
      · rw [h2]
        rfl

/-- C7 (amended): in a well-formed state with symmetric roads, after the CityDestroyed
handler has removed an existing city C, C is gone from the map, no remaining city has a
road to C, and every remaining city has the city data it had with the slots that named C
emptied and the other slots unchanged; and where C names no road to itself, the
`CityUpdated` calls are, in the order north, east, south, west, one for each road slot of C
that names a city of the map, carrying the data of that neighbour after the removal.  For
the chain A - B - C with two aliens in B and B destroyed: `A.EastRoad` and `C.WestRoad` are
empty and the effects are two `CityUpdated` calls, the two dismissals and one final
`CityDestroyed`. -/
theorem handleCityDestroyRequest_roads (w : World) (r : types.CityDestroyRequest)
    (hwf : w.WF) (hsym : w.RoadsSymmetric) {city : City}
    (hcity : w.cities.get? r.CityID = some city) :
    (w.handleCityDestroyRequest r).1.cities.get? r.CityID = none ∧
      (∀ c d2, (w.handleCityDestroyRequest r).1.cities.get? c = some d2 →
        r.CityID ∉ d2.toCity.AvailableRoads) ∧
      (∀ c, c ≠ r.CityID →
        ((w.handleCityDestroyRequest r).1.cities.get? c).map City.toCity =
          (w.cities.get? c).map (fun d => (d.RemoveRoadsTo r.CityID).toCity)) ∧
      (r.CityID ∉ [city.NorthRoad, city.EastRoad, city.SouthRoad, city.WestRoad] →
        (w.handleCityDestroyRequest r).2.filter Effect.isCityUpdated =
          [city.NorthRoad, city.EastRoad, city.SouthRoad, city.WestRoad].filterMap (fun x =>
            (w.cities.get? x).map
              (fun d => Effect.notify (.CityUpdated (d.RemoveRoadsTo r.CityID).toCity)))) ∧
      ((sample.fightAtB.handleCityDestroyRequest ⟨"B"⟩).1.cityAt "A").EastRoad = "" ∧
      ((sample.fightAtB.handleCityDestroyRequest ⟨"B"⟩).1.cityAt "C").WestRoad = "" ∧
      (sample.fightAtB.handleCityDestroyRequest ⟨"B"⟩).2 =
        [.notify (.CityUpdated ⟨"C", "", "", "", ""⟩), .notify (.CityUpdated ⟨"A", "", "", "", ""⟩),
         .send "a1" (.AlienDismissedEvent "a1" "destroyed"),
         .notify (.AlienDismissed "a1" "destroyed"),
         .send "a2" (.AlienDismissedEvent "a2" "destroyed"),
         .notify (.AlienDismissed "a2" "destroyed"),
         .notify (.CityDestroyed "B" ["a1", "a2"])] := by
  obtain ⟨h2, h1⟩ := handleCityDestroyRequest_toCity r hwf hsym hcity
  refine ⟨h2, ?_, h1,
    fun hself => (handleCityDestroyRequest_cleared r hwf hsym hcity hself).2.2,
    by decide, by decide, by decide⟩
  intro c d2 hd2 hmem
  have hc : c ≠ r.CityID := by
    intro heq
    rw [heq, h2] at hd2
    cases hd2
  have h4 := h1 c hc
  rw [hd2] at h4
  cases hd : w.cities.get? c with
  | none => rw [hd] at h4; cases h4
  | some d =>
    rw [hd] at h4
    simp only [Option.map_some', Option.some.injEq] at h4
    rw [h4, AvailableRoads_mem, RemoveRoadsTo_eq] at hmem
    obtain ⟨hne, hslot⟩ := hmem
    simp only at hslot
    rcases hslot with hs | hs | hs | hs <;>
      · split at hs
        · exact hne hs
        · rename_i hx; exact hx hs.symm

theorem handleCityDestroyRequest_roads_witness :
    sample.fightAtB.WF ∧ sample.fightAtB.RoadsSymmetric ∧
      (sample.fightAtB.handleCityDestroyRequest ⟨"B"⟩).1.cities.get? "B" = none ∧
      (sample.fightAtB.handleCityDestroyRequest ⟨"B"⟩).2.filter Effect.isCityUpdated =
        [(sample.fightAtB.cityAt "B").NorthRoad, (sample.fightAtB.cityAt "B").EastRoad,
          (sample.fightAtB.cityAt "B").SouthRoad,
          (sample.fightAtB.cityAt "B").WestRoad].filterMap (fun x =>
            (sample.fightAtB.cities.get? x).map
              (fun d => Effect.notify (.CityUpdated (d.RemoveRoadsTo "B").toCity))) ∧
      (NewWorld sample.selfLoop).WF ∧ (NewWorld sample.selfLoop).RoadsSymmetric ∧
      ((NewWorld sample.selfLoop).handleCityDestroyRequest ⟨"A"⟩).1.cities.get? "A" = none :=
  ⟨by decide, by decide,
    (@handleCityDestroyRequest_roads sample.fightAtB ⟨"B"⟩ (by decide) (by decide)
      (sample.fightAtB.cityAt "B") (by decide)).1,
    (@handleCityDestroyRequest_roads sample.fightAtB ⟨"B"⟩ (by decide) (by decide)
      (sample.fightAtB.cityAt "B") (by decide)).2.2.2.1 (by decide),
    by decide, by decide,
    (@handleCityDestroyRequest_roads (NewWorld sample.selfLoop) ⟨"A"⟩ (by decide) (by decide)
      ((NewWorld sample.selfLoop).cityAt "A") (by decide)).1⟩

end state

namespace state

/-! ## Every alien of the index is in a city of the map -/

theorem dismissAlien_indexed {w : World} (hwf : w.WF) (h : w.Indexed) (alienID reason : String) :
    (w.dismissAlien alienID reason).1.Indexed ∧
      ∀ a c, (w.dismissAlien alienID reason).1.alienCityMap.get? a = some c →
        w.alienCityMap.get? a = some c := by
  rcases dismissAlien_cases w alienID with hmiss | ⟨c0, d0, alien, hidx, hcity, hal⟩
  · rw [dismissAlien_miss w _ _ hmiss]; exact ⟨h, fun _ _ ha => ha⟩
  · rw [dismissAlien_found w hwf reason hidx hcity hal]
    refine ⟨?_, ?_⟩
    · intro a c ha
      simp only [GoMap.get?_delete] at ha
      by_cases hne : alienID = a
      · simp [hne] at ha
      · simp only [hne, if_false] at ha
        obtain ⟨d, hd, hda⟩ := h a c ha
        simp only [GoMap.get?_set]
        by_cases hc : c0 = c
        · subst hc
          rw [hcity] at hd
          cases hd
          exact ⟨⟨d0.toCity, d0.fightTimer, d0.aliens.delete alienID⟩, by simp,
            by simpa [GoMap.get?_delete_ne _ hne] using hda⟩
        · exact ⟨d, by simp [hc, hd], hda⟩
    · intro a c ha
      simp only [GoMap.get?_delete] at ha
      by_cases hne : alienID = a
      · simp [hne] at ha
      · simpa [hne] using ha

/-- A visit of the loop of `handleCityDestroyRequest`: the alien the loop dismisses is not
mapped to the city afterwards. -/
theorem dismissAlien_unmapped {w : World} (hwf : w.WF) (city k reason : String) {alien : Alien}
    (hk : (w.cityAt city).aliens.get? k = some alien) :
    (w.dismissAlien k reason).1.alienCityMap.get? k ≠ some city := by
  rcases dismissAlien_cases w k with hmiss | ⟨c0, d0, alien0, hidx, hcity, hal⟩
  · rw [dismissAlien_miss w _ _ hmiss]
    intro hmap
    rcases hmiss with h1 | ⟨c, h1, h2⟩ | ⟨c, d, h1, h2, h3⟩
    · rw [h1] at hmap; cases hmap
    · rw [h1] at hmap
      cases hmap
      simp only [World.cityAt, GoMap.getD, h2, Option.getD_none, NewCity] at hk
      cases hk
    · rw [h1] at hmap
      cases hmap
      rw [cityAt_eq h2, h3] at hk
      cases hk
  · rw [dismissAlien_found w hwf reason hidx hcity hal]
    simp [GoMap.get?_delete]

theorem dismissAliens_indexed (city : String) :
    ∀ (rest : List (String × Alien)) (w : World), w.WF → w.Indexed →
      (w.dismissAliens city rest).1.Indexed ∧
        (∀ a c, (w.dismissAliens city rest).1.alienCityMap.get? a = some c →
          w.alienCityMap.get? a = some c) ∧
        ∀ e ∈ rest, (w.dismissAliens city rest).1.alienCityMap.get? e.1 ≠ some city := by
  intro rest
  induction rest with
  | nil => intro w _ h; exact ⟨h, fun _ _ ha => ha, fun _ he => by cases he⟩
  | cons e rest ih =>
    intro w hwf h
    obtain ⟨k, v⟩ := e
    unfold World.dismissAliens
    cases hk : (w.cityAt city).aliens.get? k with
    | none =>
      obtain ⟨i1, i2, i3⟩ := ih w hwf h
      refine ⟨i1, i2, ?_⟩
      intro e he
      rcases List.mem_cons.mp he with heq | hmem
      · subst heq
        intro hmap
        obtain ⟨d, hd, hda⟩ := h k city (i2 k city hmap)
        rw [cityAt_eq hd] at hk
        rw [hk] at hda
        cases hda
      · exact i3 e hmem
    | some alien =>
      have hname : alien.Name = k := cityAt_alien_name hwf hk
      obtain ⟨j1, j2⟩ := dismissAlien_indexed hwf h alien.Name "destroyed"
      obtain ⟨i1, i2, i3⟩ := ih _ (dismissAlien_WF hwf alien.Name "destroyed") j1
      refine ⟨i1, fun a c ha => j2 a c (i2 a c ha), ?_⟩
      intro e he
      rcases List.mem_cons.mp he with heq | hmem
      · subst heq
        intro hmap
        have h2 := i2 k city hmap
        rw [hname] at h2
        exact dismissAlien_unmapped hwf city k "destroyed" hk h2
      · exact i3 e hmem

theorem World.RoadsCleared.indexed {cityID : String} {w w2 : World}
    (hrc : World.RoadsCleared cityID w w2) (h : w.Indexed) : w2.Indexed := by
  intro a c ha
  rw [hrc.1] at ha
  obtain ⟨d, hd, hda⟩ := h a c ha
  obtain ⟨d2, hd2, _, hal, _, _⟩ := hrc.city hd
  exact ⟨d2, hd2, by rw [hal]; exact hda⟩

theorem handleCityDestroyRequest_indexed {w : World} (hwf : w.WF) (h : w.Indexed)
    (r : types.CityDestroyRequest) : (w.handleCityDestroyRequest r).1.Indexed := by
  cases hcity : w.cities.get? r.CityID with
  | none =>
    have hsame : w.handleCityDestroyRequest r = (w, []) := by
      simp only [World.handleCityDestroyRequest, hcity]
    rw [hsame]
    exact h
  | some city =>
    rw [handleCityDestroyRequest_eq hwf r hcity]
    have hrc := removeConnections_cleared w r.CityID
    obtain ⟨i1, i2, i3⟩ := dismissAliens_indexed r.CityID city.aliens.entries _ (hrc.WF hwf)
      (hrc.indexed h)
    intro a c ha
    obtain ⟨d, hd, hda⟩ := i1 a c ha
    have hc : r.CityID ≠ c := by
      intro heq
      subst heq
      have h1 := i2 a _ ha
      rw [hrc.1] at h1
      obtain ⟨d0, hd0, hda0⟩ := h a _ h1
      rw [hcity] at hd0
      cases hd0
      obtain ⟨alien, hal⟩ := Option.isSome_iff_exists.mp hda0
      exact i3 (a, alien) (GoMap.mem_entries_of_get? hal) ha
    exact ⟨d, by simp only [GoMap.get?_delete_ne _ hc]; exact hd, hda⟩

theorem handleAlienMoveRequest_indexed (fightDurK : Int) {w : World} (hwf : w.WF)
    (h : w.Indexed) (r : types.AlienMoveRequest) :
    (w.handleAlienMoveRequest fightDurK r).1.Indexed := by
  rcases handleAlienMoveRequest_cases fightDurK w r with
    hsame | ⟨o, oc, alien, nc, hidx, hO, hal, hN, hres⟩
  · rw [hsame]; exact h
  · by_cases hnf : oc.aliens.len ≤ 1
    · obtain ⟨s1, s2, s3, ⟨nc2, s4, s5, s6, _⟩, s7, _, _⟩ :=
        handleAlienMoveRequest_moved fightDurK w r hwf hidx hO hal hnf hN
      intro a c ha
      by_cases haA : a = r.AlienID
      · subst haA
        rw [s1] at ha
        cases ha
        exact ⟨nc2, s4, by rw [s5]; rfl⟩
      · rw [s2 a haA] at ha
        obtain ⟨d, hd, hda⟩ := h a c ha
        by_cases hcN : c = r.NewCityID
        · subst hcN
          rw [hN] at hd
          cases hd
          exact ⟨nc2, s4, by rw [s6 a haA]; exact hda⟩
        · by_cases hcO : c = o
          · subst hcO
            rw [hO] at hd
            cases hd
            obtain ⟨oc2, t1, _, t3⟩ := s3 hcN
            exact ⟨oc2, t1, by rw [t3 a haA]; exact hda⟩
          · exact ⟨d, by rw [s7 c hcO hcN]; exact hd, hda⟩
    · have hrej : w.handleAlienMoveRequest fightDurK r = (w, []) := by
        rw [hres]
        exact moveAlienTo_atFight fightDurK w _ o _ hO (by omega)
      rw [hrej]
      exact h

theorem handleAlienDisembarkRequest_indexed (fightDurK : Int) {w : World} (hwf : w.WF)
    (h : w.Indexed) (r : types.AlienDisembarkRequest) :
    (w.handleAlienDisembarkRequest fightDurK r).1.Indexed := by
  rcases handleAlienDisembarkRequest_cases fightDurK w r with ⟨_, hsame⟩ | ⟨city, hcity, hres⟩
  · rw [hsame]; exact h
  · rw [hres, moveAlienTo_landed fightDurK w _ hcity]
    have hname : city.Name = r.CityID := (hwf.city_mem hcity).1
    have hal : ∀ a, ((city.AddAlien fightDurK (some (NewAlien r.Alien city.toCity))).1.aliens.get?
        a).isSome = true ↔ a = r.Alien.Name ∨ (city.aliens.get? a).isSome = true := by
      intro a
      rw [AddAlien_aliens, GoMap.get?_set]
      simp only [NewAlien]
      by_cases ha : r.Alien.Name = a
      · simp [ha]
      · simp [ha, Ne.symm ha]
    simp only [hname, NewAlien] at hal ⊢
    intro a c ha
    simp only [GoMap.get?_set] at ha ⊢
    by_cases haA : r.Alien.Name = a
    · simp only [haA, if_true, Option.some.injEq] at ha
      subst ha
      exact ⟨_, by simp, (hal a).mpr (Or.inl haA.symm)⟩
    · simp only [haA, if_false] at ha
      obtain ⟨d, hd, hda⟩ := h a c ha
      by_cases hc : r.CityID = c
      · subst hc
        rw [hcity] at hd
        cases hd
        exact ⟨_, by simp, (hal a).mpr (Or.inr hda)⟩
      · exact ⟨d, by simp [hc, hd], hda⟩

theorem handle_indexed (fightDurK : Int) {w : World} (hwf : w.WF) (h : w.Indexed)
    (req : Request) : (w.handle fightDurK req).1.Indexed := by
  rcases req with (r | r) | (r | r)
  · exact handleAlienMoveRequest_indexed fightDurK hwf h r
  · exact (dismissAlien_indexed hwf h r.AlienID "evacuated").1
  · exact handleCityDestroyRequest_indexed hwf h r
  · exact handleAlienDisembarkRequest_indexed fightDurK hwf h r

theorem NewWorld_indexed (cityMap : model.CityMap) : (NewWorld cityMap).Indexed := by
  intro a c ha
  simp [NewWorld, GoMap.get?, GoMap.empty, GoMap.lookupIn] at ha

/-- With every alien of the index in a city of the map, no city left means no alien left. -/
theorem World.Indexed.no_city {w : World} (h : w.Indexed) (hc : w.cities.len = 0) :
    w.alienCityMap.len = 0 := by
  cases hidx : w.alienCityMap.entries with
  | nil => simp [GoMap.len, hidx]
  | cons e rest =>
    exfalso
    have ha : w.alienCityMap.get? e.1 = some e.2 := by
      simp [GoMap.get?, hidx, GoMap.lookupIn]
    obtain ⟨d, hd, _⟩ := h e.1 e.2 ha
    have hmem := GoMap.mem_entries_of_get? hd
    have hnil : w.cities.entries = [] := List.length_eq_zero.mp hc
    rw [hnil] at hmem
    cases hmem

/-- The stop check in a state in which every alien of the index is in a city of the map:
the test `cities == 1` of the method agrees with `cities <= 1`. -/
theorem World.Indexed.stops_iff {w : World} (h : w.Indexed) :
    (w.checkStopConditions.1 = true ↔ w.alienCityMap.len ≤ 1 ∨ w.cities.len ≤ 1) ∧
      w.checkStopConditions.2 =
        [.notify (.SimStatus w.alienCityMap.len w.cities.len w.checkStopConditions.1)] := by
  refine ⟨?_, rfl⟩
  rw [checkStopConditions_fst]
  have h0 := h.no_city
  omega

theorem Engine.step_indexed (fightDurK : Int) (s : Engine) (step : EngineStep)
    (hwf : s.world.WF) (h : s.world.Indexed) : (s.step fightDurK step).world.Indexed := by
  cases step with
  | alienRequest r => exact handle_indexed fightDurK hwf h _
  | disembark r => exact h
  | timerFired city =>
    cases hc : s.world.cities.get? city with
    | none =>
      rw [Engine.step_timerFired_gone fightDurK s hc]
      exact h
    | some cc =>
      by_cases ht : cc.fightTimer = none ∨ city ∈ s.cleanups
      · rw [Engine.step_timerFired_idle fightDurK s hc ht]
        exact h
      · rw [Engine.step_timerFired_sent fightDurK s hc ht]
        exact h
  | timerCleared city =>
    by_cases hin : city ∈ s.cleanups
    · rw [Engine.step_timerCleared_run fightDurK s hin]
      intro a c ha
      obtain ⟨d, hd, hda⟩ := h a c ha
      simp only [GoMap.get?_modify]
      by_cases hcity : city = c
      · subst hcity
        exact ⟨d.clearFightTimer, by simp [hd], hda⟩
      · exact ⟨d, by simp [hcity, hd], hda⟩
    · rw [Engine.step_timerCleared_idle fightDurK s hin]
      exact h
  | worldRequest =>
    cases hq : s.worldRequestsCh with
    | nil =>
      rw [Engine.step_worldRequest_none fightDurK s hq]
      exact h
    | cons r rest =>
      rw [Engine.step_worldRequest_next fightDurK s hq]
      exact handle_indexed fightDurK hwf h _

theorem Engine.run_indexed (fightDurK : Int) (steps : List EngineStep) :
    ∀ s : Engine, s.world.WF → s.Timed → s.world.Indexed →
      (s.run fightDurK steps).world.Indexed := by
  induction steps with
  | nil => intro s _ _ h; exact h
  | cons step rest ih =>
    intro s hwf ht h
    obtain ⟨h1, h2⟩ := Engine.step_fights fightDurK s step hwf ht
    exact ih _ h1 h2 (Engine.step_indexed fightDurK s step hwf h)

/-- C10: in every state a run reaches -- from `NewWorld` by any sequence of Disembark, Move,
Evacuate and CityDestroyed requests handled, and by any steps of the engine, fight timers
included -- `checkStopConditions` returns true exactly when `aliens <= 1 or cities <= 1`,
for the number of aliens in the index and the number of cities in the map, and it reports
one `SimStatus` with the two counts and the returned flag.  The method tests `aliens <= 1`
and `cities == 1`; every alien of the index is in a city of the map, so with no city left
no alien is left and the two tests agree. -/
theorem checkStopConditions_stops_iff (fightDurK : Int) (cityMap : model.CityMap) :
    (∀ reqs : List Request,
      ((((NewWorld cityMap).handleAll fightDurK reqs).1.checkStopConditions.1 = true ↔
        ((NewWorld cityMap).handleAll fightDurK reqs).1.alienCityMap.len ≤ 1 ∨
          ((NewWorld cityMap).handleAll fightDurK reqs).1.cities.len ≤ 1) ∧
      ((NewWorld cityMap).handleAll fightDurK reqs).1.checkStopConditions.2 =
        [.notify (.SimStatus ((NewWorld cityMap).handleAll fightDurK reqs).1.alienCityMap.len
          ((NewWorld cityMap).handleAll fightDurK reqs).1.cities.len
          ((NewWorld cityMap).handleAll fightDurK reqs).1.checkStopConditions.1)])) ∧
      ∀ steps : List EngineStep,
        ((((Engine.start cityMap).run fightDurK steps).world.checkStopConditions.1 = true ↔
          ((Engine.start cityMap).run fightDurK steps).world.alienCityMap.len ≤ 1 ∨
            ((Engine.start cityMap).run fightDurK steps).world.cities.len ≤ 1) ∧
        ((Engine.start cityMap).run fightDurK steps).world.checkStopConditions.2 =
          [.notify (.SimStatus ((Engine.start cityMap).run fightDurK steps).world.alienCityMap.len
            ((Engine.start cityMap).run fightDurK steps).world.cities.len
            ((Engine.start cityMap).run fightDurK steps).world.checkStopConditions.1)]) := by
  constructor
  · intro reqs
    exact (handleAll_induction fightDurK World.Indexed
      (fun w req hwf h => handle_indexed fightDurK hwf h req) reqs (NewWorld cityMap)
      (NewWorld_WF cityMap) (NewWorld_indexed cityMap)).stops_iff
  · intro steps
    have hstart : (Engine.start cityMap).Timed := by
      intro c d hd
      refine ⟨fun hlen => ?_, fun hmem => ?_⟩
      · obtain ⟨e, _, he⟩ := NewWorld_city cityMap hd
        rw [he] at hlen
        simp [NewCity, GoMap.empty, GoMap.len] at hlen
      · simp [Engine.start] at hmem
    exact (Engine.run_indexed fightDurK steps _ (NewWorld_WF cityMap) hstart
      (NewWorld_indexed cityMap)).stops_iff

end state
